import Mathlib

/-!
Verification development for the data-circuits repository.

This file gives a shallow embedding of the analysis core of the repository
(series/parallel reduction, modified nodal analysis, superposition, labeling)
and proves properties of the embedded definitions.

Modelling conventions, used throughout:

* JavaScript `number` (IEEE double) is modelled as the rational numbers `ℚ`
  with exact arithmetic.  Consequently `Number.isFinite` is modelled by the
  constantly-true predicate `numberIsFinite`.
* A JavaScript object used as a string-keyed record (`Record<string, T>`) and
  a JavaScript `Map` are modelled as an association list in insertion order
  (`JsMap`); setting an existing key updates it in place, a new key is
  appended, which matches JavaScript property insertion-order semantics.
* A JavaScript `Set` of strings is modelled as a duplicate-free list in
  insertion order.
* Every definition translated from a source file carries a comment naming
  that file.
-/

/-- Model of JavaScript `Number.isFinite`: rationals are always finite. -/
def numberIsFinite (_ : ℚ) : Bool := true

/-- Insertion-ordered keyed map, the model of a JS object (string keys) or a
JS `Map` (string or number keys). -/
abbrev JsMap (κ α : Type) := List (κ × α)

namespace JsMap

variable {κ : Type} [DecidableEq κ]

/-- Lookup (`m[k]` / `m.get(k)`): value of the first entry with the key. -/
def get {α : Type} (m : JsMap κ α) (k : κ) : Option α :=
  match m with
  | [] => none
  | (k', v) :: rest => if k' = k then some v else get rest k

/-- Lookup with default (`m[k] ?? d`). -/
def getD {α : Type} (m : JsMap κ α) (k : κ) (d : α) : α :=
  (get m k).getD d

/-- Key-membership test (`k in m` / `m.has(k)`). -/
def hasKey {α : Type} (m : JsMap κ α) (k : κ) : Bool :=
  (get m k).isSome

/-- Assignment (`m[k] = v` / `m.set(k, v)`): update in place if the key is
present, else append, preserving JS insertion order. -/
def set {α : Type} (m : JsMap κ α) (k : κ) (v : α) : JsMap κ α :=
  match m with
  | [] => [(k, v)]
  | (k', v') :: rest => if k' = k then (k, v) :: rest else (k', v') :: set rest k v

/-- Keys of the map, in insertion order. -/
def keys {α : Type} (m : JsMap κ α) : List κ := m.map (fun p => p.1)

end JsMap

/-!
## Oriented edge expressions of the series/parallel reducer

Source: src/src/circuit/nodeCircuitConvert.ts (the local `Expr` type).
An expression is the payload of a reducer edge, oriented from the edge's
`from` vertex to its `to` vertex.
-/

/-- Edge expression of the reducer (nodeCircuitConvert.ts, type `Expr`). -/
inductive Expr where
  | resistor (id : String) (name : Option String) (ohms : ℚ) : Expr
  | ammeter (id : String) (name : Option String) : Expr
  | vsource (id : String) (name : Option String) (volts : ℚ) : Expr
  | isource (id : String) (name : Option String) (amps : ℚ) : Expr
  | series (items : List Expr) : Expr
  | parallel (branches : List Expr) : Expr

mutual

/-- Orientation reversal of an edge expression
(nodeCircuitConvert.ts, `reverseExpr`): resistors and ammeters are unchanged,
source values are negated, series children are reversed in order and each
reversed, parallel branches are reversed element-wise.  The source computes
`items.slice().reverse().map(reverseExpr)`; this embedding maps first and
reverses after, which yields the identical list. -/
def reverseExpr : Expr → Expr
  | .resistor i n o => .resistor i n o
  | .ammeter i n => .ammeter i n
  | .vsource i n v => .vsource i n (-v)
  | .isource i n a => .isource i n (-a)
  | .series items => .series (reverseExprList items).reverse
  | .parallel bs => .parallel (reverseExprList bs)
termination_by e => sizeOf e

/-- Mapping of `reverseExpr` over a list (the `.map(reverseExpr)` calls). -/
def reverseExprList : List Expr → List Expr
  | [] => []
  | e :: rest => reverseExpr e :: reverseExprList rest
termination_by ls => sizeOf ls

end

/-!
## Series/parallel tree (editor canonical form)

Source: src/src/circuit/model.ts.  `Node` is the tagged union of circuit tree
nodes; optional TS fields become `Option`, and the optional `generated`
boolean becomes `Bool` (absent = `false`).
-/

mutual

/-- Circuit tree node (model.ts, type `Node`). -/
inductive Node where
  | resistor (id : String) (name : Option String) (ohms : ℚ) (generated : Bool) : Node
  | ammeter (id : String) (name : Option String) : Node
  | vsource (id : String) (name : Option String) (volts : ℚ) : Node
  | isource (id : String) (name : Option String) (amps : ℚ) : Node
  | series (id : String) (name : Option String) (items : List Node) : Node
  | parallel (id : String) (name : Option String) (branches : List ParallelBranch) : Node

/-- Parallel branch (model.ts, type `ParallelBranch`). -/
inductive ParallelBranch where
  | mk (id : String) (name : Option String) (items : List Node) : ParallelBranch

end

/-- Branch id accessor. -/
def ParallelBranch.id : ParallelBranch → String
  | .mk i _ _ => i

/-- Branch items accessor. -/
def ParallelBranch.items : ParallelBranch → List Node
  | .mk _ _ its => its

/-- Root route discriminant (model.ts, type `RootRoute`). -/
inductive RootRoute where
  | straight : RootRoute
  | u : RootRoute
deriving DecidableEq

/-- Whole circuit in tree form (model.ts, type `Circuit`); the `kind:
"circuit"` discriminant is implicit in the Lean type. -/
structure Circuit where
  id : String
  route : RootRoute
  items : Option (List Node)
  top : Option (List Node)
  right : Option (List Node)
  bottom : Option (List Node)

/-- Atomicity test (model.ts, `isAtomic`): resistors and ammeters. -/
def isAtomic : Node → Bool
  | .resistor _ _ _ _ => true
  | .ammeter _ _ => true
  | _ => false

/-- Root series items (solve.ts / graph module, `seriesItemsForCircuit`):
a `u` route concatenates top, right and bottom; `straight` uses `items`. -/
def seriesItemsForCircuit (c : Circuit) : List Node :=
  match c.route with
  | .u => (c.top.getD []) ++ (c.right.getD []) ++ (c.bottom.getD [])
  | .straight => c.items.getD []

/-!
## Reduction-level numeric rules

Source: the reduction module concatenated into src/src/components/SeriesListEditor.tsx
(`atomicOhms`, `sumOhms`, `isWireLike`, `seriesEquivalentOrError`,
`parallelEquivalentOrError`).
-/

/-- Ohms of an atomic node (reduce module, `atomicOhms`): ammeters count as
0 Ω.  The TS function is only ever applied to atomic nodes (`AtomicNode`);
non-atomic constructors are given 0 to make the function total. -/
def atomicOhms : Node → ℚ
  | .resistor _ _ o _ => o
  | _ => 0

/-- Sum of atomic ohms over a list (reduce module, `sumOhms`). -/
def sumOhms (items : List Node) : ℚ :=
  items.foldl (fun sum n => sum + atomicOhms n) 0

mutual

/-- Wire test (reduce module, `isWireLike`): a series whose items are all
wire-like (in particular an empty series) acts like a plain wire. -/
def isWireLike : Node → Bool
  | .series _ _ items => isWireLikeList items
  | _ => false
termination_by n => sizeOf n

/-- List helper for `isWireLike` (`items.every(isWireLike)`). -/
def isWireLikeList : List Node → Bool
  | [] => true
  | n :: rest => isWireLike n && isWireLikeList rest
termination_by ls => sizeOf ls

end

/-- Series equivalent (reduce module, `seriesEquivalentOrError`): sum of
atomic child ohms; 0 Ω total signals a short. -/
def seriesEquivalentOrError (items : List Node) : Except String ℚ :=
  if items.isEmpty then
    .error "Empty series group acts like a wire (0Ω) and would create a short."
  else if ¬ (items.all fun n => isAtomic n || isWireLike n) then
    .error "Internal error: expected atomic/wire series items."
  else
    let atoms := items.filter isAtomic
    let total := sumOhms atoms
    if total = 0 then .error "Short circuit detected (0Ω series path)."
    else if total < 0 ∨ numberIsFinite total = false then
      .error "Invalid resistance value during reduction."
    else .ok total

/-- Per-branch resistances of a parallel block (the branch loop of
`parallelEquivalentOrError` in the reduce module), with its early-return
errors. -/
def parallelBranchOhms : List ParallelBranch → Except String (List ℚ)
  | [] => .ok []
  | .mk _ _ items :: rest =>
    if items.isEmpty then
      .error "Empty parallel branch acts like a wire (0Ω) and creates a short."
    else if ¬ items.all isAtomic then
      .error "Internal error: expected atomic parallel branches."
    else
      let r := sumOhms items
      if r = 0 then .error "Short circuit detected: a parallel branch has 0Ω."
      else
        match parallelBranchOhms rest with
        | .error e => .error e
        | .ok rs => .ok (r :: rs)

/-- Parallel equivalent (reduce module, `parallelEquivalentOrError`):
reciprocal of the sum of branch reciprocals; the TS function receives the
whole `ParallelBlock` and reads `node.branches`, modelled here by passing
the branch list. -/
def parallelEquivalentOrError (branches : List ParallelBranch) :
    Except String (ℚ × List ℚ) :=
  if branches.length < 2 then .error "Parallel block must have at least 2 branches."
  else
    match parallelBranchOhms branches with
    | .error e => .error e
    | .ok branchOhms =>
      let denom := branchOhms.foldl (fun acc r => acc + 1 / r) 0
      let eq := 1 / denom
      if eq = 0 then .error "Short circuit detected (0Ω equivalent)."
      else if eq < 0 ∨ numberIsFinite eq = false then
        .error "Invalid resistance value during reduction."
      else .ok (eq, branchOhms)

/-!
## Resistor index assignment

Source: src/src/circuit/solve.ts (`parseResistorIndex`,
`assignResistorIndices`, `visitNodes`).
-/

/-- Identifier of a tree node. -/
def Node.nodeId : Node → String
  | .resistor i _ _ _ => i
  | .ammeter i _ => i
  | .vsource i _ _ => i
  | .isource i _ _ => i
  | .series i _ _ => i
  | .parallel i _ _ => i

/-- Optional label of a tree node. -/
def Node.nodeName : Node → Option String
  | .resistor _ n _ _ => n
  | .ammeter _ n => n
  | .vsource _ n _ => n
  | .isource _ n _ => n
  | .series _ n _ => n
  | .parallel _ n _ => n

/-- Model of JS `String.prototype.trim`: strip leading and trailing
whitespace. -/
def jsTrim (s : String) : String :=
  ⟨((s.data.dropWhile (fun c => c.isWhitespace)).reverse.dropWhile
      (fun c => c.isWhitespace)).reverse⟩

/-- Trimmed label of a node, empty when absent (`r.name?.trim() ?? ''`). -/
def labelOf (r : Node) : String := jsTrim ((Node.nodeName r).getD "")

/-- Skip a `\s*` regex segment. -/
def skipWs (cs : List Char) : List Char := cs.dropWhile (fun c => c.isWhitespace)

/-- Consume an optional single character (a `c?` regex segment). -/
def optChar (p : Char → Bool) (cs : List Char) : List Char :=
  match cs with
  | c :: rest => if p c then rest else cs
  | [] => []

/-- Decimal value of a digit run. -/
def digitsToNat (ds : List Char) : Nat :=
  ds.foldl (fun n c => 10 * n + (c.toNat - 48)) 0

/-- Matcher for the label regex of solve.ts
`/^L\s*(?:[_-]?\s*)?(?:\x7b?\s*_?\s*\x7b?\s*)?(\d+)\s*\x7d*\s*$/i` with
leading letter `L` (`R` for resistors, `A` for ammeters).  Every optional
regex element consumes one specific non-digit character and the mandatory
digit run consumes only digits, so this greedy matcher accepts exactly the
same strings as the backtracking regex.  `Number(...)`/`Number.isInteger`
on the digit run always yields that integer in the rational model. -/
def matchIndexPattern (letter : Char) (cs : List Char) : Option Nat :=
  match cs with
  | [] => none
  | c :: rest =>
    if c.toLower = letter.toLower then
      let r1 := skipWs rest
      let r2 := skipWs (optChar (fun c => c = '_' || c = '-') r1)
      let r3 := skipWs (optChar (fun c => c = '\x7b') r2)
      let r4 := skipWs (optChar (fun c => c = '_') r3)
      let r5 := skipWs (optChar (fun c => c = '\x7b') r4)
      let ds := r5.takeWhile (fun c => c.isDigit)
      if ds.isEmpty then none
      else
        let r6 := r5.dropWhile (fun c => c.isDigit)
        let r7 := skipWs ((skipWs r6).dropWhile (fun c => c = '\x7d'))
        if r7.isEmpty then some (digitsToNat ds) else none
    else none

/-- Resistor label parser (solve.ts, `parseResistorIndex`): accepts
`R1` / `R_1` / `R\x7b1\x7d` / `R_\x7b1\x7d` (case-insensitive, inner
whitespace tolerated), returning the claimed index. -/
def parseResistorIndex (name : String) : Option Nat :=
  let trimmed := jsTrim name
  if trimmed.length = 0 then none
  else matchIndexPattern 'R' trimmed.toList

mutual

/-- Resistors of a node list in visitation order (solve.ts, `visitNodes`
with the collecting callback of `assignResistorIndices`): pre-order, series
items then parallel branches in order; generated equivalents are skipped
unless requested. -/
def visitResistorsList (includeGen : Bool) : List Node → List Node
  | [] => []
  | n :: rest => visitResistorsNode includeGen n ++ visitResistorsList includeGen rest

/-- Per-node resistor collection step for `visitResistorsList`. -/
def visitResistorsNode (includeGen : Bool) (n : Node) : List Node :=
  match n with
  | .resistor i nm o g => if includeGen || !g then [.resistor i nm o g] else []
  | .series _ _ items => visitResistorsList includeGen items
  | .parallel _ _ bs => visitResistorsBranches includeGen bs
  | _ => []

/-- Branch recursion for `visitResistorsList`. -/
def visitResistorsBranches (includeGen : Bool) : List ParallelBranch → List Node
  | [] => []
  | .mk _ _ items :: rest =>
    visitResistorsList includeGen items ++ visitResistorsBranches includeGen rest

end

/-- First pass of `assignResistorIndices` (solve.ts): walk the resistors in
visitation order; a non-empty label must parse and claim an unclaimed
positive index; unlabeled resistors are queued. -/
def assignLoop1 : List Node → JsMap Nat String → JsMap String Nat → List Node →
    Except String (JsMap Nat String × JsMap String Nat × List Node)
  | [], used, indexById, unspecified => .ok (used, indexById, unspecified)
  | r :: rest, used, indexById, unspecified =>
    let label := labelOf r
    if label.isEmpty then assignLoop1 rest used indexById (unspecified ++ [r])
    else
      match parseResistorIndex label with
      | none =>
        .error ("Invalid resistor label \"" ++ label ++
          "\". Use R1 / R_1 / R\x7b1\x7d / R_\x7b1\x7d to set its index.")
      | some idx =>
        if idx = 0 then
          .error ("Invalid resistor index R_" ++ toString idx ++
            ". Indices must be positive integers (>= 1).")
        else if JsMap.hasKey used idx then
          .error ("Duplicate resistor index R_" ++ toString idx ++
            ". Each resistor must have a unique index.")
        else
          assignLoop1 rest (JsMap.set used idx (Node.nodeId r))
            (JsMap.set indexById (Node.nodeId r) idx) unspecified

/-- The `while (used.has(next)) next += 1` scan of `assignResistorIndices`,
given enough fuel; `used.length + 1` always suffices by pigeonhole. -/
def findFreeFrom (used : JsMap Nat String) (next : Nat) : Nat → Nat
  | 0 => next
  | fuel + 1 =>
    if JsMap.hasKey used next then findFreeFrom used (next + 1) fuel else next

/-- Second pass of `assignResistorIndices` (solve.ts): each unlabeled
resistor takes the smallest unclaimed index, scanning upward from `next`. -/
def assignLoop2 : List Node → JsMap Nat String → JsMap String Nat → Nat →
    JsMap Nat String × JsMap String Nat
  | [], used, indexById, _ => (used, indexById)
  | r :: rest, used, indexById, next =>
    let v := findFreeFrom used next (used.length + 1)
    assignLoop2 rest (JsMap.set used v (Node.nodeId r))
      (JsMap.set indexById (Node.nodeId r) v) (v + 1)

/-- Resistor index assignment (solve.ts, `assignResistorIndices`). -/
def assignResistorIndices (circuit : Circuit) (includeGeneratedResistors : Bool) :
    Except String (JsMap String Nat) :=
  let resistors := visitResistorsList includeGeneratedResistors (seriesItemsForCircuit circuit)
  match assignLoop1 resistors [] [] [] with
  | .error e => .error e
  | .ok (used, indexById, unspecified) => .ok (assignLoop2 unspecified used indexById 1).2

/-- Explicit indices claimed by the labeled resistors of a list, in order. -/
def claimedOf (rs : List Node) : List Nat :=
  rs.filterMap (fun r => if (labelOf r).isEmpty then none else parseResistorIndex (labelOf r))

/-!
## MNA solver

Source: src/unnamed/part_007 (the mna module) and the graph module's
`GraphElement` type.
-/

/-- Flattened circuit element over integer node indices (graph module,
`GraphElement`).  Current sources carry `independent: true` in TS and are
treated as always independent. -/
inductive GraphElement where
  | resistor (id : String) (name : Option String) (ohms : ℚ) (generated : Bool)
      (n1 n2 : Nat) : GraphElement
  | isource (id : String) (name : Option String) (amps : ℚ)
      (nFrom nTo : Nat) : GraphElement
  | vsource (id : String) (name : Option String) (volts : ℚ)
      (nPlus nMinus : Nat) (independent : Bool) : GraphElement
deriving DecidableEq

/-- Identifier of a graph element. -/
def GraphElement.gid : GraphElement → String
  | .resistor i _ _ _ _ _ => i
  | .isource i _ _ _ _ => i
  | .vsource i _ _ _ _ _ => i

/-- Test for `e.kind === 'vsource'`. -/
def GraphElement.isVsource : GraphElement → Bool
  | .vsource _ _ _ _ _ _ => true
  | _ => false

/-- Dense vector of doubles. -/
abbrev Vec := List ℚ

/-- Dense matrix of doubles, row major. -/
abbrev Mat := List (List ℚ)

/-- Vector read `v[i]` (all accesses are in bounds in the source). -/
def vget (v : Vec) (i : Nat) : ℚ := v.getD i 0

/-- Vector write `v[i] = x`. -/
def vset (v : Vec) (i : Nat) (x : ℚ) : Vec := v.set i x

/-- Matrix read `M[i][j]`. -/
def mget (M : Mat) (i j : Nat) : ℚ := (M.getD i []).getD j 0

/-- Matrix write `M[i][j] = x`. -/
def mset (M : Mat) (i j : Nat) (x : ℚ) : Mat := M.set i ((M.getD i []).set j x)

/-- Square zero matrix (mna module, `zeroMatrix`). -/
def zeroMatrix (n : Nat) : Mat := List.replicate n (List.replicate n 0)

/-- Partial-pivot selection at a column (mna module, the scan in
`solveLinearSystem`): the first row index at or below `col` whose entry has
the strictly largest absolute value, together with that absolute value. -/
def pivotSelect (M : Mat) (n col : Nat) : Nat × ℚ :=
  (List.range' (col + 1) (n - (col + 1))).foldl
    (fun p r =>
      let v := |mget M r col|
      if p.2 < v then (r, v) else p)
    (col, |mget M col col|)

/-- Row swap of the elimination (`M[col] ↔ M[pivot]`). -/
def swapRows (M : Mat) (i j : Nat) : Mat :=
  let ri := M.getD i []
  let rj := M.getD j []
  (M.set i rj).set j ri

/-- Entry swap of the right-hand side (`rhs[col] ↔ rhs[pivot]`). -/
def swapVec (b : Vec) (i j : Nat) : Vec :=
  let vi := vget b i
  let vj := vget b j
  (b.set i vj).set j vi

/-- Elimination of one row below the pivot (mna module, inner loop of
`solveLinearSystem`): subtract `factor` times the pivot row; a zero factor
leaves the row untouched (`continue`). -/
def elimOneRow (M : Mat) (rhs : Vec) (col n : Nat) (diag : ℚ) (r : Nat) : Mat × Vec :=
  let factor := mget M r col / diag
  if factor = 0 then (M, rhs)
  else
    let rhs1 := vset rhs r (vget rhs r - factor * vget rhs col)
    let M1 := mset M r col 0
    let M2 := (List.range' (col + 1) (n - (col + 1))).foldl
      (fun Macc c => mset Macc r c (mget Macc r c - factor * mget Macc col c)) M1
    (M2, rhs1)

/-- Elimination of all rows below the pivot row. -/
def elimBelow (M : Mat) (rhs : Vec) (col n : Nat) (diag : ℚ) : Mat × Vec :=
  (List.range' (col + 1) (n - (col + 1))).foldl
    (fun st r => elimOneRow st.1 st.2 col n diag r) (M, rhs)

/-- One column step of forward elimination: select the pivot by absolute
value, fail on a zero (or non-finite) pivot, swap the pivot row into place
when needed, and eliminate below. -/
def elimStep (n : Nat) (st : Mat × Vec) (col : Nat) : Option (Mat × Vec) :=
  let pv := pivotSelect st.1 n col
  if pv.2 = 0 ∨ numberIsFinite pv.2 = false then none
  else
    let M1 := if pv.1 ≠ col then swapRows st.1 col pv.1 else st.1
    let rhs1 := if pv.1 ≠ col then swapVec st.2 col pv.1 else st.2
    some (elimBelow M1 rhs1 col n (mget M1 col col))

/-- Forward elimination over the given columns in order (the
`for (col = 0; col < n; col++)` loop of `solveLinearSystem`, which runs over
`List.range n`). -/
def elimLoop (n : Nat) (st : Mat × Vec) : List Nat → Option (Mat × Vec)
  | [] => some st
  | col :: rest =>
    match elimStep n st col with
    | none => none
    | some st2 => elimLoop n st2 rest

/-- Back-substitution rows (mna module, second loop of `solveLinearSystem`),
processing the given row indices in order; fails on a zero (or non-finite)
diagonal. -/
def backSubstGo (M : Mat) (rhs : Vec) (n : Nat) : List Nat → Vec → Option Vec
  | [], x => some x
  | r :: rest, x =>
    let sum := (List.range' (r + 1) (n - (r + 1))).foldl
      (fun s c => s - mget M r c * vget x c) (vget rhs r)
    let diag := mget M r r
    if diag = 0 ∨ numberIsFinite diag = false then none
    else backSubstGo M rhs n rest (vset x r (sum / diag))

/-- Back substitution from the last row upward. -/
def backSubst (M : Mat) (rhs : Vec) (n : Nat) : Option Vec :=
  backSubstGo M rhs n (List.range n).reverse (List.replicate n 0)

/-- Dense linear solve (mna module, `solveLinearSystem`): Gaussian
elimination with partial pivoting on absolute value followed by back
substitution; `null` on a zero or non-finite pivot.  The JS copy of `A` and
`b` is a no-op in this pure model. -/
def solveLinearSystem (A : Mat) (b : Vec) : Option Vec :=
  match elimLoop b.length (A, b) (List.range b.length) with
  | none => none
  | some st => backSubst st.1 st.2 b.length

/-- Successful MNA result (mna module, `MnaOk`). -/
structure MnaOk where
  nodeVoltages : Vec
  voltageSourceCurrentsById : JsMap String ℚ
deriving DecidableEq

/-- Unknown-index of a node (mna module, `nodeVar` inside `solveMna`):
ground is dropped; below-ground nodes keep their index, above-ground nodes
shift down by one (with ground 0 this is `node - 1`). -/
def nodeVar (groundNode node : Nat) : Option Nat :=
  if node = groundNode then none
  else if groundNode = 0 then some (node - 1)
  else if node < groundNode then some node else some (node - 1)

/-- Stamp accumulation `A[r][c] += value`, skipped when either index is the
ground (mna module, `addTo`). -/
def addTo (A : Mat) (r c : Option Nat) (value : ℚ) : Mat :=
  match r, c with
  | some r, some c => mset A r c (mget A r c + value)
  | _, _ => A

/-- Resistor conductance stamps (mna module, first element loop of
`solveMna`). -/
def stampResistors (g : Nat) (A : Mat) : List GraphElement → Except String Mat
  | [] => .ok A
  | .resistor _ _ ohms _ n1 n2 :: rest =>
    if numberIsFinite ohms = false ∨ ohms ≤ 0 then .error "Invalid resistance value."
    else
      let gc := 1 / ohms
      let a := nodeVar g n1
      let bnode := nodeVar g n2
      stampResistors g
        (addTo (addTo (addTo (addTo A a a gc) bnode bnode gc) a bnode (-gc)) bnode a (-gc))
        rest
  | .isource _ _ _ _ _ :: rest => stampResistors g A rest
  | .vsource _ _ _ _ _ _ :: rest => stampResistors g A rest

/-- Current source injections (mna module, second element loop of
`solveMna`). -/
def stampISources (g : Nat) (b : Vec) : List GraphElement → Except String Vec
  | [] => .ok b
  | .isource _ _ amps nFrom nTo :: rest =>
    if numberIsFinite amps = false then .error "Invalid current source value."
    else
      let b1 := match nodeVar g nFrom with
        | some i => vset b i (vget b i - amps)
        | none => b
      let b2 := match nodeVar g nTo with
        | some i => vset b1 i (vget b1 i + amps)
        | none => b1
      stampISources g b2 rest
  | .resistor _ _ _ _ _ _ :: rest => stampISources g b rest
  | .vsource _ _ _ _ _ _ :: rest => stampISources g b rest

/-- Voltage source coupling and constraint rows (mna module, third element
loop of `solveMna`), with `k` counting the voltage sources seen so far. -/
def stampVSources (g nUnknown : Nat) (A : Mat) (b : Vec) (k : Nat) :
    List GraphElement → Except String (Mat × Vec)
  | [] => .ok (A, b)
  | .vsource _ _ volts nPlus nMinus _ :: rest =>
    if numberIsFinite volts = false then .error "Invalid voltage source value."
    else
      let row := nUnknown + k
      let b1 := vset b row volts
      let A1 := match nodeVar g nPlus with
        | some a => mset A a row (mget A a row + 1)
        | none => A
      let A2 := match nodeVar g nPlus with
        | some a => mset A1 row a (mget A1 row a + 1)
        | none => A1
      let A3 := match nodeVar g nMinus with
        | some bn => mset A2 bn row (mget A2 bn row - 1)
        | none => A2
      let A4 := match nodeVar g nMinus with
        | some bn => mset A3 row bn (mget A3 row bn - 1)
        | none => A3
      stampVSources g nUnknown A4 b1 (k + 1) rest
  | .resistor _ _ _ _ _ _ :: rest => stampVSources g nUnknown A b k rest
  | .isource _ _ _ _ _ :: rest => stampVSources g nUnknown A b k rest

/-- Voltage-source index record (mna module, `vSourceIndexById`). -/
def vsIndexLoop (k : Nat) (m : JsMap String Nat) : List GraphElement → JsMap String Nat
  | [] => m
  | e :: rest => vsIndexLoop (k + 1) (JsMap.set m (GraphElement.gid e) k) rest

/-- Branch currents per voltage-source id (mna module, the
`voltageSourceCurrentsById` loop): entry `id ↦ x[nUnknown + k]`. -/
def vsCurrents (nUnknown : Nat) (x : Vec) (vIndexById : JsMap String Nat) : JsMap String ℚ :=
  vIndexById.foldl (fun m p => JsMap.set m p.1 (vget x (nUnknown + p.2))) []

/-- Node-voltage vector reconstruction of `solveMna`: ground reads 0, other
nodes read their unknown. -/
def mnaNodeVoltages (groundNode nodeCount : Nat) (x : Vec) : Vec :=
  (List.range nodeCount).map (fun node =>
    if node = groundNode then 0
    else
      match nodeVar groundNode node with
      | none => 0
      | some idx => vget x idx)

/-- Assembled MNA matrix of `solveMna` for a well-formed element list (the
`.ok` value of the stamping passes). -/
def mnaMatrix (elements : List GraphElement) (nodeCount groundNode : Nat) :
    Except String (Mat × Vec) :=
  let voltageSources := elements.filter GraphElement.isVsource
  let nUnknownVoltages := nodeCount - 1
  let dim := nUnknownVoltages + voltageSources.length
  match stampResistors groundNode (zeroMatrix dim) elements with
  | .error e => .error e
  | .ok A0 =>
    match stampISources groundNode (List.replicate dim 0) elements with
    | .error e => .error e
    | .ok b0 => stampVSources groundNode nUnknownVoltages A0 b0 0 elements

/-- The MNA solver (mna module, `solveMna`).  `Number.isInteger(nodeCount)`
holds for every `Nat` and `groundNode < 0` is unrepresentable, so those
halves of the source's guard clauses are omitted.  The TS default
`groundNode = 0` is passed explicitly by all callers in this embedding. -/
def solveMna (elements : List GraphElement) (nodeCount groundNode : Nat) :
    Except String MnaOk :=
  if nodeCount < 2 then .error "Internal error: invalid node count."
  else if groundNode ≥ nodeCount then .error "Internal error: invalid ground node."
  else
    let voltageSources := elements.filter GraphElement.isVsource
    let nUnknownVoltages := nodeCount - 1
    let dim := nUnknownVoltages + voltageSources.length
    if dim = 0 then .error "Internal error: empty system."
    else
      match mnaMatrix elements nodeCount groundNode with
      | .error e => .error e
      | .ok Ab =>
        match solveLinearSystem Ab.1 Ab.2 with
        | none => .error "Circuit equations are singular or inconsistent (no unique solution)."
        | some x =>
          .ok ⟨mnaNodeVoltages groundNode nodeCount x,
            vsCurrents nUnknownVoltages x (vsIndexLoop 0 [] voltageSources)⟩

/-- Well-formedness of a resistor element: strictly positive ohms (the
condition `solveMna` checks). -/
def resistorOhmsPos : GraphElement → Prop
  | .resistor _ _ o _ _ _ => 0 < o
  | _ => True

/-- Graph construction state (graph module, `BuildState`). -/
structure BuildState where
  nextNode : Nat
  elements : List GraphElement

/-- Per-element maximum node index (graph module, `maxNodeId` body). -/
def elementMaxNode : GraphElement → Nat
  | .resistor _ _ _ _ n1 n2 => max n1 n2
  | .vsource _ _ _ nPlus nMinus _ => max nPlus nMinus
  | .isource _ _ _ nFrom nTo => max nFrom nTo

/-- Maximum node id over the element list (graph module, `maxNodeId`). -/
def maxNodeId (elements : List GraphElement) : Nat :=
  elements.foldl (fun m e => max m (elementMaxNode e)) 0

/-- Wire stand-in for an empty series (graph module, `buildSeries`, empty
case): a non-independent 0V source with a synthesized id. -/
def pushWire (st : BuildState) (f t : Nat) : BuildState :=
  { st with elements := st.elements ++
      [.vsource ("wire:series:" ++ toString f ++ "->" ++ toString t ++ ":" ++
        toString st.elements.length) none 0 f t false] }

mutual
/-- Element emission for one tree node (graph module, `buildNode`). -/
def buildNodeG (st : BuildState) (node : Node) (f t : Nat) : BuildState :=
  match node with
  | .resistor id name ohms gen =>
    { st with elements := st.elements ++ [.resistor id name ohms gen f t] }
  | .ammeter id name =>
    { st with elements := st.elements ++ [.vsource ("ammeter:" ++ id) name 0 f t false] }
  | .vsource id name volts =>
    { st with elements := st.elements ++ [.vsource id name volts f t true] }
  | .isource id name amps =>
    { st with elements := st.elements ++ [.isource id name amps f t] }
  | .series _ _ items => buildSeriesG st items f t
  | .parallel _ _ bs => buildBranchesG st bs f t

/-- Series chain emission (graph module, `buildSeries`): the last item ends
at `t`, every other item ends at a freshly allocated node (`newNode`). -/
def buildSeriesG (st : BuildState) (items : List Node) (f t : Nat) : BuildState :=
  match items with
  | [] => pushWire st f t
  | [n] => buildNodeG st n f t
  | n :: rest =>
    buildSeriesG (buildNodeG { st with nextNode := st.nextNode + 1 } n f st.nextNode)
      rest st.nextNode t

/-- Parallel-branch emission (graph module, `buildNode` parallel case /
`buildParallelBranch`). -/
def buildBranchesG (st : BuildState) (bs : List ParallelBranch) (f t : Nat) : BuildState :=
  match bs with
  | [] => st
  | .mk _ _ items :: rest => buildBranchesG (buildSeriesG st items f t) rest f t
end

/-- Built element graph (graph module, `CircuitGraph`). -/
structure CircuitGraph where
  plusNode : Nat
  minusNode : Nat
  nodeCount : Nat
  elements : List GraphElement

/-- Graph construction (graph module, `buildCircuitGraph`): `+` is node 1,
`−` is node 0, interior nodes start at 2; a numeric `externalSupplyVolts`
appends the independent `external_supply` source (`Number.isFinite` holds
for every ℚ). -/
def buildCircuitGraph (circuit : Circuit) (externalSupplyVolts : Option ℚ) : CircuitGraph :=
  let st := buildSeriesG ⟨2, []⟩ (seriesItemsForCircuit circuit) 1 0
  let elements :=
    match externalSupplyVolts with
    | some v =>
      if numberIsFinite v then
        st.elements ++ [.vsource "external_supply" (some "U_s") v 1 0 true]
      else st.elements
    | none => st.elements
  { plusNode := 1, minusNode := 0,
    nodeCount := max (max 1 0) (maxNodeId elements) + 1, elements := elements }

/-- Superposition source kind tag (`'vsource' | 'isource'`). -/
inductive SrcKind where
  | vsource : SrcKind
  | isource : SrcKind
deriving DecidableEq

/-- One entry of the independent-source inventory (superposition module,
`SuperpositionSource`). -/
structure SuperpositionSource where
  id : String
  kind : SrcKind
  name : Option String
  value : ℚ
  unit : String
deriving DecidableEq

/-- Deactivated copy of the element list for one superposition case
(superposition module, `cloneElementsForActiveSource`): the active source
keeps its value, every other independent source is zeroed. -/
def cloneElementsForActiveSource (elements : List GraphElement)
    (active : SuperpositionSource) : List GraphElement :=
  elements.map (fun e =>
    match e with
    | .vsource id name volts nPlus nMinus independent =>
      if independent = false then .vsource id name volts nPlus nMinus independent
      else if id = active.id then .vsource id name volts nPlus nMinus independent
      else .vsource id name 0 nPlus nMinus independent
    | .isource id name amps nFrom nTo =>
      if id = active.id then .isource id name amps nFrom nTo
      else .isource id name 0 nFrom nTo
    | .resistor id name ohms gen n1 n2 => .resistor id name ohms gen n1 n2)

/-- Independent-source inventory (superposition module,
`listIndependentSources`). -/
def listIndependentSources : List GraphElement → List SuperpositionSource
  | [] => []
  | .vsource id name volts _ _ independent :: rest =>
    if independent then ⟨id, .vsource, name, volts, "V"⟩ :: listIndependentSources rest
    else listIndependentSources rest
  | .isource id name amps _ _ :: rest =>
    ⟨id, .isource, name, amps, "A"⟩ :: listIndependentSources rest
  | .resistor _ _ _ _ _ _ :: rest => listIndependentSources rest

/-- One superposition case (superposition module, `SourceCase`). -/
structure SourceCase where
  source : SuperpositionSource
  nodeVoltages : Vec
  voltageSourceCurrentsById : JsMap String ℚ
  resistorCurrentsById : JsMap String ℚ
  resistorVoltagesById : JsMap String ℚ

/-- Per-case resistor current/voltage records (superposition module, the
`resistorCurrentsById` loop): `v = V[n1] − V[n2]`, `i = v / ohms`. -/
def resistorCaseLoop (vv : Vec) (rc rv : JsMap String ℚ) :
    List GraphElement → JsMap String ℚ × JsMap String ℚ
  | [] => (rc, rv)
  | .resistor id _ ohms _ n1 n2 :: rest =>
    resistorCaseLoop vv (JsMap.set rc id ((vget vv n1 - vget vv n2) / ohms))
      (JsMap.set rv id (vget vv n1 - vget vv n2)) rest
  | .isource _ _ _ _ _ :: rest => resistorCaseLoop vv rc rv rest
  | .vsource _ _ _ _ _ _ :: rest => resistorCaseLoop vv rc rv rest

/-- Resistor test (`e.kind === 'resistor'`). -/
def GraphElement.isResistor : GraphElement → Bool
  | .resistor _ _ _ _ _ _ => true
  | _ => false

/-- JS `Set` built from a list: first occurrence wins, insertion order. -/
def jsSetOfList (l : List String) : List String :=
  l.foldl (fun s x => if x ∈ s then s else s ++ [x]) []

/-- Zero-initialised totals record over the resistor id set (superposition
module, the `for (const id of resistorIds)` loop). -/
def initTotals (ids : List String) : JsMap String ℚ :=
  ids.foldl (fun m id => JsMap.set m id 0) []

/-- Merge one case record into a running total
(`total[id] = (total[id] ?? 0) + v`, per entry in insertion order). -/
def jsAddEntries (t : JsMap String ℚ) : List (String × ℚ) → JsMap String ℚ
  | [] => t
  | (k, v) :: rest => jsAddEntries (JsMap.set t k (t.getD k 0 + v)) rest

/-- Elementwise node-voltage accumulation
(`totalNodeVoltages[i] += nodeVoltages[i]` over the total's indices). -/
def addNodeVoltages (t v : Vec) : Vec :=
  (List.range t.length).map (fun i => t.getD i 0 + v.getD i 0)

/-- Accumulator of the per-source loop of `solveCircuitBySuperposition`. -/
structure SuperAcc where
  cases : List SourceCase
  totalNodeVoltages : Vec
  totalVoltageSourceCurrentsById : JsMap String ℚ
  totalResistorCurrentsById : JsMap String ℚ
  totalResistorVoltagesById : JsMap String ℚ

/-- Per-source loop of `solveCircuitBySuperposition`: clone, solve, record
the case and accumulate totals; a failed solve aborts with the decorated
error. -/
def superLoop (elements : List GraphElement) (nodeCount ground : Nat) (acc : SuperAcc) :
    List SuperpositionSource → Except String SuperAcc
  | [] => .ok acc
  | s :: rest =>
    match solveMna (cloneElementsForActiveSource elements s) nodeCount ground with
    | .error e =>
      .error ("While solving with only source " ++ (s.name.getD s.id) ++ " active: " ++ e)
    | .ok solved =>
      superLoop elements nodeCount ground
        { cases := acc.cases ++ [⟨s, solved.nodeVoltages, solved.voltageSourceCurrentsById,
            (resistorCaseLoop solved.nodeVoltages [] []
              (cloneElementsForActiveSource elements s)).1,
            (resistorCaseLoop solved.nodeVoltages [] []
              (cloneElementsForActiveSource elements s)).2⟩],
          totalNodeVoltages := addNodeVoltages acc.totalNodeVoltages solved.nodeVoltages,
          totalVoltageSourceCurrentsById :=
            jsAddEntries acc.totalVoltageSourceCurrentsById solved.voltageSourceCurrentsById,
          totalResistorCurrentsById := jsAddEntries acc.totalResistorCurrentsById
            (resistorCaseLoop solved.nodeVoltages [] []
              (cloneElementsForActiveSource elements s)).1,
          totalResistorVoltagesById := jsAddEntries acc.totalResistorVoltagesById
            (resistorCaseLoop solved.nodeVoltages [] []
              (cloneElementsForActiveSource elements s)).2 } rest

/-- Successful superposition result (superposition module,
`SuperpositionOk`). -/
structure SuperpositionOk where
  sources : List SuperpositionSource
  cases : List SourceCase
  totalNodeVoltages : Vec
  totalVoltageSourceCurrentsById : JsMap String ℚ
  totalResistorCurrentsById : JsMap String ℚ
  totalResistorVoltagesById : JsMap String ℚ

/-- The superposition driver (superposition module,
`solveCircuitBySuperposition`). -/
def solveCircuitBySuperposition (circuit : Circuit) (externalSupplyVolts : Option ℚ) :
    Except String SuperpositionOk :=
  let graph := buildCircuitGraph circuit externalSupplyVolts
  let sources := listIndependentSources graph.elements
  if sources.length = 0 then
    .error "No independent sources found (add a source or provide external supply voltage)."
  else
    let resistorIds :=
      jsSetOfList ((graph.elements.filter GraphElement.isResistor).map GraphElement.gid)
    match superLoop graph.elements graph.nodeCount graph.minusNode
        ⟨[], List.replicate graph.nodeCount 0, [], initTotals resistorIds,
          initTotals resistorIds⟩ sources with
    | .error e => .error e
    | .ok acc => .ok ⟨sources, acc.cases, acc.totalNodeVoltages,
        acc.totalVoltageSourceCurrentsById, acc.totalResistorCurrentsById,
        acc.totalResistorVoltagesById⟩

/-- Ammeter label parser (solve.ts, `parseAmmeterIndex`): accepts
`A1` / `A_1` / `A\x7b1\x7d` / `A_\x7b1\x7d` (case-insensitive). -/
def parseAmmeterIndex (name : String) : Option Nat :=
  let trimmed := jsTrim name
  if trimmed.length = 0 then none
  else matchIndexPattern 'A' trimmed.toList

mutual

/-- Ammeters of a node list in visitation order (solve.ts, `visitNodes`
with the collecting callback of `assignAmmeterIndices`). -/
def visitAmmetersList : List Node → List Node
  | [] => []
  | n :: rest => visitAmmetersNode n ++ visitAmmetersList rest

/-- Per-node ammeter collection step for `visitAmmetersList`. -/
def visitAmmetersNode (n : Node) : List Node :=
  match n with
  | .ammeter i nm => [.ammeter i nm]
  | .series _ _ items => visitAmmetersList items
  | .parallel _ _ bs => visitAmmetersBranches bs
  | _ => []

/-- Branch recursion for `visitAmmetersList`. -/
def visitAmmetersBranches : List ParallelBranch → List Node
  | [] => []
  | .mk _ _ items :: rest => visitAmmetersList items ++ visitAmmetersBranches rest

end

/-- First pass of `assignAmmeterIndices` (solve.ts): like the resistor pass
with the `A` patterns and ammeter error strings. -/
def assignAmmeterLoop1 : List Node → JsMap Nat String → JsMap String Nat → List Node →
    Except String (JsMap Nat String × JsMap String Nat × List Node)
  | [], used, indexById, unspecified => .ok (used, indexById, unspecified)
  | a :: rest, used, indexById, unspecified =>
    let label := labelOf a
    if label.isEmpty then assignAmmeterLoop1 rest used indexById (unspecified ++ [a])
    else
      match parseAmmeterIndex label with
      | none =>
        .error ("Invalid ammeter label \"" ++ label ++
          "\". Use A1 / A_1 / A\x7b1\x7d / A_\x7b1\x7d to set its index.")
      | some idx =>
        if idx = 0 then
          .error ("Invalid ammeter index A_" ++ toString idx ++
            ". Indices must be positive integers (>= 1).")
        else if JsMap.hasKey used idx then
          .error ("Duplicate ammeter index A_" ++ toString idx ++
            ". Each ammeter must have a unique index.")
        else
          assignAmmeterLoop1 rest (JsMap.set used idx (Node.nodeId a))
            (JsMap.set indexById (Node.nodeId a) idx) unspecified

/-- Ammeter index assignment (solve.ts, `assignAmmeterIndices`); the second
pass is identical to the resistor one (`assignLoop2`). -/
def assignAmmeterIndices (circuit : Circuit) : Except String (JsMap String Nat) :=
  let ammeters := visitAmmetersList (seriesItemsForCircuit circuit)
  match assignAmmeterLoop1 ammeters [] [] [] with
  | .error e => .error e
  | .ok (used, indexById, unspecified) => .ok (assignLoop2 unspecified used indexById 1).2

/-- Decimal rendering of a result number (solve.ts, `formatNum`).  The
source rounds a double with `toPrecision`/`toFixed` and strips trailing
zeros; the exact decimal text is irrelevant to the solved quantities, so the
rational model renders the exact value.  Only the `...FormulaLatex` strings
depend on it. -/
def formatNum (value : ℚ) : String := toString value

/-- One resistor line of the result (solve.ts, `ResistorResult`). -/
structure ResistorResult where
  id : String
  index : Nat
  ohms : ℚ
  currentA : ℚ
  voltageV : ℚ
  currentFormulaLatex : String
  generated : Bool
  name : Option String

/-- One ammeter line of the result (solve.ts, `AmmeterResult`). -/
structure AmmeterResult where
  id : String
  index : Nat
  currentA : ℚ
  currentFormulaLatex : String
  name : Option String

/-- Superposition echo in the result (solve.ts, `SuperpositionDetails`). -/
structure SuperpositionDetails where
  sources : List SuperpositionSource
  cases : List SourceCase
  totalNodeVoltages : Vec
  totalVoltageSourceCurrentsById : JsMap String ℚ

/-- Full solve result (solve.ts, `CircuitSolveResult`). -/
structure CircuitSolveResult where
  externalSupplyVolts : Option ℚ
  externalSupplyCurrentA : Option ℚ
  resistors : List ResistorResult
  ammeters : List AmmeterResult
  resistorIndexById : JsMap String Nat
  ammeterIndexById : JsMap String Nat
  superposition : SuperpositionDetails

/-- Stable insertion step for `sortByIndex`. -/
def insertByIndex {α : Type} (key : α → Nat) (x : α) : List α → List α
  | [] => [x]
  | y :: rest => if key x < key y then x :: y :: rest else y :: insertByIndex key x rest

/-- Stable sort by ascending index (solve.ts, `.sort((a, b) => a.index -
b.index)`; `Array.prototype.sort` is stable, as is this insertion sort). -/
def sortByIndex {α : Type} (key : α → Nat) : List α → List α
  | [] => []
  | x :: rest => insertByIndex key x (sortByIndex key rest)

/-- Resistor result assembly loop of `solveCircuit` (solve.ts): lookup
failure (`!idx`, i.e. a missing or zero index) aborts. -/
def resistorResultsLoop (includeGenerated : Bool) (rIndex : JsMap String Nat)
    (tRc tRv : JsMap String ℚ) : List GraphElement → Except String (List ResistorResult)
  | [] => .ok []
  | .resistor id name ohms gen _ _ :: rest =>
    if includeGenerated = false ∧ gen = true then
      resistorResultsLoop includeGenerated rIndex tRc tRv rest
    else
      match JsMap.get rIndex id with
      | none => .error "Internal error: missing resistor index assignment."
      | some idx =>
        if idx = 0 then .error "Internal error: missing resistor index assignment."
        else
          match resistorResultsLoop includeGenerated rIndex tRc tRv rest with
          | .error e => .error e
          | .ok tail =>
            .ok (⟨id, idx, ohms, JsMap.getD tRc id 0,
              (JsMap.get tRv id).getD (JsMap.getD tRc id 0 * ohms),
              "\\frac\x7b" ++ formatNum ((JsMap.get tRv id).getD (JsMap.getD tRc id 0 * ohms)) ++
                "\x7d\x7b" ++ formatNum ohms ++ "\x7d = " ++
                formatNum (JsMap.getD tRc id 0) ++ "\\,\\mathrm\x7bA\x7d",
              gen, name⟩ :: tail)
  | .isource _ _ _ _ _ :: rest => resistorResultsLoop includeGenerated rIndex tRc tRv rest
  | .vsource _ _ _ _ _ _ :: rest => resistorResultsLoop includeGenerated rIndex tRc tRv rest

/-- Test for an ammeter stand-in element
(`e.kind === 'vsource' && e.id.startsWith('ammeter:')`). -/
def isAmmeterElement : GraphElement → Bool
  | .vsource id _ _ _ _ _ => decide (id.toList.take 8 = "ammeter:".toList)
  | _ => false

/-- `e.id.slice('ammeter:'.length)`. -/
def ammeterBareId (id : String) : String := ⟨id.toList.drop 8⟩

/-- Ammeter result assembly loop of `solveCircuit` (solve.ts), over the
filtered ammeter stand-in elements. -/
def ammeterResultsLoop (aIndex : JsMap String Nat) (tVs : JsMap String ℚ) :
    List GraphElement → Except String (List AmmeterResult)
  | [] => .ok []
  | .vsource id name _ _ _ _ :: rest =>
    match JsMap.get aIndex (ammeterBareId id) with
    | none => .error "Internal error: missing ammeter index assignment."
    | some idx =>
      if idx = 0 then .error "Internal error: missing ammeter index assignment."
      else
        match ammeterResultsLoop aIndex tVs rest with
        | .error e => .error e
        | .ok tail =>
          .ok (⟨ammeterBareId id, idx,
            JsMap.getD tVs ("ammeter:" ++ ammeterBareId id) 0,
            formatNum (JsMap.getD tVs ("ammeter:" ++ ammeterBareId id) 0) ++
              "\\,\\mathrm\x7bA\x7d",
            name⟩ :: tail)
  | .resistor _ _ _ _ _ _ :: rest => ammeterResultsLoop aIndex tVs rest
  | .isource _ _ _ _ _ :: rest => ammeterResultsLoop aIndex tVs rest

/-- Result assembly of `solveCircuit` after the guard clauses (solve.ts,
lines 206-271): superposition solve, per-element result lines, stable sort
by index, external supply current echo. -/
def solveCircuitBody (circuit : Circuit) (externalSupplyVolts : Option ℚ)
    (includeGenerated : Bool) (resistorIndexById ammeterIndexById : JsMap String Nat) :
    Except String CircuitSolveResult :=
  match solveCircuitBySuperposition circuit externalSupplyVolts with
  | .error e => .error e
  | .ok solved =>
    let graph := buildCircuitGraph circuit externalSupplyVolts
    match resistorResultsLoop includeGenerated resistorIndexById
        solved.totalResistorCurrentsById solved.totalResistorVoltagesById
        (graph.elements.filter GraphElement.isResistor) with
    | .error e => .error e
    | .ok resistors =>
      match ammeterResultsLoop ammeterIndexById solved.totalVoltageSourceCurrentsById
          (graph.elements.filter isAmmeterElement) with
      | .error e => .error e
      | .ok ammeters =>
        .ok ⟨externalSupplyVolts,
          (match externalSupplyVolts with
           | some _ => JsMap.get solved.totalVoltageSourceCurrentsById "external_supply"
           | none => none),
          sortByIndex ResistorResult.index resistors,
          sortByIndex AmmeterResult.index ammeters,
          resistorIndexById, ammeterIndexById,
          ⟨solved.sources, solved.cases, solved.totalNodeVoltages,
            solved.totalVoltageSourceCurrentsById⟩⟩

/-- Public solver entry point (solve.ts, `solveCircuit`): index assignment,
the external-supply guard, then the assembly (`Number.isFinite` holds for
every ℚ, so only the sign half of the guard can fire). -/
def solveCircuit (circuit : Circuit) (externalSupplyVolts : Option ℚ)
    (includeGeneratedResistors : Bool) : Except String CircuitSolveResult :=
  match assignResistorIndices circuit includeGeneratedResistors with
  | .error e => .error e
  | .ok resistorIndexById =>
    match assignAmmeterIndices circuit with
    | .error e => .error e
    | .ok ammeterIndexById =>
      match externalSupplyVolts with
      | some v =>
        if numberIsFinite v = false ∨ v < 0 then
          .error "External supply voltage must be a finite, non-negative number."
        else
          solveCircuitBody circuit (some v) includeGeneratedResistors
            resistorIndexById ammeterIndexById
      | none =>
        solveCircuitBody circuit none includeGeneratedResistors
          resistorIndexById ammeterIndexById

/-- Fresh-id generator (src/src/circuit/id.ts, not part of the provided
sources).  Modelled from the spec: `newId(prefix)` returns a globally fresh
id with the given prefix; the model threads a counter and renders
`prefix ++ "_" ++ counter`, which is fresh and prefix-tagged. -/
def newId (pre : String) (gen : Nat) : String × Nat :=
  (pre ++ "_" ++ toString gen, gen + 1)

/-- Oriented reducer edge (nodeCircuitConvert.ts, `EdgeRecord`); `efrom` and
`eto` stand for the source's `from`/`to` (reserved words in Lean). -/
structure EdgeRecord where
  id : String
  efrom : Nat
  eto : Nat
  expr : Expr

/-- Concatenation of series children (nodeCircuitConvert.ts,
`flattenSeries`): one level of nested series is spliced inline. -/
def flattenSeries (items : List Expr) : List Expr :=
  items.flatMap (fun it =>
    match it with
    | .series its => its
    | _ => [it])

/-- Series smart constructor (nodeCircuitConvert.ts, `makeSeries`). -/
def makeSeries (items : List Expr) : Expr :=
  match flattenSeries items with
  | [x] => x
  | flat => .series flat

/-- Parallel smart constructor (nodeCircuitConvert.ts, `makeParallel`). -/
def makeParallel (branches : List Expr) : Expr :=
  match branches with
  | [x] => x
  | _ => .parallel branches

/-- Unordered endpoint key (nodeCircuitConvert.ts, `orderPair`): the source
encodes the sorted pair as the string `"u:v"` and later re-parses it with
`split`/`Number`; the model keeps the sorted pair itself, the same data. -/
def orderPair (u v : Nat) : Nat × Nat :=
  if u < v then (u, v) else (v, u)

/-- Reorientation of an edge onto `(u, v)` (nodeCircuitConvert.ts,
`canonicalOrient`). -/
def canonicalOrient (edge : EdgeRecord) (u v : Nat) : EdgeRecord :=
  if edge.efrom = u ∧ edge.eto = v then edge
  else ⟨edge.id, u, v, reverseExpr edge.expr⟩

/-- Grouping of edge indices by unordered endpoints, keeping only groups of
two or more (nodeCircuitConvert.ts, `parallelGroups`): `Map` insertion order
with `delete` of the small groups, i.e. a filtered insertion-order list. -/
def parallelGroups (edges : List EdgeRecord) : List ((Nat × Nat) × List Nat) :=
  (edges.enum.foldl (fun m p =>
    let key := orderPair p.2.efrom p.2.eto
    match JsMap.get m key with
    | some arr => JsMap.set m key (arr ++ [p.1])
    | none => JsMap.set m key [p.1]) ([] : JsMap (Nat × Nat) (List Nat))).filter
      (fun p => 2 ≤ p.2.length)

/-- Number of incident edges (nodeCircuitConvert.ts, `degree`). -/
def degree (edges : List EdgeRecord) (node : Nat) : Nat :=
  (edges.filter (fun e => e.efrom = node ∨ e.eto = node)).length

/-- Indices of incident edges (nodeCircuitConvert.ts, `incident`). -/
def incident (edges : List EdgeRecord) (node : Nat) : List Nat :=
  (edges.enum.filter (fun p => p.2.efrom = node ∨ p.2.eto = node)).map Prod.fst

/-- Index-set removal (nodeCircuitConvert.ts, `removeEdgesByIndex`). -/
def removeEdgesByIndex (edges : List EdgeRecord) (indices : List Nat) : List EdgeRecord :=
  (edges.enum.filter (fun p => p.1 ∉ indices)).map Prod.snd

/-- Fallback edge for (in-bounds) index reads. -/
def dfltEdge : EdgeRecord := ⟨"", 0, 0, .series []⟩

mutual

/-- Expression-to-tree conversion (nodeCircuitConvert.ts, `exprToTreeNode`),
threading the id counter: series children are flattened one level, a
singleton collapses to its item; parallel branches wrap their node (or its
series items) with fresh branch ids. -/
def exprToTreeNode (gen : Nat) : Expr → Node × Nat
  | .resistor i n o => (.resistor i n o false, gen)
  | .ammeter i n => (.ammeter i n, gen)
  | .vsource i n v => (.vsource i n v, gen)
  | .isource i n a => (.isource i n a, gen)
  | .series items =>
    let p := exprToTreeNodeList gen items
    let flat := p.1.flatMap (fun n =>
      match n with
      | .series _ _ its => its
      | _ => [n])
    match flat with
    | [x] => (x, p.2)
    | _ =>
      let q := newId "s" p.2
      (.series q.1 none flat, q.2)
  | .parallel branches =>
    let p := exprToBranchList gen branches
    let q := newId "p" p.2
    (.parallel q.1 none p.1, q.2)
termination_by e => sizeOf e

/-- `items.map(exprToTreeNode)` with counter threading. -/
def exprToTreeNodeList (gen : Nat) : List Expr → List Node × Nat
  | [] => ([], gen)
  | e :: rest =>
    let p := exprToTreeNode gen e
    let q := exprToTreeNodeList p.2 rest
    (p.1 :: q.1, q.2)
termination_by ls => sizeOf ls

/-- `expr.branches.map(...)` of the parallel case with counter threading. -/
def exprToBranchList (gen : Nat) : List Expr → List ParallelBranch × Nat
  | [] => ([], gen)
  | e :: rest =>
    let p := exprToTreeNode gen e
    let items := match p.1 with
      | .series _ _ its => its
      | _ => [p.1]
    let q := newId "b" p.2
    let r := exprToBranchList q.2 rest
    (⟨q.1, none, items⟩ :: r.1, r.2)
termination_by ls => sizeOf ls

end

/-- Result of the one-remaining-edge branch of the rewrite loop
(nodeCircuitConvert.ts, lines 218-228): mismatched endpoints report the
missing-terminal error; otherwise the edge is reoriented `+ → −`, converted
to a tree and wrapped in a straight-route circuit. -/
def oneEdgeResult (plusN minusN : Nat) (only : EdgeRecord) (gen : Nat) :
    Except String (Circuit × Nat) :=
  if orderPair only.efrom only.eto ≠ orderPair plusN minusN then
    .error "Circuit does not connect + and - terminals."
  else
    let oriented := canonicalOrient only plusN minusN
    let p := exprToTreeNode gen oriented.expr
    let items := match p.1 with
      | .series _ _ its => its
      | _ => [p.1]
    let q := newId "circuit" p.2
    .ok (⟨q.1, .straight, some items, none, none, none⟩, q.2)

/-- First applicable series candidate (nodeCircuitConvert.ts, the
`for (let n = 0; ...)` scan): a non-terminal node of degree exactly two
whose two neighbours differ. -/
def seriesScan (edges : List EdgeRecord) (plusN minusN : Nat) :
    List Nat → Option (Nat × Nat × Nat × EdgeRecord × EdgeRecord × List Nat)
  | [] => none
  | n :: rest =>
    if n = plusN ∨ n = minusN then seriesScan edges plusN minusN rest
    else if degree edges n ≠ 2 then seriesScan edges plusN minusN rest
    else
      let inc := incident edges n
      if inc.length ≠ 2 then seriesScan edges plusN minusN rest
      else
        let e1 := edges.getD (inc.getD 0 0) dfltEdge
        let e2 := edges.getD (inc.getD 1 0) dfltEdge
        let a := if e1.efrom = n then e1.eto else e1.efrom
        let b := if e2.efrom = n then e2.eto else e2.efrom
        if a = b then seriesScan edges plusN minusN rest
        else some (n, a, b, e1, e2, inc)

/-- One rewrite of the loop body (nodeCircuitConvert.ts, lines 230-268):
the first parallel group if any, else the first series candidate; `none`
when neither rewrite applies. -/
def spStep (plusN minusN nodeCount : Nat) (st : List EdgeRecord × Nat) :
    Option (List EdgeRecord × Nat) :=
  match parallelGroups st.1 with
  | ((u, v), idxs) :: _ =>
    let group := idxs.map (fun i => canonicalOrient (st.1.getD i dfltEdge) u v)
    let expr := makeParallel (group.map EdgeRecord.expr)
    let q := newId "eP" st.2
    some (removeEdgesByIndex st.1 idxs ++ [⟨q.1, u, v, expr⟩], q.2)
  | [] =>
    match seriesScan st.1 plusN minusN (List.range nodeCount) with
    | some (n, a, b, e1, e2, inc) =>
      let c1 := if e1.efrom = a then e1 else ⟨e1.id, a, n, reverseExpr e1.expr⟩
      let c2 := if e2.efrom = n then e2 else ⟨e2.id, n, b, reverseExpr e2.expr⟩
      let expr := makeSeries [(canonicalOrient c1 a n).expr, (canonicalOrient c2 n b).expr]
      let q := newId "eS" st.2
      some (removeEdgesByIndex st.1 inc ++ [⟨q.1, a, b, expr⟩], q.2)
    | none => none

/-- The guarded rewrite loop (nodeCircuitConvert.ts, lines 217-273), with
the source's 10000-iteration guard as fuel. -/
def spLoop (plusN minusN nodeCount : Nat) : Nat → List EdgeRecord × Nat →
    Except String (Circuit × Nat)
  | 0, _ => .error "Reduction limit reached."
  | fuel + 1, (edges, gen) =>
    match edges with
    | [only] => oneEdgeResult plusN minusN only gen
    | _ =>
      match spStep plusN minusN nodeCount (edges, gen) with
      | some st2 => spLoop plusN minusN nodeCount fuel st2
      | none => .error "Circuit is not reducible by series/parallel reductions."

/-- Editor-graph node (model.ts, `NodeCircuitNode`). -/
structure NodeCircuitNode where
  id : String
  name : Option String
  x : ℚ
  y : ℚ
deriving DecidableEq

/-- Editor-graph edge (model.ts, `NodeCircuitEdge`); polarity of a vsource
is `a = +`, `b = −`, an isource points `a → b`. -/
inductive NodeCircuitEdge where
  | wire (id : String) (name : Option String) (a b : String) : NodeCircuitEdge
  | resistor (id : String) (name : Option String) (ohms : ℚ) (a b : String) : NodeCircuitEdge
  | ammeter (id : String) (name : Option String) (a b : String) : NodeCircuitEdge
  | vsource (id : String) (name : Option String) (volts : ℚ) (a b : String) : NodeCircuitEdge
  | isource (id : String) (name : Option String) (amps : ℚ) (a b : String) : NodeCircuitEdge
deriving DecidableEq

/-- First endpoint of an editor edge. -/
def NodeCircuitEdge.endA : NodeCircuitEdge → String
  | .wire _ _ a _ => a
  | .resistor _ _ _ a _ => a
  | .ammeter _ _ a _ => a
  | .vsource _ _ _ a _ => a
  | .isource _ _ _ a _ => a

/-- Second endpoint of an editor edge. -/
def NodeCircuitEdge.endB : NodeCircuitEdge → String
  | .wire _ _ _ b => b
  | .resistor _ _ _ _ b => b
  | .ammeter _ _ _ b => b
  | .vsource _ _ _ _ b => b
  | .isource _ _ _ _ b => b

/-- `e.kind === 'vsource'` on editor edges. -/
def NodeCircuitEdge.isVsourceEdge : NodeCircuitEdge → Bool
  | .vsource _ _ _ _ _ => true
  | _ => false

/-- Editor graph (model.ts, `NodeCircuit`); the `kind: "node_circuit"`
discriminant is implicit in the Lean type. -/
structure NodeCircuit where
  id : String
  plusNodeId : Option String
  minusNodeId : Option String
  nodes : List NodeCircuitNode
  edges : List NodeCircuitEdge

/-- Node-id-to-position map (nodeCircuitConvert.ts, `buildIndexMap`). -/
def buildIndexMap (nodes : List NodeCircuitNode) : JsMap String Nat :=
  nodes.enum.foldl (fun m p => JsMap.set m p.2.id p.1) []

/-- `hasNode` + `nodeIndex.get` of a nullable node reference
(nodeCircuitConvert.ts, lines 130-132). -/
def lookupNodeRef (nodeIndex : JsMap String Nat) : Option String → Option Nat
  | some pid => JsMap.get nodeIndex pid
  | none => none

/-- Terminal resolution (nodeCircuitConvert.ts, lines 129-151): the explicit
references when both resolve, else both endpoints of the first
voltage-source edge, else vertices 0 and 1 when at least two nodes exist;
equal terminals are rejected after resolution. -/
def resolveTerminals (nc : NodeCircuit) : Except String (Nat × Nat) :=
  let nodeIndex := buildIndexMap nc.nodes
  let step : Except String (Nat × Nat) :=
    match lookupNodeRef nodeIndex nc.plusNodeId, lookupNodeRef nodeIndex nc.minusNodeId with
    | some p, some m => .ok (p, m)
    | _, _ =>
      match nc.edges.find? NodeCircuitEdge.isVsourceEdge with
      | some fv =>
        match JsMap.get nodeIndex fv.endA, JsMap.get nodeIndex fv.endB with
        | some a, some b => .ok (a, b)
        | _, _ => .error "Invalid circuit: an edge references a missing node."
      | none =>
        if 2 ≤ nc.nodes.length then .ok (0, 1)
        else .error "Invalid circuit: add nodes/components (need at least 2 nodes)."
  match step with
  | .error e => .error e
  | .ok (p, m) =>
    if p = m then .error "Invalid circuit: terminals cannot be the same node."
    else .ok (p, m)

/-- Fueled root lookup in the wire-contraction forest (nodeCircuitConvert.ts,
`find`); path compression is omitted — it never changes any root — and
`parent.length` fuel always reaches the root. -/
def ufFind (parent : List Nat) (x : Nat) : Nat → Nat
  | 0 => x
  | fuel + 1 =>
    let p := parent.getD x x
    if p = x then x else ufFind parent p fuel

/-- Root of `x` (the `find` entry point). -/
def ufRoot (parent : List Nat) (x : Nat) : Nat := ufFind parent x parent.length

/-- Union by root reassignment (nodeCircuitConvert.ts, `union`). -/
def ufUnion (parent : List Nat) (a b : Nat) : List Nat :=
  let ra := ufRoot parent a
  let rb := ufRoot parent b
  if ra = rb then parent else parent.set rb ra

/-- Wire contraction pass (nodeCircuitConvert.ts, lines 173-180). -/
def contractWires (nodeIndex : JsMap String Nat) (parent : List Nat) :
    List NodeCircuitEdge → Except String (List Nat)
  | [] => .ok parent
  | .wire _ _ a b :: rest =>
    match JsMap.get nodeIndex a, JsMap.get nodeIndex b with
    | some ia, some ib =>
      if ia = ib then contractWires nodeIndex parent rest
      else contractWires nodeIndex (ufUnion parent ia ib) rest
    | _, _ => .error "Invalid circuit: an edge references a missing node."
  | .resistor _ _ _ _ _ :: rest => contractWires nodeIndex parent rest
  | .ammeter _ _ _ _ :: rest => contractWires nodeIndex parent rest
  | .vsource _ _ _ _ _ :: rest => contractWires nodeIndex parent rest
  | .isource _ _ _ _ _ :: rest => contractWires nodeIndex parent rest

/-- Contracted-node renumbering (nodeCircuitConvert.ts, lines 182-194):
walk the old indices, handing each unseen representative the next compact
index; returns `oldToNew` and the compact node count. -/
def renumberGo (parent : List Nat) :
    List Nat → JsMap Nat Nat → List Nat → Nat → List Nat × Nat
  | [], _, oldToNew, count => (oldToNew, count)
  | i :: rest, repToNew, oldToNew, count =>
    let rep := ufRoot parent i
    match JsMap.get repToNew rep with
    | some idx => renumberGo parent rest repToNew (oldToNew ++ [idx]) count
    | none => renumberGo parent rest (JsMap.set repToNew rep count) (oldToNew ++ [count]) (count + 1)

/-- Editor edge to reducer expression (nodeCircuitConvert.ts, `edgeToExpr`):
a wire becomes a 0Ω resistor. -/
def edgeToExpr : NodeCircuitEdge → Expr
  | .wire id name _ _ => .resistor id name 0
  | .resistor id name ohms _ _ => .resistor id name ohms
  | .ammeter id name _ _ => .ammeter id name
  | .vsource id name volts _ _ => .vsource id name volts
  | .isource id name amps _ _ => .isource id name amps

/-- Id of an editor edge. -/
def NodeCircuitEdge.eid : NodeCircuitEdge → String
  | .wire id _ _ _ => id
  | .resistor id _ _ _ _ => id
  | .ammeter id _ _ _ => id
  | .vsource id _ _ _ _ => id
  | .isource id _ _ _ _ => id

/-- Reducer edge construction over the contracted graph
(nodeCircuitConvert.ts, lines 200-214): wires are dropped, an edge whose
contracted endpoints coincide is dropped unless it is a nonzero voltage
source, which is an error. -/
def buildEdgeRecords (nodeIndex : JsMap String Nat) (oldToNew : List Nat) :
    List NodeCircuitEdge → Except String (List EdgeRecord)
  | [] => .ok []
  | e :: rest =>
    match e with
    | .wire _ _ _ _ => buildEdgeRecords nodeIndex oldToNew rest
    | _ =>
      match JsMap.get nodeIndex e.endA, JsMap.get nodeIndex e.endB with
      | some a, some b =>
        let u := oldToNew.getD a 0
        let v := oldToNew.getD b 0
        if u = v then
          match e with
          | .vsource _ _ volts _ _ =>
            if volts ≠ 0 then .error "Invalid circuit: a voltage source is shorted by wire."
            else buildEdgeRecords nodeIndex oldToNew rest
          | _ => buildEdgeRecords nodeIndex oldToNew rest
        else
          match buildEdgeRecords nodeIndex oldToNew rest with
          | .error err => .error err
          | .ok tail => .ok (⟨e.eid, u, v, edgeToExpr e⟩ :: tail)
      | _, _ => .error "Invalid circuit: an edge references a missing node."

/-- Full reducer entry point (nodeCircuitConvert.ts,
`nodeCircuitToSeriesParallelCircuit`), threading the id counter. -/
def nodeCircuitToSeriesParallelCircuit (nc : NodeCircuit) (gen : Nat) :
    Except String (Circuit × Nat) :=
  let nodeIndex := buildIndexMap nc.nodes
  match resolveTerminals nc with
  | .error e => .error e
  | .ok (plus, minus) =>
    match contractWires nodeIndex (List.range nc.nodes.length) nc.edges with
    | .error e => .error e
    | .ok parent =>
      let rn := renumberGo parent (List.range nc.nodes.length) [] [] 0
      let plusN := rn.1.getD plus 0
      let minusN := rn.1.getD minus 0
      if plusN = minusN then .error "Invalid circuit: reference terminals are shorted by wire."
      else
        match buildEdgeRecords nodeIndex rn.1 nc.edges with
        | .error e => .error e
        | .ok edges =>
          if edges.length = 0 then .error "Invalid circuit: no components."
          else spLoop plusN minusN rn.2 10000 (edges, gen)

/-- Terminal resolution as the spec words it (§ "Resolve terminals"):
explicit references only when both are present AND distinct, otherwise the
first voltage source, otherwise vertices 0 and 1. -/
def specResolveTerminals (nc : NodeCircuit) : Except String (Nat × Nat) :=
  let nodeIndex := buildIndexMap nc.nodes
  match lookupNodeRef nodeIndex nc.plusNodeId, lookupNodeRef nodeIndex nc.minusNodeId with
  | some p, some m =>
    if p ≠ m then .ok (p, m)
    else
      match nc.edges.find? NodeCircuitEdge.isVsourceEdge with
      | some fv =>
        match JsMap.get nodeIndex fv.endA, JsMap.get nodeIndex fv.endB with
        | some a, some b => .ok (a, b)
        | _, _ => .error "Invalid circuit: an edge references a missing node."
      | none =>
        if 2 ≤ nc.nodes.length then .ok (0, 1)
        else .error "Invalid circuit: add nodes/components (need at least 2 nodes)."
  | _, _ =>
    match nc.edges.find? NodeCircuitEdge.isVsourceEdge with
    | some fv =>
      match JsMap.get nodeIndex fv.endA, JsMap.get nodeIndex fv.endB with
      | some a, some b => .ok (a, b)
      | _, _ => .error "Invalid circuit: an edge references a missing node."
    | none =>
      if 2 ≤ nc.nodes.length then .ok (0, 1)
      else .error "Invalid circuit: add nodes/components (need at least 2 nodes)."

/-- Iterated rewrites of the loop. -/
def spIter (plusN minusN nodeCount : Nat) : Nat → List EdgeRecord × Nat →
    Option (List EdgeRecord × Nat)
  | 0, st => some st
  | k + 1, st =>
    match spStep plusN minusN nodeCount st with
    | some st2 => spIter plusN minusN nodeCount k st2
    | none => none

/-- Decimal rendering of an ohm value (reduce module, `formatOhms`).  The
source rounds a double with `toPrecision`/`toFixed` and strips trailing
zeros; the exact decimal text never feeds back into the computed circuits
or records, so the rational model renders the exact value. -/
def formatOhms (value : ℚ) : String := toString value

/-- `listKeyForSeriesBlock` (model.ts). -/
def listKeyForSeriesBlock (seriesId : String) : String := "series:" ++ seriesId

/-- `listKeyForBranch` (model.ts). -/
def listKeyForBranch (parallelId branchId : String) : String :=
  "branch:" ++ parallelId ++ ":" ++ branchId

/-- Equivalent-resistor factory (factory module,
`createEquivalentResistor`): a fresh generated resistor carrying the
equation name. -/
def createEquivalentResistor (ohms : ℚ) (eqName : Option String) (gen : Nat) : Node × Nat :=
  let q := newId "req" gen
  (.resistor q.1 eqName ohms true, q.2)

/-- Reduction kinds (reduce module, `ReductionKind`). -/
inductive ReductionKind where
  | series_list : ReductionKind
  | series_block : ReductionKind
  | parallel_block : ReductionKind
deriving DecidableEq

/-- One recorded reduction (reduce module, `ReductionRecord`). -/
structure ReductionRecord where
  kind : ReductionKind
  depth : Nat
  eqName : String
  resultOhms : ℚ
  inputsOhms : List ℚ
deriving DecidableEq

/-- One trace level (reduce module, `ReductionLevel`). -/
structure ReductionLevel where
  index : Nat
  circuit : Circuit
  reductions : List ReductionRecord
  latexAligned : String
  latexAlign : String

/-- Collapse candidate (reduce module, `Candidate`). -/
inductive Candidate where
  | series_list (depth : Nat) (listKey : String) (items : List Node) : Candidate
  | u_root (depth : Nat) (items : List Node) : Candidate
  | series_block (depth : Nat) (node : Node) : Candidate
  | parallel_block (depth : Nat) (node : Node) : Candidate

/-- Depth of a candidate. -/
def Candidate.depth : Candidate → Nat
  | .series_list d _ _ => d
  | .u_root d _ => d
  | .series_block d _ => d
  | .parallel_block d _ => d

/-- Outcome of the branch-sanity loop of `scanNode`'s parallel case
(reduce module, `scanCandidates`): push the block candidate, silently skip
(a non-atomic branch), or record a short-circuit error. -/
inductive BranchCheck where
  | push : BranchCheck
  | silent : BranchCheck
  | fail (msg : String) : BranchCheck

/-- The branch-sanity loop itself. -/
def branchCheck : List ParallelBranch → BranchCheck
  | [] => .push
  | .mk _ _ items :: rest =>
    if items.length = 0 then
      .fail "Short circuit detected: an empty parallel branch is a wire (0Ω)."
    else if ¬ items.all isAtomic then .silent
    else if sumOhms items = 0 then
      .fail "Short circuit detected: a parallel branch has 0Ω (ammeter-only path)."
    else branchCheck rest

mutual

/-- Candidate scan over one series list (reduce module, `scanList`): an
empty list is skipped entirely; a list of atomic/wire items with at least
two atoms (or one atom plus a wire) is itself a candidate; children are
scanned afterwards.  The state threads the candidate list and the one-shot
`error` variable of the source. -/
def scanList (listKey : String) (depth : Nat) (items : List Node)
    (st : List Candidate × Option String) : List Candidate × Option String :=
  if items.length = 0 then st
  else
    let st1 :=
      if 2 ≤ items.length ∧ (items.all fun n => isAtomic n || isWireLike n) then
        let atoms := items.filter isAtomic
        if 2 ≤ atoms.length then (st.1 ++ [.series_list depth listKey atoms], st.2)
        else if atoms.length = 1 ∧ items.any isWireLike then
          (st.1 ++ [.series_list depth listKey atoms], st.2)
        else st
      else st
    scanNodes depth items st1
termination_by (sizeOf items, 1)

/-- `for (const node of items) scanNode(node, depth)`. -/
def scanNodes (depth : Nat) (items : List Node)
    (st : List Candidate × Option String) : List Candidate × Option String :=
  match items with
  | [] => st
  | n :: rest => scanNodes depth rest (scanNode n depth st)
termination_by (sizeOf items, 0)

/-- Candidate scan of one node (reduce module, `scanNode`): no-op once an
error is recorded; all-atomic series blocks and sane parallel blocks are
candidates, with their sublists scanned first. -/
def scanNode (node : Node) (depth : Nat)
    (st : List Candidate × Option String) : List Candidate × Option String :=
  if st.2.isSome then st
  else
    match node with
    | .series sid sname sitems =>
      if sitems.length = 0 then st
      else
        let st1 :=
          if sitems.all isAtomic then
            (st.1 ++ [.series_block depth (.series sid sname sitems)], st.2)
          else st
        scanList (listKeyForSeriesBlock sid) (depth + 1) sitems st1
    | .parallel pid pname branches =>
      if branches.length < 2 then st
      else
        let st1 := scanBranchLists pid (depth + 1) branches st
        match branchCheck branches with
        | .push => (st1.1 ++ [.parallel_block depth (.parallel pid pname branches)], st1.2)
        | .silent => st1
        | .fail msg => (st1.1, some msg)
    | _ => st
termination_by (sizeOf node, 2)

/-- `for (const branch of node.branches) scanList(...)`. -/
def scanBranchLists (pid : String) (depth : Nat) (bs : List ParallelBranch)
    (st : List Candidate × Option String) : List Candidate × Option String :=
  match bs with
  | [] => st
  | .mk bid _ bitems :: rest =>
    scanBranchLists pid depth rest (scanList (listKeyForBranch pid bid) depth bitems st)
termination_by (sizeOf bs, 0)

end

/-- Candidate scan of the whole circuit (reduce module, `scanCandidates`):
a `u` route scans top, right and bottom, then offers the combined U as one
series when each limb holds at most one non-wire item. -/
def scanCandidates (circuit : Circuit) : List Candidate × Option String :=
  match circuit.route with
  | .u =>
    let top := circuit.top.getD []
    let right := circuit.right.getD []
    let bottom := circuit.bottom.getD []
    let st1 := scanList "root:top" 0 top ([], none)
    let st2 := scanList "root:right" 0 right st1
    let st3 := scanList "root:bottom" 0 bottom st2
    let canCombine :=
      (top.all fun n => isAtomic n || isWireLike n) ∧
      (right.all fun n => isAtomic n || isWireLike n) ∧
      (bottom.all fun n => isAtomic n || isWireLike n) ∧
      (top.filter (fun n => !(isWireLike n))).length ≤ 1 ∧
      (right.filter (fun n => !(isWireLike n))).length ≤ 1 ∧
      (bottom.filter (fun n => !(isWireLike n))).length ≤ 1
    if canCombine then
      let combined := (top ++ right ++ bottom).filter isAtomic
      if 2 ≤ combined.length then (st3.1 ++ [.u_root 0 combined], st3.2) else st3
    else st3
  | .straight => scanList "root" 0 (circuit.items.getD []) ([], none)

/-- The per-target loop of `reduceOneLevel` (reduce module): number the
equations, compute each equivalent (aborting on its error), collect the
replacement maps and the reduction records, threading the id counter. -/
def processTargets (levelIndex : Nat) :
    List Candidate → Nat → JsMap String Node → JsMap String Node → JsMap String Node →
    Option Node → List ReductionRecord → Nat →
    Except String (JsMap String Node × JsMap String Node × JsMap String Node ×
      Option Node × List ReductionRecord × Nat)
  | [], _, slT, sbT, pbT, uR, reds, gen => .ok (slT, sbT, pbT, uR, reds, gen)
  | c :: rest, eqCounter, slT, sbT, pbT, uR, reds, gen =>
    let eqc := eqCounter + 1
    let eqName := "Req" ++ toString levelIndex ++ "." ++ toString eqc
    match c with
    | .series_list depth listKey items =>
      match seriesEquivalentOrError items with
      | .error e => .error e
      | .ok ohms =>
        let p := createEquivalentResistor ohms (some eqName) gen
        processTargets levelIndex rest eqc (JsMap.set slT listKey p.1) sbT pbT uR
          (reds ++ [⟨.series_list, depth, eqName, ohms, items.map atomicOhms⟩]) p.2
    | .u_root depth items =>
      match seriesEquivalentOrError items with
      | .error e => .error e
      | .ok ohms =>
        let p := createEquivalentResistor ohms (some eqName) gen
        processTargets levelIndex rest eqc slT sbT pbT (some p.1)
          (reds ++ [⟨.series_list, depth, eqName, ohms, items.map atomicOhms⟩]) p.2
    | .series_block depth node =>
      let sitems := match node with
        | .series _ _ its => its
        | _ => []
      match seriesEquivalentOrError sitems with
      | .error e => .error e
      | .ok ohms =>
        let p := createEquivalentResistor ohms (some eqName) gen
        processTargets levelIndex rest eqc slT (JsMap.set sbT (Node.nodeId node) p.1) pbT uR
          (reds ++ [⟨.series_block, depth, eqName, ohms, sitems.map atomicOhms⟩]) p.2
    | .parallel_block depth node =>
      let bs := match node with
        | .parallel _ _ b => b
        | _ => []
      match parallelEquivalentOrError bs with
      | .error e => .error e
      | .ok pr =>
        let p := createEquivalentResistor pr.1 (some eqName) gen
        processTargets levelIndex rest eqc slT sbT (JsMap.set pbT (Node.nodeId node) p.1) uR
          (reds ++ [⟨.parallel_block, depth, eqName, pr.1,
            bs.map (fun b => sumOhms (ParallelBranch.items b))⟩]) p.2

mutual

/-- Replacement pass over a series list (reduce module, `transformList`). -/
def transformList (slT sbT pbT : JsMap String Node) (listKey : String) (depth : Nat)
    (items : List Node) : List Node :=
  match JsMap.get slT listKey with
  | some replacement => [replacement]
  | none => transformNodes slT sbT pbT depth items
termination_by (sizeOf items, 1)

/-- `items.map((n) => transformNode(n, depth))`. -/
def transformNodes (slT sbT pbT : JsMap String Node) (depth : Nat) :
    List Node → List Node
  | [] => []
  | n :: rest =>
    transformNode slT sbT pbT n depth :: transformNodes slT sbT pbT depth rest
termination_by ls => (sizeOf ls, 0)

/-- Replacement pass over one node (reduce module, `transformNode`). -/
def transformNode (slT sbT pbT : JsMap String Node) (n : Node) (depth : Nat) : Node :=
  match n with
  | .series sid sname sitems =>
    match JsMap.get sbT sid with
    | some r => r
    | none =>
      .series sid sname (transformList slT sbT pbT (listKeyForSeriesBlock sid) (depth + 1) sitems)
  | .parallel pid pname bs =>
    match JsMap.get pbT pid with
    | some r => r
    | none => .parallel pid pname (transformBranches slT sbT pbT pid depth bs)
  | other => other
termination_by (sizeOf n, 2)

/-- `node.branches.map((b) => ...)` of the parallel case. -/
def transformBranches (slT sbT pbT : JsMap String Node) (pid : String) (depth : Nat) :
    List ParallelBranch → List ParallelBranch
  | [] => []
  | .mk bid bname bitems :: rest =>
    .mk bid bname (transformList slT sbT pbT (listKeyForBranch pid bid) (depth + 1) bitems) ::
      transformBranches slT sbT pbT pid depth rest
termination_by bs => (sizeOf bs, 0)

end

/-- Latex lines per reduction record (reduce module,
`reductionsToLatexAligned` body loop), with the 1-based tag counter. -/
def latexLinesGo (i : Nat) : List ReductionRecord → List String × List String
  | [] => ([], [])
  | r :: rest =>
    let tag := i + 1
    let lhs := "R_\x7b\\mathrm\x7beq\x7d," ++ toString tag ++ "\x7d"
    let line :=
      match r.kind with
      | .parallel_block =>
        let invParts := String.intercalate " + "
          (r.inputsOhms.map (fun v => "\\frac\x7b1\x7d\x7b" ++ formatOhms v ++ "\x7d"))
        (lhs ++ " &= \\left(" ++ invParts ++ "\\right)^\x7b-1\x7d = " ++
            formatOhms r.resultOhms ++ "\\,\\Omega\\quad\\text\x7b(" ++ toString tag ++ ")\x7d",
         lhs ++ " &= \\left(" ++ invParts ++ "\\right)^\x7b-1\x7d = " ++
            formatOhms r.resultOhms ++ "\\,\\Omega \\tag\x7b" ++ toString tag ++ "\x7d")
      | _ =>
        let sumParts := String.intercalate " + " (r.inputsOhms.map formatOhms)
        (lhs ++ " &= " ++ sumParts ++ " = " ++ formatOhms r.resultOhms ++
            "\\,\\Omega\\quad\\text\x7b(" ++ toString tag ++ ")\x7d",
         lhs ++ " &= " ++ sumParts ++ " = " ++ formatOhms r.resultOhms ++
            "\\,\\Omega \\tag\x7b" ++ toString tag ++ "\x7d")
    let tail := latexLinesGo (i + 1) rest
    (line.1 :: tail.1, line.2 :: tail.2)

/-- Latex assembly (reduce module, `reductionsToLatexAligned`). -/
def reductionsToLatexAligned (reductions : List ReductionRecord) : String × String :=
  if reductions.length = 0 then ("", "")
  else
    let lines := latexLinesGo 0 reductions
    ("\\begin\x7baligned\x7d\n" ++ String.intercalate " \\\\\n" lines.1 ++ "\n\\end\x7baligned\x7d",
     "\\begin\x7balign\x7d\n" ++ String.intercalate " \\\\\n" lines.2 ++ "\n\\end\x7balign\x7d")

/-- One reduction level (reduce module, `reduceOneLevel`): scan, abort on a
scan error, reduce every deepest candidate, substitute the equivalents, and
render the latex; threads the id counter. -/
def reduceOneLevel (circuit : Circuit) (levelIndex : Nat) (gen : Nat) :
    Except String (Circuit × List ReductionRecord × String × String × Nat) :=
  let scanned := scanCandidates circuit
  match scanned.2 with
  | some e => .error e
  | none =>
    if scanned.1.length = 0 then .ok (circuit, [], "", "", gen)
    else
      let maxDepth := (scanned.1.map Candidate.depth).foldl max 0
      let targets := scanned.1.filter (fun c => c.depth = maxDepth)
      match processTargets levelIndex targets 0 [] [] [] none [] gen with
      | .error e => .error e
      | .ok (slT, sbT, pbT, uR, reductions, gen2) =>
        let nextCircuit :=
          match circuit.route with
          | .u =>
            match uR with
            | some r => Circuit.mk circuit.id .straight (some [r]) none none none
            | none =>
              Circuit.mk circuit.id circuit.route circuit.items
                (some (transformList slT sbT pbT "root:top" 0 (circuit.top.getD [])))
                (some (transformList slT sbT pbT "root:right" 0 (circuit.right.getD [])))
                (some (transformList slT sbT pbT "root:bottom" 0 (circuit.bottom.getD [])))
          | .straight =>
            Circuit.mk circuit.id circuit.route
              (some (transformList slT sbT pbT "root" 0 (circuit.items.getD [])))
              circuit.top circuit.right circuit.bottom
        let latex := reductionsToLatexAligned reductions
        .ok (nextCircuit, reductions, latex.1, latex.2, gen2)

/-- The level loop of `computeReductionLevels` (reduce module): level `i`
reduces the current circuit, stopping at the first error (keeping the
levels so far), at a fixed point (no reductions), or at the level ceiling. -/
def crlGo : Nat → Circuit → Nat → List ReductionLevel → Nat →
    Option String × List ReductionLevel
  | 0, _, _, levels, _ => (some "Reduction limit reached.", levels)
  | fuel + 1, current, i, levels, gen =>
    match reduceOneLevel current i gen with
    | .error e => (some e, levels)
    | .ok (c2, reds, la, lal, gen2) =>
      if reds.length = 0 then (none, levels)
      else crlGo fuel c2 (i + 1) (levels ++ [⟨i, c2, reds, la, lal⟩]) gen2

/-- The reduction-trace orchestrator (reduce module,
`computeReductionLevels`); the TS default `maxLevels = 50` is passed
explicitly by callers of this embedding. -/
def computeReductionLevels (circuit : Circuit) (maxLevels : Nat) (gen : Nat) :
    Option String × List ReductionLevel :=
  crlGo maxLevels circuit 1 [⟨0, circuit, [], "", ""⟩] gen

/-- Reference chain of the successfully computed levels: what `crlGo`
appends before it stops (error, fixed point, or fuel). -/
def crlChain : Nat → Circuit → Nat → Nat → List ReductionLevel
  | 0, _, _, _ => []
  | fuel + 1, current, i, gen =>
    match reduceOneLevel current i gen with
    | .error _ => []
    | .ok (c2, reds, la, lal, gen2) =>
      if reds.length = 0 then []
      else ⟨i, c2, reds, la, lal⟩ :: crlChain fuel c2 (i + 1) gen2

namespace JsMap

variable {κ : Type} [DecidableEq κ]

theorem get_set {α : Type} (m : JsMap κ α) (k : κ) (v : α) (k' : κ) :
    get (set m k v) k' = if k = k' then some v else get m k' := by
  induction m with
  | nil =>
    by_cases h : k = k' <;> simp [set, get, h]
  | cons p rest ih =>
    obtain ⟨pk, pv⟩ := p
    by_cases hpk : pk = k
    · subst hpk
      by_cases h : pk = k' <;> simp [set, get, h]
    · by_cases h : pk = k'
      · subst h
        have hkk : ¬ k = pk := fun hh => hpk hh.symm
        simp [set, get, hpk, hkk]
      · by_cases hk : k = k'
        · subst hk
          simpa [set, get, h, hpk] using ih
        · simpa [set, get, h, hpk, hk] using ih

theorem mem_keys_set {α : Type} (m : JsMap κ α) (k : κ) (v : α) (a : κ) :
    a ∈ keys (set m k v) ↔ a ∈ keys m ∨ a = k := by
  induction m with
  | nil => simp [set, keys]
  | cons p rest ih =>
    obtain ⟨pk, pv⟩ := p
    by_cases hpk : pk = k
    · subst hpk
      rw [show set ((pk, pv) :: rest) pk v = (pk, v) :: rest by simp [set]]
      simp only [keys, List.map_cons, List.mem_cons]
      tauto
    · simp only [set, if_neg hpk, keys, List.map_cons, List.mem_cons]
      simp only [keys] at ih
      rw [ih]
      tauto

theorem nodupKeys_set {α : Type} (m : JsMap κ α) (k : κ) (v : α)
    (h : (keys m).Nodup) : (keys (set m k v)).Nodup := by
  induction m with
  | nil => simp [set, keys]
  | cons p rest ih =>
    obtain ⟨pk, pv⟩ := p
    simp only [keys, List.map_cons, List.nodup_cons] at h
    by_cases hpk : pk = k
    · subst hpk
      rw [show set ((pk, pv) :: rest) pk v = (pk, v) :: rest by simp [set]]
      simp only [keys, List.map_cons, List.nodup_cons]
      exact h
    · simp only [set, if_neg hpk, keys, List.map_cons, List.nodup_cons]
      refine ⟨?_, ih h.2⟩
      intro hmem
      rcases (mem_keys_set rest k v pk).mp hmem with hm | hm
      · exact h.1 hm
      · exact hpk hm

theorem get_eq_none_of_not_hasKey {α : Type} (m : JsMap κ α) (k : κ)
    (h : hasKey m k = false) : get m k = none := by
  simp only [hasKey, Option.isSome] at h
  cases hg : get m k with
  | none => rfl
  | some v => rw [hg] at h; simp at h

end JsMap

theorem reverseExprList_eq_map (ls : List Expr) :
    reverseExprList ls = ls.map reverseExpr := by
  induction ls with
  | nil => simp [reverseExprList]
  | cons e rest ih => simp [reverseExprList, ih]

/-- Custom induction principle for `Expr` (nested inductive). -/
theorem Expr.inductionOn (P : Expr → Prop)
    (hres : ∀ i n o, P (.resistor i n o))
    (ham : ∀ i n, P (.ammeter i n))
    (hvs : ∀ i n v, P (.vsource i n v))
    (his : ∀ i n a, P (.isource i n a))
    (hser : ∀ items, (∀ x ∈ items, P x) → P (.series items))
    (hpar : ∀ bs, (∀ x ∈ bs, P x) → P (.parallel bs)) :
    ∀ e, P e
  | .resistor i n o => hres i n o
  | .ammeter i n => ham i n
  | .vsource i n v => hvs i n v
  | .isource i n a => his i n a
  | .series items => hser items (fun x hx =>
      have : sizeOf x < 1 + sizeOf items := by
        have := List.sizeOf_lt_of_mem hx
        omega
      Expr.inductionOn P hres ham hvs his hser hpar x)
  | .parallel bs => hpar bs (fun x hx =>
      have : sizeOf x < 1 + sizeOf bs := by
        have := List.sizeOf_lt_of_mem hx
        omega
      Expr.inductionOn P hres ham hvs his hser hpar x)
termination_by e => sizeOf e

theorem reverseExpr_reverseExpr (e : Expr) : reverseExpr (reverseExpr e) = e := by
  refine Expr.inductionOn (fun e => reverseExpr (reverseExpr e) = e) ?_ ?_ ?_ ?_ ?_ ?_ e
  · intro i n o
    simp [reverseExpr]
  · intro i n
    simp [reverseExpr]
  · intro i n v
    simp [reverseExpr]
  · intro i n a
    simp [reverseExpr]
  · intro items ih
    simp only [reverseExpr, reverseExprList_eq_map, List.map_reverse, List.reverse_reverse,
      List.map_map]
    congr 1
    refine List.map_congr_left ?_ |>.trans (List.map_id items)
    intro x hx
    exact ih x hx
  · intro bs ih
    simp only [reverseExpr, reverseExprList_eq_map, List.map_map]
    congr 1
    refine List.map_congr_left ?_ |>.trans (List.map_id bs)
    intro x hx
    exact ih x hx

/-- C9: edge-expression reversal is an involution: for every oriented
expression (atoms, series, parallel, arbitrarily nested),
`reverseExpr (reverseExpr e) = e` — source volts and amps are negated twice,
series child order is reversed twice, and parallel branches are reversed
element-wise twice, restoring the original expression exactly. -/
theorem c9_reverseExpr_involution : ∀ e : Expr, reverseExpr (reverseExpr e) = e :=
  reverseExpr_reverseExpr

/-- Custom induction principle for the nested inductive `Node`. -/
theorem Node.inductionOn' (P : Node → Prop)
    (hres : ∀ i n o g, P (.resistor i n o g))
    (ham : ∀ i n, P (.ammeter i n))
    (hvs : ∀ i n v, P (.vsource i n v))
    (his : ∀ i n a, P (.isource i n a))
    (hser : ∀ i n items, (∀ x ∈ items, P x) → P (.series i n items))
    (hpar : ∀ i n bs, (∀ b ∈ bs, ∀ x ∈ ParallelBranch.items b, P x) → P (.parallel i n bs)) :
    ∀ t, P t
  | .resistor i n o g => hres i n o g
  | .ammeter i n => ham i n
  | .vsource i n v => hvs i n v
  | .isource i n a => his i n a
  | .series i n items => hser i n items (fun x hx =>
      have h1 : sizeOf x < sizeOf items := List.sizeOf_lt_of_mem hx
      Node.inductionOn' P hres ham hvs his hser hpar x)
  | .parallel i n bs => hpar i n bs (fun b hb x hx =>
      have hb1 : sizeOf b < sizeOf bs := List.sizeOf_lt_of_mem hb
      have hx1 : sizeOf x < sizeOf (ParallelBranch.items b) := List.sizeOf_lt_of_mem hx
      have hx2 : sizeOf (ParallelBranch.items b) < sizeOf b := by
        cases b with
        | mk i2 n2 its =>
          simp only [ParallelBranch.items, ParallelBranch.mk.sizeOf_spec]
          omega
      Node.inductionOn' P hres ham hvs his hser hpar x)
termination_by t => sizeOf t
decreasing_by
  all_goals simp_wf
  all_goals omega

theorem foldl_add_ratMap {α : Type} (g : α → ℚ) (l : List α) (a : ℚ) :
    l.foldl (fun acc x => acc + g x) a = a + (l.map g).sum := by
  induction l generalizing a with
  | nil => simp
  | cons x rest ih =>
    simp only [List.foldl_cons, List.map_cons, List.sum_cons, ih]
    ring

theorem sumOhms_eq_map_sum (items : List Node) :
    sumOhms items = (items.map atomicOhms).sum := by
  simpa [sumOhms] using foldl_add_ratMap atomicOhms items 0

theorem sumOhms_nonneg (items : List Node) (h : ∀ n ∈ items, 0 ≤ atomicOhms n) :
    0 ≤ sumOhms items := by
  rw [sumOhms_eq_map_sum]
  apply List.sum_nonneg
  intro x hx
  rcases List.mem_map.mp hx with ⟨n, hn, rfl⟩
  exact h n hn

theorem parallelBranchOhms_ok (branches : List ParallelBranch)
    (hbne : ∀ b ∈ branches, ParallelBranch.items b ≠ [])
    (hbatom : ∀ b ∈ branches, ∀ n ∈ ParallelBranch.items b, isAtomic n = true)
    (hall : ∀ b ∈ branches, sumOhms (ParallelBranch.items b) ≠ 0) :
    parallelBranchOhms branches =
      .ok (branches.map fun b => sumOhms (ParallelBranch.items b)) := by
  induction branches with
  | nil => simp [parallelBranchOhms]
  | cons b rest ih =>
    obtain ⟨i, nm, items⟩ := b
    have h1 : ¬ items.isEmpty := by
      have := hbne (.mk i nm items) (List.mem_cons_self _ _)
      simpa [ParallelBranch.items, List.isEmpty_iff] using this
    have h2 : items.all isAtomic = true := by
      rw [List.all_eq_true]
      exact hbatom (.mk i nm items) (List.mem_cons_self _ _)
    have h3 : sumOhms items ≠ 0 := hall (.mk i nm items) (List.mem_cons_self _ _)
    have hrest := ih (fun b hb => hbne b (List.mem_cons_of_mem _ hb))
      (fun b hb => hbatom b (List.mem_cons_of_mem _ hb))
      (fun b hb => hall b (List.mem_cons_of_mem _ hb))
    simp [parallelBranchOhms, h1, h2, h3, hrest, ParallelBranch.items]

theorem parallelBranchOhms_zero (branches : List ParallelBranch)
    (hbne : ∀ b ∈ branches, ParallelBranch.items b ≠ [])
    (hbatom : ∀ b ∈ branches, ∀ n ∈ ParallelBranch.items b, isAtomic n = true)
    (hex : ∃ b ∈ branches, sumOhms (ParallelBranch.items b) = 0) :
    parallelBranchOhms branches =
      .error "Short circuit detected: a parallel branch has 0Ω." := by
  induction branches with
  | nil => simp at hex
  | cons b rest ih =>
    obtain ⟨i, nm, items⟩ := b
    have h1 : ¬ items.isEmpty := by
      have := hbne (.mk i nm items) (List.mem_cons_self _ _)
      simpa [ParallelBranch.items, List.isEmpty_iff] using this
    have h2 : items.all isAtomic = true := by
      rw [List.all_eq_true]
      exact hbatom (.mk i nm items) (List.mem_cons_self _ _)
    by_cases h3 : sumOhms items = 0
    · simp [parallelBranchOhms, h1, h2, h3]
    · have hex' : ∃ b ∈ rest, sumOhms (ParallelBranch.items b) = 0 := by
        rcases hex with ⟨b, hb, hbz⟩
        rcases List.mem_cons.mp hb with rfl | hb'
        · exact absurd (by simpa [ParallelBranch.items] using hbz) h3
        · exact ⟨b, hb', hbz⟩
      have hrest := ih (fun b hb => hbne b (List.mem_cons_of_mem _ hb))
        (fun b hb => hbatom b (List.mem_cons_of_mem _ hb)) hex'
      simp [parallelBranchOhms, h1, h2, h3, hrest]

/-- C4: in the reduction trace, every collapsed series candidate's equivalent
resistance equals the sum of its children's ohms with each ammeter
contributing 0 ohms, and a sum of exactly 0 produces the short-circuit error;
every collapsed parallel block's equivalent equals the reciprocal of the sum
of the reciprocals of its branch resistances, and any branch whose resistance
is 0 ohms (in particular an ammeter-only branch) produces the short-circuit
error that blocks the reduction.  Hypotheses state the shape of a collapsed
candidate: non-empty atomic series items, and a parallel block with at least
two non-empty all-atomic branches; resistor ohms are non-negative. -/
theorem c4_series_parallel_equivalents
    (items : List Node) (branches : List ParallelBranch)
    (hne : items ≠ [])
    (hatom : ∀ n ∈ items, isAtomic n = true)
    (hnn : ∀ n ∈ items, 0 ≤ atomicOhms n)
    (hlen : 2 ≤ branches.length)
    (hbne : ∀ b ∈ branches, ParallelBranch.items b ≠ [])
    (hbatom : ∀ b ∈ branches, ∀ n ∈ ParallelBranch.items b, isAtomic n = true)
    (hbnn : ∀ b ∈ branches, ∀ n ∈ ParallelBranch.items b, 0 ≤ atomicOhms n) :
    (sumOhms items = 0 →
      seriesEquivalentOrError items = .error "Short circuit detected (0Ω series path).")
    ∧ (sumOhms items ≠ 0 →
      seriesEquivalentOrError items = .ok ((items.map atomicOhms).sum))
    ∧ ((∃ b ∈ branches, sumOhms (ParallelBranch.items b) = 0) →
      parallelEquivalentOrError branches =
        .error "Short circuit detected: a parallel branch has 0Ω.")
    ∧ ((∀ b ∈ branches, sumOhms (ParallelBranch.items b) ≠ 0) →
      parallelEquivalentOrError branches =
        .ok (1 / ((branches.map (fun b => 1 / sumOhms (ParallelBranch.items b))).sum),
             branches.map (fun b => sumOhms (ParallelBranch.items b)))) := by
  have hempty : ¬ items.isEmpty := by simpa [List.isEmpty_iff] using hne
  have hmix : (items.all fun n => isAtomic n || isWireLike n) = true := by
    rw [List.all_eq_true]
    intro n hn
    simp [hatom n hn]
  have hfilter : items.filter isAtomic = items :=
    List.filter_eq_self.mpr hatom
  have hnotlen : ¬ branches.length < 2 := not_lt.mpr hlen
  refine ⟨?_, ?_, ?_, ?_⟩
  · intro hz
    simp [seriesEquivalentOrError, hempty, hmix, hfilter, hz]
  · intro hnz
    have hpos : 0 < sumOhms items :=
      lt_of_le_of_ne (sumOhms_nonneg items hnn) (Ne.symm hnz)
    have hnlt : ¬ sumOhms items < 0 := not_lt.mpr (le_of_lt hpos)
    rw [← sumOhms_eq_map_sum]
    simp [seriesEquivalentOrError, hempty, hmix, hfilter, hnz, hnlt, numberIsFinite]
  · intro hex
    rw [parallelEquivalentOrError, if_neg hnotlen, parallelBranchOhms_zero branches hbne hbatom hex]
  · intro hall
    have hofs := parallelBranchOhms_ok branches hbne hbatom hall
    have hpos : ∀ b ∈ branches, 0 < sumOhms (ParallelBranch.items b) := by
      intro b hb
      exact lt_of_le_of_ne (sumOhms_nonneg _ (hbnn b hb)) (Ne.symm (hall b hb))
    have hdenom :
        ((branches.map fun b => sumOhms (ParallelBranch.items b)).foldl
          (fun acc r => acc + 1 / r) 0) =
        (branches.map (fun b => 1 / sumOhms (ParallelBranch.items b))).sum := by
      rw [foldl_add_ratMap (fun r => 1 / r) _ 0, List.map_map]
      simp [Function.comp_def]
    have hdpos : 0 < (branches.map (fun b => 1 / sumOhms (ParallelBranch.items b))).sum := by
      apply List.sum_pos
      · intro x hx
        rcases List.mem_map.mp hx with ⟨b, hb, rfl⟩
        exact one_div_pos.mpr (hpos b hb)
      · intro hmapnil
        rw [List.map_eq_nil_iff] at hmapnil
        rw [hmapnil] at hlen
        simp at hlen
    have heqpos : 0 < 1 / (branches.map (fun b => 1 / sumOhms (ParallelBranch.items b))).sum :=
      one_div_pos.mpr hdpos
    have heqne : (1 / (branches.map (fun b => 1 / sumOhms (ParallelBranch.items b))).sum) ≠ 0 :=
      ne_of_gt heqpos
    have heqnlt : ¬ (1 / (branches.map (fun b => 1 / sumOhms (ParallelBranch.items b))).sum) < 0 :=
      not_lt.mpr (le_of_lt heqpos)
    rw [parallelEquivalentOrError, if_neg hnotlen, hofs]
    simp only [hdenom]
    simp only [one_div] at heqne heqnlt
    simp [heqne, heqnlt, numberIsFinite]

/-- Witness for C4 at a concrete series run and parallel block. -/
theorem c4_witness :
    seriesEquivalentOrError
        [Node.resistor "r1" none 5 false, Node.ammeter "a1" none] = .ok 5 ∧
    parallelEquivalentOrError
        [ParallelBranch.mk "b1" none [Node.resistor "r2" none 2 false],
         ParallelBranch.mk "b2" none [Node.resistor "r3" none 2 false]] = .ok (1, [2, 2]) := by
  have h := c4_series_parallel_equivalents
    [Node.resistor "r1" none 5 false, Node.ammeter "a1" none]
    [ParallelBranch.mk "b1" none [Node.resistor "r2" none 2 false],
     ParallelBranch.mk "b2" none [Node.resistor "r3" none 2 false]]
    (by simp)
    (by intro n hn; fin_cases hn <;> simp [isAtomic])
    (by intro n hn; fin_cases hn <;> norm_num [atomicOhms])
    (by simp)
    (by intro b hb; fin_cases hb <;> simp [ParallelBranch.items])
    (by intro b hb; fin_cases hb <;> (intro n hn; fin_cases hn <;> simp [isAtomic]))
    (by intro b hb; fin_cases hb <;> (intro n hn; fin_cases hn <;> norm_num [atomicOhms]))
  obtain ⟨-, h2, -, h4⟩ := h
  constructor
  · have hs := h2 (by norm_num [sumOhms, atomicOhms])
    simpa [atomicOhms] using hs
  · have hp := h4 (by intro b hb; fin_cases hb <;> norm_num [sumOhms, atomicOhms, ParallelBranch.items])
    norm_num [ParallelBranch.items, sumOhms, atomicOhms] at hp
    convert hp using 2

theorem JsMap.hasKey_set {κ α : Type} [DecidableEq κ] (m : JsMap κ α) (k : κ) (v : α) (k' : κ) :
    JsMap.hasKey (JsMap.set m k v) k' = (decide (k = k') || JsMap.hasKey m k') := by
  by_cases h : k = k' <;> simp [JsMap.hasKey, JsMap.get_set, h]

theorem JsMap.hasKey_iff_mem {κ α : Type} [DecidableEq κ] (m : JsMap κ α) (k : κ) :
    JsMap.hasKey m k = true ↔ k ∈ JsMap.keys m := by
  induction m with
  | nil => simp [JsMap.hasKey, JsMap.get, JsMap.keys]
  | cons p rest ih =>
    obtain ⟨pk, pv⟩ := p
    by_cases h : pk = k
    · subst h
      simp [JsMap.hasKey, JsMap.get, JsMap.keys]
    · have hne : ¬ k = pk := fun hh => h hh.symm
      simp only [JsMap.hasKey, JsMap.get, if_neg h, JsMap.keys, List.map_cons, List.mem_cons]
      rw [← JsMap.keys]
      simp [← ih, JsMap.hasKey, hne]

theorem findFreeFrom_ge (used : JsMap Nat String) (next fuel : Nat) :
    next ≤ findFreeFrom used next fuel := by
  induction fuel generalizing next with
  | zero => simp [findFreeFrom]
  | succ f ih =>
    by_cases h : JsMap.hasKey used next = true
    · rw [findFreeFrom, if_pos h]
      have := ih (next + 1)
      omega
    · rw [findFreeFrom, if_neg h]

theorem findFreeFrom_below (used : JsMap Nat String) (fuel : Nat) :
    ∀ next j, next ≤ j → j < findFreeFrom used next fuel →
      JsMap.hasKey used j = true := by
  induction fuel with
  | zero =>
    intro next j h1 h2
    rw [findFreeFrom] at h2
    omega
  | succ f ih =>
    intro next j h1 h2
    by_cases h : JsMap.hasKey used next = true
    · rw [findFreeFrom, if_pos h] at h2
      rcases Nat.eq_or_lt_of_le h1 with rfl | hlt
      · exact h
      · exact ih (next + 1) j hlt h2
    · rw [findFreeFrom, if_neg h] at h2
      omega

theorem findFreeFrom_notMem (used : JsMap Nat String) (fuel : Nat) :
    ∀ next,
    ((JsMap.keys used).toFinset.filter (fun k => next ≤ k)).card < fuel →
    JsMap.hasKey used (findFreeFrom used next fuel) = false := by
  induction fuel with
  | zero =>
    intro next hfuel
    omega
  | succ f ih =>
    intro next hfuel
    by_cases h : JsMap.hasKey used next = true
    · rw [findFreeFrom, if_pos h]
      apply ih
      have hmem : next ∈ (JsMap.keys used).toFinset.filter (fun k => next ≤ k) := by
        rw [Finset.mem_filter]
        refine ⟨List.mem_toFinset.mpr ((JsMap.hasKey_iff_mem used next).mp h), le_refl next⟩
      have hsub : ((JsMap.keys used).toFinset.filter (fun k => next + 1 ≤ k)) =
          ((JsMap.keys used).toFinset.filter (fun k => next ≤ k)).erase next := by
        ext k
        simp only [Finset.mem_filter, Finset.mem_erase]
        constructor
        · rintro ⟨hk, hge⟩
          exact ⟨by omega, hk, by omega⟩
        · rintro ⟨hne, hk, hge⟩
          exact ⟨hk, by omega⟩
      have hpos : 0 < ((JsMap.keys used).toFinset.filter (fun k => next ≤ k)).card :=
        Finset.card_pos.mpr ⟨next, hmem⟩
      rw [hsub, Finset.card_erase_of_mem hmem]
      omega
    · rw [findFreeFrom, if_neg h]
      simpa using h

theorem findFreeFrom_free (used : JsMap Nat String) (next : Nat) :
    JsMap.hasKey used (findFreeFrom used next (used.length + 1)) = false := by
  apply findFreeFrom_notMem
  have h1 : ((JsMap.keys used).toFinset.filter (fun k => next ≤ k)).card ≤
      (JsMap.keys used).toFinset.card := Finset.card_filter_le _ _
  have h2 : (JsMap.keys used).toFinset.card ≤ (JsMap.keys used).length :=
    (JsMap.keys used).toFinset_card_le
  have h3 : (JsMap.keys used).length = used.length := by simp [JsMap.keys]
  omega

theorem assignLoop2_spec :
    ∀ (us : List Node) (used : JsMap Nat String) (idxm : JsMap String Nat) (next : Nat),
    (us.map Node.nodeId).Nodup →
    1 ≤ next →
    (∀ j, 1 ≤ j → j < next → JsMap.hasKey used j = true) →
    (∀ id, (∀ r ∈ us, Node.nodeId r ≠ id) →
       JsMap.get (assignLoop2 us used idxm next).2 id = JsMap.get idxm id)
    ∧ (∀ k (hk : k < us.length), ∃ v,
        JsMap.get (assignLoop2 us used idxm next).2 (Node.nodeId (us.get ⟨k, hk⟩)) = some v ∧
        1 ≤ v ∧ JsMap.hasKey used v = false ∧
        (∀ r ∈ us.take k,
          JsMap.get (assignLoop2 us used idxm next).2 (Node.nodeId r) ≠ some v) ∧
        (∀ j, 1 ≤ j → j < v → (JsMap.hasKey used j = true ∨
          ∃ r ∈ us.take k,
            JsMap.get (assignLoop2 us used idxm next).2 (Node.nodeId r) = some j)))
    ∧ (∀ j, JsMap.hasKey (assignLoop2 us used idxm next).1 j = true ↔
        (JsMap.hasKey used j = true ∨
         ∃ r ∈ us, JsMap.get (assignLoop2 us used idxm next).2 (Node.nodeId r) = some j)) := by
  intro us
  induction us with
  | nil =>
    intro used idxm next hnodup hnext hbelow
    refine ⟨fun id _ => rfl, fun k hk => absurd hk (by simp), fun j => ?_⟩
    simp [assignLoop2]
  | cons r rest ih =>
    intro used idxm next hnodup hnext hbelow
    simp only [List.map_cons, List.nodup_cons] at hnodup
    obtain ⟨hrid, hnodup'⟩ := hnodup
    set v := findFreeFrom used next (used.length + 1) with hv
    have hv1 : next ≤ v := findFreeFrom_ge used next (used.length + 1)
    have hv2 : JsMap.hasKey used v = false := findFreeFrom_free used next
    have hv3 : ∀ j, next ≤ j → j < v → JsMap.hasKey used j = true :=
      fun j h1 h2 => findFreeFrom_below used (used.length + 1) next j h1 h2
    have hv4 : 1 ≤ v := le_trans hnext hv1
    have hbelow' : ∀ j, 1 ≤ j → j < v + 1 →
        JsMap.hasKey (JsMap.set used v (Node.nodeId r)) j = true := by
      intro j h1 h2
      rw [JsMap.hasKey_set]
      by_cases hj : j = v
      · simp [hj]
      · have : j < v := by omega
        by_cases hjn : j < next
        · simp [hbelow j h1 hjn]
        · simp [hv3 j (by omega) this]
    have heq : assignLoop2 (r :: rest) used idxm next =
        assignLoop2 rest (JsMap.set used v (Node.nodeId r))
          (JsMap.set idxm (Node.nodeId r) v) (v + 1) := by
      rw [assignLoop2]
    obtain ⟨IH1, IH2, IH3⟩ := ih (JsMap.set used v (Node.nodeId r))
      (JsMap.set idxm (Node.nodeId r) v) (v + 1) hnodup' (by omega) hbelow'
    have hgr : JsMap.get (assignLoop2 (r :: rest) used idxm next).2 (Node.nodeId r) = some v := by
      rw [heq, IH1 (Node.nodeId r) (fun r2 hr2 hid => hrid (hid ▸ List.mem_map_of_mem Node.nodeId hr2)),
        JsMap.get_set]
      simp
    refine ⟨?_, ?_, ?_⟩
    · intro id hid
      rw [heq, IH1 id (fun r2 hr2 => hid r2 (List.mem_cons_of_mem r hr2)), JsMap.get_set,
        if_neg (hid r (List.mem_cons_self r rest))]
    · intro k hk
      match k with
      | 0 =>
        refine ⟨v, hgr, hv4, hv2, by simp, ?_⟩
        intro j h1 h2
        left
        by_cases hjn : j < next
        · exact hbelow j h1 hjn
        · exact hv3 j (by omega) h2
      | Nat.succ k' =>
        have hk' : k' < rest.length := by simpa using hk
        obtain ⟨v2, hget2, hv21, hv22, hne2, hleast2⟩ := IH2 k' hk'
        rw [JsMap.hasKey_set] at hv22
        have hvne : v ≠ v2 := by
          intro hcontra
          rw [hcontra] at hv22
          simp at hv22
        have hv22' : JsMap.hasKey used v2 = false := by
          rcases Bool.or_eq_false_iff.mp hv22 with ⟨_, h2⟩
          exact h2
        refine ⟨v2, by rw [heq]; exact hget2, hv21, hv22', ?_, ?_⟩
        · intro r2 hr2
          rcases List.mem_cons.mp (by simpa using hr2 :
              r2 ∈ r :: rest.take k') with rfl | hr2'
          · rw [hgr]
            intro hcontra
            exact hvne (by injection hcontra)
          · rw [heq]
            exact hne2 r2 hr2'
        · intro j h1 h2
          rcases hleast2 j h1 h2 with hkey | ⟨r2, hr2, hg⟩
          · rw [JsMap.hasKey_set] at hkey
            rcases Bool.or_eq_true_iff.mp hkey with hvj | hkey'
            · right
              refine ⟨r, by simp, ?_⟩
              rw [hgr]
              have : v = j := by simpa using hvj
              rw [this]
            · left
              exact hkey'
          · right
            refine ⟨r2, ?_, by rw [heq]; exact hg⟩
            simp only [List.take_succ_cons, List.mem_cons]
            exact Or.inr hr2
    · intro j
      rw [heq]
      rw [IH3 j]
      constructor
      · rintro (hkey | ⟨r2, hr2, hg⟩)
        · rw [JsMap.hasKey_set] at hkey
          rcases Bool.or_eq_true_iff.mp hkey with hvj | hkey'
          · right
            refine ⟨r, List.mem_cons_self r rest, ?_⟩
            rw [← heq, hgr]
            have : v = j := by simpa using hvj
            rw [this]
          · left
            exact hkey'
        · right
          exact ⟨r2, List.mem_cons_of_mem r hr2, hg⟩
      · rintro (hkey | ⟨r2, hr2, hg⟩)
        · left
          rw [JsMap.hasKey_set, hkey]
          simp
        · rcases List.mem_cons.mp hr2 with rfl | hr2'
          · left
            rw [← heq, hgr] at hg
            have : v = j := by injection hg
            rw [JsMap.hasKey_set]
            simp [this]
          · right
            exact ⟨r2, hr2', hg⟩

theorem assignLoop1_spec :
    ∀ (rs : List Node) (used : JsMap Nat String) (idxm : JsMap String Nat)
      (unspec : List Node) (result : JsMap Nat String × JsMap String Nat × List Node),
    (rs.map Node.nodeId).Nodup →
    assignLoop1 rs used idxm unspec = .ok result →
    (result.2.2 = unspec ++ rs.filter (fun r => (labelOf r).isEmpty))
    ∧ (∀ r ∈ rs, (labelOf r).isEmpty = false →
        ∃ idx, parseResistorIndex (labelOf r) = some idx ∧ idx ≠ 0 ∧
          JsMap.get result.2.1 (Node.nodeId r) = some idx)
    ∧ (∀ id, (∀ r ∈ rs, Node.nodeId r ≠ id) → JsMap.get result.2.1 id = JsMap.get idxm id)
    ∧ (∀ j, JsMap.hasKey result.1 j = true ↔
        (JsMap.hasKey used j = true ∨ j ∈ claimedOf rs))
    ∧ ((claimedOf rs).Nodup ∧ ∀ j ∈ claimedOf rs, JsMap.hasKey used j = false) := by
  intro rs
  induction rs with
  | nil =>
    intro used idxm unspec result hnodup hok
    rw [assignLoop1] at hok
    injection hok with hok
    subst hok
    refine ⟨by simp, by simp, fun id _ => rfl, fun j => by simp [claimedOf], by simp [claimedOf]⟩
  | cons r rest ih =>
    intro used idxm unspec result hnodup hok
    simp only [List.map_cons, List.nodup_cons] at hnodup
    obtain ⟨hrid, hnodup'⟩ := hnodup
    by_cases hlab : (labelOf r).isEmpty
    · rw [assignLoop1, if_pos hlab] at hok
      obtain ⟨A, B, C, E, G⟩ := ih used idxm (unspec ++ [r]) result hnodup' hok
      have hclaim : claimedOf (r :: rest) = claimedOf rest := by
        simp [claimedOf, hlab]
      refine ⟨?_, ?_, ?_, ?_, ?_⟩
      · rw [A]
        simp [List.filter_cons, hlab]
      · intro r2 hr2 hlab2
        rcases List.mem_cons.mp hr2 with rfl | hr2'
        · rw [hlab] at hlab2
          exact absurd hlab2 (by simp)
        · exact B r2 hr2' hlab2
      · intro id hid
        exact C id (fun r2 hr2 => hid r2 (List.mem_cons_of_mem r hr2))
      · intro j
        rw [hclaim]
        exact E j
      · rw [hclaim]
        exact G
    · have hlab' : (labelOf r).isEmpty = false := by simpa using hlab
      cases hparse : parseResistorIndex (labelOf r) with
      | none =>
        simp only [assignLoop1, hlab', hparse] at hok
        exact absurd hok (by simp)
      | some idx =>
        simp only [assignLoop1, hlab', hparse] at hok
        by_cases hz : idx = 0
        · rw [if_pos hz] at hok
          exact absurd hok (by simp)
        · rw [if_neg hz] at hok
          by_cases hdup : JsMap.hasKey used idx = true
          · rw [if_pos hdup] at hok
            exact absurd hok (by simp)
          · rw [if_neg hdup] at hok
            obtain ⟨A, B, C, E, G⟩ := ih (JsMap.set used idx (Node.nodeId r))
              (JsMap.set idxm (Node.nodeId r) idx) unspec result hnodup' hok
            have hclaim : claimedOf (r :: rest) = idx :: claimedOf rest := by
              simp [claimedOf, hlab, hparse]
            have hgr : JsMap.get result.2.1 (Node.nodeId r) = some idx := by
              rw [C (Node.nodeId r)
                  (fun r2 hr2 hid => hrid (hid ▸ List.mem_map_of_mem Node.nodeId hr2)),
                JsMap.get_set]
              simp
            refine ⟨?_, ?_, ?_, ?_, ?_⟩
            · rw [A, List.filter_cons_of_neg (by simpa using hlab)]
            · intro r2 hr2 hlab2
              rcases List.mem_cons.mp hr2 with rfl | hr2'
              · exact ⟨idx, hparse, hz, hgr⟩
              · exact B r2 hr2' hlab2
            · intro id hid
              rw [C id (fun r2 hr2 => hid r2 (List.mem_cons_of_mem r hr2)), JsMap.get_set,
                if_neg (hid r (List.mem_cons_self r rest))]
            · intro j
              rw [hclaim, E j, JsMap.hasKey_set]
              constructor
              · rintro (hkey | hj)
                · rcases Bool.or_eq_true_iff.mp hkey with hij | hkey'
                  · right
                    simp only [List.mem_cons]
                    left
                    exact (by simpa using hij : idx = j).symm
                  · left
                    exact hkey'
                · right
                  exact List.mem_cons_of_mem idx hj
              · rintro (hkey | hj)
                · left
                  rw [hkey]
                  simp
                · rcases List.mem_cons.mp hj with rfl | hj'
                  · left
                    simp
                  · right
                    exact hj'
            · obtain ⟨G1, G2⟩ := G
              rw [hclaim]
              constructor
              · rw [List.nodup_cons]
                refine ⟨?_, G1⟩
                intro hmem
                have := G2 idx hmem
                rw [JsMap.hasKey_set] at this
                simp at this
              · intro j hj
                rcases List.mem_cons.mp hj with rfl | hj'
                · simpa using hdup
                · have := G2 j hj'
                  rw [JsMap.hasKey_set] at this
                  rcases Bool.or_eq_false_iff.mp this with ⟨_, h2⟩
                  exact h2

theorem assignLoop1_inj :
    ∀ (rs : List Node) (used : JsMap Nat String) (idxm : JsMap String Nat)
      (unspec : List Node) (result : JsMap Nat String × JsMap String Nat × List Node),
    assignLoop1 rs used idxm unspec = .ok result →
    (∀ id1 id2 j, id1 ≠ id2 →
      JsMap.get idxm id1 = some j → JsMap.get idxm id2 = some j → False) →
    (∀ id j, JsMap.get idxm id = some j → JsMap.hasKey used j = true) →
    (∀ id1 id2 j, id1 ≠ id2 →
      JsMap.get result.2.1 id1 = some j → JsMap.get result.2.1 id2 = some j → False)
    ∧ (∀ id j, JsMap.get result.2.1 id = some j → JsMap.hasKey result.1 j = true) := by
  intro rs
  induction rs with
  | nil =>
    intro used idxm unspec result hok hinj hvals
    rw [assignLoop1] at hok
    injection hok with hok
    subst hok
    exact ⟨hinj, hvals⟩
  | cons r rest ih =>
    intro used idxm unspec result hok hinj hvals
    by_cases hlab : (labelOf r).isEmpty
    · rw [assignLoop1, if_pos hlab] at hok
      exact ih used idxm (unspec ++ [r]) result hok hinj hvals
    · have hlab' : (labelOf r).isEmpty = false := by simpa using hlab
      cases hparse : parseResistorIndex (labelOf r) with
      | none =>
        simp only [assignLoop1, hlab', hparse] at hok
        exact absurd hok (by simp)
      | some idx =>
        simp only [assignLoop1, hlab', hparse] at hok
        by_cases hz : idx = 0
        · rw [if_pos hz] at hok
          exact absurd hok (by simp)
        · rw [if_neg hz] at hok
          by_cases hdup : JsMap.hasKey used idx = true
          · rw [if_pos hdup] at hok
            exact absurd hok (by simp)
          · rw [if_neg hdup] at hok
            apply ih (JsMap.set used idx (Node.nodeId r))
              (JsMap.set idxm (Node.nodeId r) idx) unspec result hok
            · intro id1 id2 j hne h1 h2
              rw [JsMap.get_set] at h1 h2
              by_cases hi1 : Node.nodeId r = id1
              · rw [if_pos hi1] at h1
                rw [if_neg (hi1 ▸ hne : ¬ Node.nodeId r = id2)] at h2
                have hj : j = idx := (Option.some.inj h1).symm
                subst hj
                exact hdup (hvals id2 j h2)
              · rw [if_neg hi1] at h1
                by_cases hi2 : Node.nodeId r = id2
                · rw [if_pos hi2] at h2
                  have hj : j = idx := (Option.some.inj h2).symm
                  subst hj
                  exact hdup (hvals id1 j h1)
                · rw [if_neg hi2] at h2
                  exact hinj id1 id2 j hne h1 h2
            · intro id j hget
              rw [JsMap.get_set] at hget
              rw [JsMap.hasKey_set]
              by_cases hi : Node.nodeId r = id
              · rw [if_pos hi] at hget
                have hj : idx = j := Option.some.inj hget
                simp [hj]
              · rw [if_neg hi] at hget
                simp [hvals id j hget]

theorem get_mem_take {α : Type} (l : List α) (k1 k2 : Nat) (h1 : k1 < l.length)
    (h2 : k1 < k2) : l.get ⟨k1, h1⟩ ∈ l.take k2 := by
  have hlen : k1 < (l.take k2).length := by
    simp only [List.length_take]
    omega
  have heq : (l.take k2).get ⟨k1, hlen⟩ = l.get ⟨k1, h1⟩ := by
    simp [List.getElem_take]
  rw [← heq]
  exact List.get_mem _ _ _

/-- C8: resistor index assignment is injective — no two resistors receive the
same index — and total on the visited resistors; it preserves the index of
every resistor whose non-empty label parses under the accepted
`R<digits>` / `R_<digits>` / `R\x7b<digits>\x7d` / `R_\x7b<digits>\x7d`
patterns; it errors whenever some non-empty label parses under none of the
patterns, and whenever two distinct resistors claim the same index; and each
unlabeled resistor receives, in visitation order, the smallest positive
integer that is neither claimed explicitly nor given to an earlier unlabeled
resistor.  Resistor ids are assumed pairwise distinct. -/
theorem c8_resistor_index_assignment (c : Circuit) (ig : Bool)
    (rs us : List Node)
    (hrs : rs = visitResistorsList ig (seriesItemsForCircuit c))
    (hus : us = rs.filter (fun r => (labelOf r).isEmpty))
    (hnodup : (rs.map Node.nodeId).Nodup) :
    (∀ m, assignResistorIndices c ig = .ok m →
      ((∀ r ∈ rs, ∃ v, JsMap.get m (Node.nodeId r) = some v ∧ 1 ≤ v)
      ∧ (∀ r1 ∈ rs, ∀ r2 ∈ rs, Node.nodeId r1 ≠ Node.nodeId r2 →
          JsMap.get m (Node.nodeId r1) ≠ JsMap.get m (Node.nodeId r2))
      ∧ (∀ r ∈ rs, (labelOf r).isEmpty = false →
          ∀ idx, parseResistorIndex (labelOf r) = some idx →
            JsMap.get m (Node.nodeId r) = some idx)
      ∧ (∀ k, (hk : k < us.length) → ∃ v,
          JsMap.get m (Node.nodeId (us.get ⟨k, hk⟩)) = some v ∧ 1 ≤ v ∧
          v ∉ claimedOf rs ∧
          (∀ r ∈ us.take k, JsMap.get m (Node.nodeId r) ≠ some v) ∧
          (∀ j, 1 ≤ j → j < v →
            (j ∈ claimedOf rs ∨ ∃ r ∈ us.take k, JsMap.get m (Node.nodeId r) = some j)))))
    ∧ ((∃ r ∈ rs, (labelOf r).isEmpty = false ∧ parseResistorIndex (labelOf r) = none) →
        ∀ m, assignResistorIndices c ig ≠ .ok m)
    ∧ ((∃ r1 ∈ rs, ∃ r2 ∈ rs, Node.nodeId r1 ≠ Node.nodeId r2 ∧
        (labelOf r1).isEmpty = false ∧ (labelOf r2).isEmpty = false ∧
        ∃ idx, parseResistorIndex (labelOf r1) = some idx ∧
          parseResistorIndex (labelOf r2) = some idx) →
        ∀ m, assignResistorIndices c ig ≠ .ok m) := by
  have main : ∀ m, assignResistorIndices c ig = .ok m →
      ((∀ r ∈ rs, ∃ v, JsMap.get m (Node.nodeId r) = some v ∧ 1 ≤ v)
      ∧ (∀ r1 ∈ rs, ∀ r2 ∈ rs, Node.nodeId r1 ≠ Node.nodeId r2 →
          JsMap.get m (Node.nodeId r1) ≠ JsMap.get m (Node.nodeId r2))
      ∧ (∀ r ∈ rs, (labelOf r).isEmpty = false →
          ∀ idx, parseResistorIndex (labelOf r) = some idx →
            JsMap.get m (Node.nodeId r) = some idx)
      ∧ (∀ k, (hk : k < us.length) → ∃ v,
          JsMap.get m (Node.nodeId (us.get ⟨k, hk⟩)) = some v ∧ 1 ≤ v ∧
          v ∉ claimedOf rs ∧
          (∀ r ∈ us.take k, JsMap.get m (Node.nodeId r) ≠ some v) ∧
          (∀ j, 1 ≤ j → j < v →
            (j ∈ claimedOf rs ∨ ∃ r ∈ us.take k, JsMap.get m (Node.nodeId r) = some j)))) := by
    intro m hok
    rw [assignResistorIndices, ← hrs] at hok
    cases hl1 : assignLoop1 rs [] [] [] with
    | error e =>
      rw [hl1] at hok
      exact absurd hok (by simp)
    | ok res =>
      obtain ⟨u, i2, un⟩ := res
      rw [hl1] at hok
      simp only [Except.ok.injEq] at hok
      obtain ⟨A, B, C, E, G1, G2⟩ := assignLoop1_spec rs [] [] [] (u, i2, un) hnodup hl1
      obtain ⟨H1, H2⟩ := assignLoop1_inj rs [] [] [] (u, i2, un) hl1
        (by intro id1 id2 j _ h1 _; simp [JsMap.get] at h1)
        (by intro id j h; simp [JsMap.get] at h)
      simp only at A B C E G1 G2 H1 H2
      have hA : un = us := by
        rw [hus]
        simpa using A
      rw [hA] at hok
      have husnodup : (us.map Node.nodeId).Nodup := by
        rw [hus]
        exact hnodup.sublist (List.Sublist.map Node.nodeId (List.filter_sublist rs))
      obtain ⟨L1, L2, L3⟩ := assignLoop2_spec us u i2 1 husnodup (le_refl 1)
        (fun j h1 h2 => absurd (lt_of_lt_of_le h2 h1) (lt_irrefl j))
      have hm : m = (assignLoop2 us u i2 1).2 := hok.symm
      have hE : ∀ j, JsMap.hasKey u j = true ↔ j ∈ claimedOf rs := by
        intro j
        rw [E j]
        simp [JsMap.hasKey, JsMap.get]
      have husmem : ∀ r2 ∈ us, r2 ∈ rs ∧ (labelOf r2).isEmpty = true := by
        intro r2 hr2
        rw [hus] at hr2
        exact ⟨List.mem_of_mem_filter hr2, by simpa using List.of_mem_filter hr2⟩
      have huntouched : ∀ r ∈ rs, (labelOf r).isEmpty = false →
          JsMap.get m (Node.nodeId r) = JsMap.get i2 (Node.nodeId r) := by
        intro r hr hlab
        rw [hm]
        apply L1
        intro r2 hr2 hid
        obtain ⟨hr2rs, hl2⟩ := husmem r2 hr2
        have : r2 = r := List.inj_on_of_nodup_map hnodup hr2rs hr hid
        rw [this, hlab] at hl2
        exact absurd hl2 (by simp)
      have hlabeled : ∀ r ∈ rs, (labelOf r).isEmpty = false →
          ∃ idx, parseResistorIndex (labelOf r) = some idx ∧ idx ≠ 0 ∧
            JsMap.get m (Node.nodeId r) = some idx := by
        intro r hr hlab
        obtain ⟨idx, hp, hz, hget⟩ := B r hr hlab
        exact ⟨idx, hp, hz, by rw [huntouched r hr hlab]; exact hget⟩
      have hunlabeled : ∀ k, (hk : k < us.length) → ∃ v,
          JsMap.get m (Node.nodeId (us.get ⟨k, hk⟩)) = some v ∧ 1 ≤ v ∧
          JsMap.hasKey u v = false ∧
          (∀ r ∈ us.take k, JsMap.get m (Node.nodeId r) ≠ some v) ∧
          (∀ j, 1 ≤ j → j < v → (JsMap.hasKey u j = true ∨
            ∃ r ∈ us.take k, JsMap.get m (Node.nodeId r) = some j)) := by
        intro k hk
        obtain ⟨v, hg, h1, hfree, hne, hleast⟩ := L2 k hk
        rw [← hm] at hg hne hleast
        exact ⟨v, hg, h1, hfree, hne, hleast⟩
      refine ⟨?_, ?_, ?_, ?_⟩
      · intro r hr
        by_cases hlab : (labelOf r).isEmpty
        · have hrus : r ∈ us := by
            rw [hus]
            exact List.mem_filter.mpr ⟨hr, by simpa using hlab⟩
          obtain ⟨⟨k, hk⟩, hgetk⟩ := List.mem_iff_get.mp hrus
          obtain ⟨v, hg, h1, _, _, _⟩ := hunlabeled k hk
          rw [hgetk] at hg
          exact ⟨v, hg, h1⟩
        · obtain ⟨idx, _, hz, hget⟩ := hlabeled r hr (by simpa using hlab)
          exact ⟨idx, hget, by omega⟩
      · intro r1 hr1 r2 hr2 hne hcontra
        by_cases hlab1 : (labelOf r1).isEmpty
        · have hrus1 : r1 ∈ us := by
            rw [hus]
            exact List.mem_filter.mpr ⟨hr1, by simpa using hlab1⟩
          obtain ⟨⟨k1, hk1⟩, hgetk1⟩ := List.mem_iff_get.mp hrus1
          by_cases hlab2 : (labelOf r2).isEmpty
          · -- both unlabeled
            have hrus2 : r2 ∈ us := by
              rw [hus]
              exact List.mem_filter.mpr ⟨hr2, by simpa using hlab2⟩
            obtain ⟨⟨k2, hk2⟩, hgetk2⟩ := List.mem_iff_get.mp hrus2
            have hkne : k1 ≠ k2 := by
              intro hcon
              subst hcon
              rw [hgetk1] at hgetk2
              exact hne (by rw [hgetk2])
            have key : ∀ ka kb (hka : ka < us.length) (hkb : kb < us.length), ka < kb →
                JsMap.get m (Node.nodeId (us.get ⟨ka, hka⟩)) ≠
                  JsMap.get m (Node.nodeId (us.get ⟨kb, hkb⟩)) := by
              intro ka kb hka hkb hab hcon
              obtain ⟨vb, hgb, _, _, hneb, _⟩ := hunlabeled kb hkb
              obtain ⟨va, hga, _, _, _, _⟩ := hunlabeled ka hka
              apply hneb (us.get ⟨ka, hka⟩) (get_mem_take us ka kb hka hab)
              rw [hga, ← hgb, ← hcon, hga]
            rcases Nat.lt_or_ge k1 k2 with hlt | hge
            · exact key k1 k2 hk1 hk2 hlt (by rw [hgetk1, hgetk2]; exact hcontra)
            · have hlt : k2 < k1 := by omega
              exact key k2 k1 hk2 hk1 hlt (by rw [hgetk1, hgetk2]; exact hcontra.symm)
          · -- r1 unlabeled, r2 labeled
            obtain ⟨idx2, _, _, hget2⟩ := hlabeled r2 hr2 (by simpa using hlab2)
            have hkey2 : JsMap.hasKey u idx2 = true := by
              apply H2 (Node.nodeId r2) idx2
              rw [← huntouched r2 hr2 (by simpa using hlab2)]
              exact hget2
            obtain ⟨v1, hg1, _, hfree1, _, _⟩ := hunlabeled k1 hk1
            rw [hgetk1] at hg1
            rw [hg1, hget2] at hcontra
            have : v1 = idx2 := by injection hcontra
            rw [this, hkey2] at hfree1
            exact absurd hfree1 (by simp)
        · obtain ⟨idx1, _, _, hget1⟩ := hlabeled r1 hr1 (by simpa using hlab1)
          have hkey1 : JsMap.hasKey u idx1 = true := by
            apply H2 (Node.nodeId r1) idx1
            rw [← huntouched r1 hr1 (by simpa using hlab1)]
            exact hget1
          by_cases hlab2 : (labelOf r2).isEmpty
          · -- r1 labeled, r2 unlabeled
            have hrus2 : r2 ∈ us := by
              rw [hus]
              exact List.mem_filter.mpr ⟨hr2, by simpa using hlab2⟩
            obtain ⟨⟨k2, hk2⟩, hgetk2⟩ := List.mem_iff_get.mp hrus2
            obtain ⟨v2, hg2, _, hfree2, _, _⟩ := hunlabeled k2 hk2
            rw [hgetk2] at hg2
            rw [hg2, hget1] at hcontra
            have : idx1 = v2 := by injection hcontra
            rw [← this, hkey1] at hfree2
            exact absurd hfree2 (by simp)
          · -- both labeled
            obtain ⟨idx2, _, _, hget2⟩ := hlabeled r2 hr2 (by simpa using hlab2)
            rw [hget1, hget2] at hcontra
            have hidx : idx1 = idx2 := by injection hcontra
            subst hidx
            exact H1 (Node.nodeId r1) (Node.nodeId r2) idx1 hne
              (by rw [← huntouched r1 hr1 (by simpa using hlab1)]; exact hget1)
              (by rw [← huntouched r2 hr2 (by simpa using hlab2)]; exact hget2)
      · intro r hr hlab idx hparse
        obtain ⟨idx0, hp0, _, hget0⟩ := hlabeled r hr hlab
        rw [hparse] at hp0
        have : idx = idx0 := by injection hp0
        rw [this]
        exact hget0
      · intro k hk
        obtain ⟨v, hg, h1, hfree, hne, hleast⟩ := hunlabeled k hk
        refine ⟨v, hg, h1, ?_, hne, ?_⟩
        · intro hmem
          rw [← hE] at hmem
          rw [hmem] at hfree
          exact absurd hfree (by simp)
        · intro j hj1 hj2
          rcases hleast j hj1 hj2 with hkey | hex
          · exact Or.inl ((hE j).mp hkey)
          · exact Or.inr hex
  refine ⟨main, ?_, ?_⟩
  · rintro ⟨r, hr, hlab, hparse⟩ m hok
    rw [assignResistorIndices, ← hrs] at hok
    cases hl1 : assignLoop1 rs [] [] [] with
    | error e =>
      rw [hl1] at hok
      exact absurd hok (by simp)
    | ok res =>
      obtain ⟨u, i2, un⟩ := res
      obtain ⟨A, B, C, E, G⟩ := assignLoop1_spec rs [] [] [] (u, i2, un) hnodup hl1
      obtain ⟨idx, hp, _, _⟩ := B r hr hlab
      rw [hparse] at hp
      exact absurd hp (by simp)
  · rintro ⟨r1, hr1, r2, hr2, hne, hlab1, hlab2, idx, hp1, hp2⟩ m hok
    obtain ⟨_, P2, P3, _⟩ := main m hok
    have h1 := P3 r1 hr1 hlab1 idx hp1
    have h2 := P3 r2 hr2 hlab2 idx hp2
    exact P2 r1 hr1 r2 hr2 hne (by rw [h1, h2])

/-- Witness for C8 at a concrete circuit: the resistor labeled `R3` keeps
index 3, and the first unlabeled resistor receives a positive index. -/
theorem c8_witness :
    JsMap.get ([("i1", 3), ("i2", 1), ("i3", 2)] : JsMap String Nat) "i1" = some 3 ∧
    (∃ v, JsMap.get ([("i1", 3), ("i2", 1), ("i3", 2)] : JsMap String Nat) "i2" = some v ∧
      1 ≤ v) := by
  have h := c8_resistor_index_assignment
    (Circuit.mk "c" .straight
      (some [Node.resistor "i1" (some "R3") 10 false,
        Node.resistor "i2" none 20 false,
        Node.vsource "v1" none 5,
        Node.resistor "i3" none 30 false]) none none none) false
    [Node.resistor "i1" (some "R3") 10 false, Node.resistor "i2" none 20 false,
      Node.resistor "i3" none 30 false]
    [Node.resistor "i2" none 20 false, Node.resistor "i3" none 30 false]
    (by rfl) (by rfl) (by decide)
  obtain ⟨main, -, -⟩ := h
  obtain ⟨P1, -, P3, -⟩ := main [("i1", 3), ("i2", 1), ("i3", 2)] (by rfl)
  constructor
  · exact P3 (Node.resistor "i1" (some "R3") 10 false) (by simp) (by rfl) 3 (by rfl)
  · obtain ⟨v, hv, h1⟩ := P1 (Node.resistor "i2" none 20 false) (by simp)
    exact ⟨v, hv, h1⟩

theorem listRange'_succ (s n : Nat) :
    List.range' s (n + 1) = s :: List.range' (s + 1) n := rfl

theorem listRange'_zero (s : Nat) : List.range' s 0 = [] := rfl

theorem stampResistors_ok (g : Nat) :
    ∀ (elements : List GraphElement) (A : Mat),
    (∀ e ∈ elements, resistorOhmsPos e) →
    ∃ A2, stampResistors g A elements = .ok A2 := by
  intro elements
  induction elements with
  | nil =>
    intro A _
    exact ⟨A, rfl⟩
  | cons e rest ih =>
    intro A hres
    cases e with
    | resistor i nm o gen n1 n2 =>
      have hpos : 0 < o := hres (.resistor i nm o gen n1 n2) (List.mem_cons_self _ _)
      have hcheck : ¬ (numberIsFinite o = false ∨ o ≤ 0) := by
        simp only [numberIsFinite, not_or]
        exact ⟨by simp, not_le.mpr hpos⟩
      rw [stampResistors, if_neg hcheck]
      exact ih _ (fun e2 he2 => hres e2 (List.mem_cons_of_mem _ he2))
    | isource i nm amps nFrom nTo =>
      rw [stampResistors]
      exact ih A (fun e2 he2 => hres e2 (List.mem_cons_of_mem _ he2))
    | vsource i nm v np nm2 ind =>
      rw [stampResistors]
      exact ih A (fun e2 he2 => hres e2 (List.mem_cons_of_mem _ he2))

theorem stampISources_ok (g : Nat) :
    ∀ (elements : List GraphElement) (b : Vec),
    ∃ b2, stampISources g b elements = .ok b2 ∧ b2.length = b.length := by
  intro elements
  induction elements with
  | nil =>
    intro b
    exact ⟨b, rfl, rfl⟩
  | cons e rest ih =>
    intro b
    cases e with
    | resistor i nm o gen n1 n2 =>
      rw [stampISources]
      exact ih b
    | vsource i nm v np nm2 ind =>
      rw [stampISources]
      exact ih b
    | isource i nm amps nFrom nTo =>
      rw [stampISources]
      rw [if_neg (by simp [numberIsFinite])]
      obtain ⟨b2, hb2, hlen⟩ := ih
        (match nodeVar g nTo with
         | some i2 =>
           vset (match nodeVar g nFrom with
             | some i3 => vset b i3 (vget b i3 - amps)
             | none => b) i2
             (vget (match nodeVar g nFrom with
               | some i3 => vset b i3 (vget b i3 - amps)
               | none => b) i2 + amps)
         | none =>
           match nodeVar g nFrom with
           | some i3 => vset b i3 (vget b i3 - amps)
           | none => b)
      refine ⟨b2, hb2, ?_⟩
      rw [hlen]
      cases nodeVar g nTo <;> cases nodeVar g nFrom <;> simp [vset]

theorem stampVSources_ok (g nUnknown : Nat) :
    ∀ (elements : List GraphElement) (A : Mat) (b : Vec) (k : Nat),
    ∃ p, stampVSources g nUnknown A b k elements = .ok p ∧ p.2.length = b.length := by
  intro elements
  induction elements with
  | nil =>
    intro A b k
    exact ⟨(A, b), rfl, rfl⟩
  | cons e rest ih =>
    intro A b k
    cases e with
    | resistor i nm o gen n1 n2 =>
      rw [stampVSources]
      exact ih A b k
    | isource i nm amps nFrom nTo =>
      rw [stampVSources]
      exact ih A b k
    | vsource i nm v np nm2 ind =>
      rw [stampVSources]
      rw [if_neg (by simp [numberIsFinite])]
      obtain ⟨p, hp, hlen⟩ := ih _ (vset b (nUnknown + k) v) (k + 1)
      refine ⟨p, hp, ?_⟩
      rw [hlen]
      simp [vset]

theorem mnaMatrix_ok (elements : List GraphElement) (nodeCount groundNode : Nat)
    (hres : ∀ e ∈ elements, resistorOhmsPos e) :
    ∃ A b, mnaMatrix elements nodeCount groundNode = .ok (A, b) ∧
      b.length = (nodeCount - 1) + (elements.filter GraphElement.isVsource).length := by
  obtain ⟨A2, hA2⟩ := stampResistors_ok groundNode elements
    (zeroMatrix ((nodeCount - 1) + (elements.filter GraphElement.isVsource).length)) hres
  obtain ⟨b2, hb2, hb2len⟩ := stampISources_ok groundNode elements
    (List.replicate ((nodeCount - 1) + (elements.filter GraphElement.isVsource).length) 0)
  obtain ⟨p, hp, hplen⟩ := stampVSources_ok groundNode (nodeCount - 1) elements A2 b2 0
  refine ⟨p.1, p.2, ?_, ?_⟩
  · rw [mnaMatrix, hA2, hb2]
    simpa using hp
  · rw [hplen, hb2len, List.length_replicate]

theorem elimStep_none_iff (n : Nat) (st : Mat × Vec) (col : Nat) :
    elimStep n st col = none ↔ (pivotSelect st.1 n col).2 = 0 := by
  rw [elimStep]
  by_cases h : (pivotSelect st.1 n col).2 = 0
  · simp [h]
  · simp [h, numberIsFinite]

theorem elimLoop_none_iff (n : Nat) :
    ∀ (cols : List Nat) (st : Mat × Vec),
    elimLoop n st cols = none ↔
      ∃ pre col suf, cols = pre ++ col :: suf ∧
        ∃ st2, elimLoop n st pre = some st2 ∧ (pivotSelect st2.1 n col).2 = 0 := by
  intro cols
  induction cols with
  | nil =>
    intro st
    simp [elimLoop]
  | cons col0 rest ih =>
    intro st
    cases hstep : elimStep n st col0 with
    | none =>
      rw [elimLoop, hstep]
      constructor
      · intro _
        exact ⟨[], col0, rest, rfl, st, rfl, (elimStep_none_iff n st col0).mp hstep⟩
      · intro _
        rfl
    | some st1 =>
      rw [elimLoop, hstep]
      rw [ih st1]
      constructor
      · rintro ⟨pre, col, suf, hsplit, st2, hloop, hzero⟩
        exact ⟨col0 :: pre, col, suf, by rw [hsplit, List.cons_append], st2,
          by rw [elimLoop, hstep]; exact hloop, hzero⟩
      · rintro ⟨pre, col, suf, hsplit, st2, hloop, hzero⟩
        cases pre with
        | nil =>
          injection hsplit with hcol hsuf
          subst hcol
          rw [elimLoop] at hloop
          injection hloop with hst2
          rw [← hst2] at hzero
          rw [(elimStep_none_iff n st col0).mpr hzero] at hstep
          exact absurd hstep (by simp)
        | cons p0 prest =>
          injection hsplit with hp0 hrest
          subst hp0
          rw [elimLoop, hstep] at hloop
          exact ⟨prest, col, suf, hrest, st2, hloop, hzero⟩

theorem backSubstGo_none_iff (M : Mat) (rhs : Vec) (n : Nat) :
    ∀ (rows : List Nat) (x : Vec),
    backSubstGo M rhs n rows x = none ↔ ∃ r ∈ rows, mget M r r = 0 := by
  intro rows
  induction rows with
  | nil =>
    intro x
    simp [backSubstGo]
  | cons r0 rest ih =>
    intro x
    by_cases hdiag : mget M r0 r0 = 0
    · rw [backSubstGo]
      simp only [hdiag]
      simp [hdiag]
    · rw [backSubstGo]
      have hcond : ¬ (mget M r0 r0 = 0 ∨ numberIsFinite (mget M r0 r0) = false) := by
        simp [hdiag, numberIsFinite]
      rw [if_neg hcond]
      rw [ih]
      simp only [List.mem_cons]
      constructor
      · rintro ⟨r, hr, hz⟩
        exact ⟨r, Or.inr hr, hz⟩
      · rintro ⟨r, hr | hr, hz⟩
        · subst hr
          exact absurd hz hdiag
        · exact ⟨r, hr, hz⟩

theorem range_split_prefix (nn : Nat) (pre : List Nat) (col : Nat) (suf : List Nat)
    (h : List.range nn = pre ++ col :: suf) : pre = List.range col ∧ col < nn := by
  have hlen : pre.length + suf.length + 1 = nn := by
    have h2 := congrArg List.length h
    simp only [List.length_range, List.length_append, List.length_cons] at h2
    omega
  have hcol : col = pre.length := by
    have hget : (List.range nn).getD pre.length 0 = col := by
      rw [h]
      rw [List.getD_eq_getElem?_getD, List.getElem?_append_right (le_refl pre.length)]
      simp
    rw [List.getD_eq_getElem?_getD] at hget
    rw [List.getElem?_range (by omega : pre.length < nn)] at hget
    simpa using hget.symm
  have hpre : pre = List.range pre.length := by
    have htake : (List.range nn).take pre.length = pre := by
      rw [h, List.take_append_of_le_length (le_refl pre.length)]
      simp
    rw [List.take_range] at htake
    have : min pre.length nn = pre.length := by omega
    rw [this] at htake
    exact htake.symm
  constructor
  · rw [hpre, hcol]
  · omega

theorem range_split_at (col n : Nat) (h : col < n) :
    List.range n = List.range col ++ col :: List.range' (col + 1) (n - (col + 1)) := by
  have h1 : List.range n = List.range' 0 n := List.range_eq_range' n
  have h2 : List.range col = List.range' 0 col := List.range_eq_range' col
  rw [h1, h2]
  have h3 := List.range'_append 0 col (n - col) 1
  simp only [Nat.zero_add, Nat.one_mul] at h3
  have h4 : n - col + col = n := by omega
  rw [h4] at h3
  rw [← h3]
  congr 1
  have h5 : n - col = (n - (col + 1)) + 1 := by omega
  rw [h5]
  rw [List.range'_succ]

/-- C5: under a well-formed input (node count at least 2, valid ground,
positive resistor ohms), `solveMna` returns the error
"Circuit equations are singular or inconsistent (no unique solution)."
exactly when the linear solve fails, the linear solve fails exactly when
Gaussian elimination with partial pivoting on absolute value meets a
selected pivot that is zero (non-finiteness being impossible in the exact
rational model) during forward elimination, or a zero diagonal during back
substitution; and on a successful linear solve `solveMna` returns the
back-substituted solution packaged as node voltages and source currents. -/
theorem c5_solveMna_singularity (elements : List GraphElement) (nodeCount groundNode : Nat)
    (hn : 2 ≤ nodeCount) (hg : groundNode < nodeCount)
    (hres : ∀ e ∈ elements, resistorOhmsPos e) :
    ∃ A b, mnaMatrix elements nodeCount groundNode = .ok (A, b) ∧
      b.length = (nodeCount - 1) + (elements.filter GraphElement.isVsource).length ∧
      (solveMna elements nodeCount groundNode =
          .error "Circuit equations are singular or inconsistent (no unique solution)." ↔
        solveLinearSystem A b = none) ∧
      (solveLinearSystem A b = none ↔
        ((∃ col < b.length, ∃ st, elimLoop b.length (A, b) (List.range col) = some st ∧
            (pivotSelect st.1 b.length col).2 = 0) ∨
          (∃ st, elimLoop b.length (A, b) (List.range b.length) = some st ∧
            ∃ r < b.length, mget st.1 r r = 0))) ∧
      (∀ x, solveLinearSystem A b = some x →
        solveMna elements nodeCount groundNode =
          .ok ⟨mnaNodeVoltages groundNode nodeCount x,
            vsCurrents (nodeCount - 1) x
              (vsIndexLoop 0 [] (elements.filter GraphElement.isVsource))⟩) := by
  obtain ⟨A, b, hmna, hblen⟩ := mnaMatrix_ok elements nodeCount groundNode hres
  have h2 : ¬ (nodeCount < 2) := by omega
  have hgn : ¬ (groundNode ≥ nodeCount) := by omega
  have hdim : ¬ ((nodeCount - 1) + (elements.filter GraphElement.isVsource).length = 0) := by
    omega
  have hsolve : solveMna elements nodeCount groundNode =
      (match solveLinearSystem A b with
       | none =>
         .error "Circuit equations are singular or inconsistent (no unique solution)."
       | some x =>
         .ok ⟨mnaNodeVoltages groundNode nodeCount x,
           vsCurrents (nodeCount - 1) x
             (vsIndexLoop 0 [] (elements.filter GraphElement.isVsource))⟩) := by
    rw [solveMna, if_neg h2, if_neg hgn]
    simp only [if_neg hdim, hmna]
  refine ⟨A, b, hmna, hblen, ?_, ?_, ?_⟩
  · rw [hsolve]
    cases hsl : solveLinearSystem A b with
    | none => simp
    | some x => simp
  · rw [solveLinearSystem]
    cases helim : elimLoop b.length (A, b) (List.range b.length) with
    | none =>
      constructor
      · intro _
        left
        obtain ⟨pre, col, suf, hsplit, st2, hloop, hzero⟩ :=
          (elimLoop_none_iff b.length (List.range b.length) (A, b)).mp helim
        obtain ⟨hpre, hcol⟩ := range_split_prefix b.length pre col suf hsplit
        exact ⟨col, hcol, st2, hpre ▸ hloop, hzero⟩
      · intro _
        rfl
    | some st =>
      constructor
      · intro hbs
        right
        refine ⟨st, rfl, ?_⟩
        obtain ⟨r, hr, hz⟩ :=
          (backSubstGo_none_iff st.1 st.2 b.length (List.range b.length).reverse
            (List.replicate b.length 0)).mp hbs
        rw [List.mem_reverse, List.mem_range] at hr
        exact ⟨r, hr, hz⟩
      · rintro (⟨col, hcol, st2, hloop, hzero⟩ | ⟨st2, hst2, r, hr, hz⟩)
        · exfalso
          have : elimLoop b.length (A, b) (List.range b.length) = none := by
            apply (elimLoop_none_iff b.length (List.range b.length) (A, b)).mpr
            exact ⟨List.range col, col, List.range' (col + 1) (b.length - (col + 1)),
              range_split_at col b.length hcol, st2, hloop, hzero⟩
          rw [helim] at this
          exact absurd this (by simp)
        · injection hst2 with hst2
          subst hst2
          show backSubst st.1 st.2 b.length = none
          apply (backSubstGo_none_iff st.1 st.2 b.length (List.range b.length).reverse
            (List.replicate b.length 0)).mpr
          exact ⟨r, by rw [List.mem_reverse, List.mem_range]; exact hr, hz⟩
  · intro x hx
    rw [hsolve, hx]

/-- Witness for C5 at a concrete well-formed input. -/
theorem c5_witness :
    2 ≤ 2 ∧ 0 < 2 ∧
    ∃ A b,
      mnaMatrix [GraphElement.vsource "v1" none 5 1 0 true,
        GraphElement.resistor "r1" none 1 false 1 0] 2 0 = .ok (A, b) ∧
      b.length = 2 ∧
      (solveMna [GraphElement.vsource "v1" none 5 1 0 true,
          GraphElement.resistor "r1" none 1 false 1 0] 2 0 =
          .error "Circuit equations are singular or inconsistent (no unique solution)." ↔
        solveLinearSystem A b = none) := by
  refine ⟨by omega, by omega, ?_⟩
  obtain ⟨A, b, hmna, hblen, hiff, -, -⟩ :=
    c5_solveMna_singularity
      [GraphElement.vsource "v1" none 5 1 0 true,
        GraphElement.resistor "r1" none 1 false 1 0] 2 0 (by omega) (by omega)
      (by
        intro e he
        rcases List.mem_cons.mp he with rfl | he2
        · simp [resistorOhmsPos]
        · rcases List.mem_cons.mp he2 with rfl | he3
          · norm_num [resistorOhmsPos]
          · exact absurd he3 (List.not_mem_nil e))
  exact ⟨A, b, hmna, by simpa using hblen, hiff⟩

theorem mnaMatrix_length (elements : List GraphElement) (nodeCount groundNode : Nat)
    (A : Mat) (b : Vec)
    (hok : mnaMatrix elements nodeCount groundNode = .ok (A, b)) :
    b.length = (nodeCount - 1) + (elements.filter GraphElement.isVsource).length := by
  obtain ⟨b2, hb2, hb2len⟩ := stampISources_ok groundNode elements
    (List.replicate ((nodeCount - 1) + (elements.filter GraphElement.isVsource).length) 0)
  cases hR : stampResistors groundNode
      (zeroMatrix ((nodeCount - 1) + (elements.filter GraphElement.isVsource).length))
      elements with
  | error e =>
    simp only [mnaMatrix, hR] at hok
    exact Except.noConfusion hok
  | ok A0 =>
    obtain ⟨p, hp, hplen⟩ := stampVSources_ok groundNode (nodeCount - 1) elements A0 b2 0
    simp only [mnaMatrix, hR, hb2, hp] at hok
    injection hok with hok
    have hb : b = p.2 := by rw [hok]
    rw [hb, hplen, hb2len, List.length_replicate]

theorem mnaNodeVoltages_getD (g n : Nat) (x : Vec) (i : Nat) (hi : i < n) :
    (mnaNodeVoltages g n x).getD i 0 =
      if i = g then 0 else
        match nodeVar g i with
        | none => 0
        | some idx => vget x idx := by
  rw [mnaNodeVoltages]
  rw [List.getD_eq_getElem _ _ (by simpa using hi)]
  simp only [List.getElem_map, List.getElem_range]

theorem nodeVar_eq_of_ne (g i : Nat) (hne : i ≠ g) :
    nodeVar g i = some (if i < g then i else i - 1) := by
  rw [nodeVar, if_neg hne]
  by_cases hg0 : g = 0
  · subst hg0
    simp [Nat.not_lt_zero]
  · rw [if_neg hg0]
    by_cases hlt : i < g
    · simp [hlt]
    · simp [hlt]

/-- C6: a successful `solveMna` call with node count `N ≥ 2` and ground
`g < N` returns a node-voltage vector of length `N` with entry 0 at the
ground; every other node `i` reads the solution unknown at index `i` when
`i < g` and `i - 1` when `i > g` (the `nodeVar` compaction); the solved
system has exactly one auxiliary unknown appended per voltage source
(`dim = (N - 1) + #vsources`), and the per-source currents are read off the
auxiliary block of the same solution vector. -/
theorem c6_node_voltage_mapping (elements : List GraphElement) (nodeCount groundNode : Nat)
    (r : MnaOk) (hn : 2 ≤ nodeCount) (hg : groundNode < nodeCount)
    (hok : solveMna elements nodeCount groundNode = .ok r) :
    r.nodeVoltages.length = nodeCount ∧
    r.nodeVoltages.getD groundNode 0 = 0 ∧
    ∃ A b x, mnaMatrix elements nodeCount groundNode = .ok (A, b) ∧
      solveLinearSystem A b = some x ∧
      b.length = (nodeCount - 1) + (elements.filter GraphElement.isVsource).length ∧
      (∀ i, i < nodeCount → i ≠ groundNode →
        r.nodeVoltages.getD i 0 = vget x (if i < groundNode then i else i - 1)) ∧
      r.voltageSourceCurrentsById =
        vsCurrents (nodeCount - 1) x
          (vsIndexLoop 0 [] (elements.filter GraphElement.isVsource)) := by
  have h2 : ¬ (nodeCount < 2) := by omega
  have hgn : ¬ (groundNode ≥ nodeCount) := by omega
  have hdim : ¬ ((nodeCount - 1) + (elements.filter GraphElement.isVsource).length = 0) := by
    omega
  rw [solveMna, if_neg h2, if_neg hgn] at hok
  simp only [if_neg hdim] at hok
  cases hM : mnaMatrix elements nodeCount groundNode with
  | error e =>
    simp only [hM] at hok
    exact Except.noConfusion hok
  | ok Ab =>
    cases hsl : solveLinearSystem Ab.1 Ab.2 with
    | none =>
      simp only [hM, hsl] at hok
      exact Except.noConfusion hok
    | some x =>
      simp only [hM, hsl] at hok
      injection hok with hok
      subst hok
      refine ⟨by simp [mnaNodeVoltages], ?_, Ab.1, Ab.2, x, by simpa using hM, hsl,
        mnaMatrix_length elements nodeCount groundNode Ab.1 Ab.2 (by simpa using hM),
        ?_, rfl⟩
      · rw [mnaNodeVoltages_getD groundNode nodeCount x groundNode hg]
        simp
      · intro i hi hne
        rw [mnaNodeVoltages_getD groundNode nodeCount x i hi, if_neg hne,
          nodeVar_eq_of_ne groundNode i hne]

/-- Witness for C6: a 5V source in a loop with a 1Ω resistor, ground 0. -/
theorem c6_witness :
    ∃ r, solveMna [GraphElement.vsource "v1" none 5 1 0 true,
        GraphElement.resistor "r1" none 1 false 1 0] 2 0 = .ok r ∧
      (r.nodeVoltages.length = 2 ∧
       r.nodeVoltages.getD 0 0 = 0 ∧
       ∃ A b x, mnaMatrix [GraphElement.vsource "v1" none 5 1 0 true,
           GraphElement.resistor "r1" none 1 false 1 0] 2 0 = .ok (A, b) ∧
         solveLinearSystem A b = some x ∧
         b.length = (2 - 1) +
           ([GraphElement.vsource "v1" none 5 1 0 true,
             GraphElement.resistor "r1" none 1 false 1 0].filter
               GraphElement.isVsource).length ∧
         (∀ i, i < 2 → i ≠ 0 →
           r.nodeVoltages.getD i 0 = vget x (if i < 0 then i else i - 1)) ∧
         r.voltageSourceCurrentsById =
           vsCurrents (2 - 1) x
             (vsIndexLoop 0 []
               ([GraphElement.vsource "v1" none 5 1 0 true,
                 GraphElement.resistor "r1" none 1 false 1 0].filter
                   GraphElement.isVsource))) := by
  have hok : solveMna [GraphElement.vsource "v1" none 5 1 0 true,
      GraphElement.resistor "r1" none 1 false 1 0] 2 0 =
      .ok ⟨[0, 5], [("v1", -5)]⟩ := by
    have hr2 : List.range 2 = [0, 1] := rfl
    norm_num [solveMna, mnaMatrix, stampResistors, stampISources, stampVSources,
      zeroMatrix, nodeVar, addTo, mset, mget, vset, vget, numberIsFinite,
      GraphElement.isVsource, List.filter, solveLinearSystem, elimLoop, elimStep,
      pivotSelect, swapRows, swapVec, elimBelow, elimOneRow, backSubst, backSubstGo,
      mnaNodeVoltages, vsCurrents, vsIndexLoop, GraphElement.gid, JsMap.set,
      JsMap.get, hr2, List.range', List.foldl]
  exact ⟨_, hok,
    c6_node_voltage_mapping
      [GraphElement.vsource "v1" none 5 1 0 true,
        GraphElement.resistor "r1" none 1 false 1 0] 2 0 _ (by omega) (by omega) hok⟩

theorem clone_of_no_sources (s : SuperpositionSource) :
    ∀ l : List GraphElement, listIndependentSources l = [] →
      cloneElementsForActiveSource l s = l := by
  intro l
  induction l with
  | nil => intro _; rfl
  | cons e rest ih =>
    intro h
    cases e with
    | resistor id name ohms gen n1 n2 =>
      simp only [listIndependentSources] at h
      exact congrArg (List.cons _) (ih h)
    | isource id name amps nFrom nTo =>
      simp only [listIndependentSources] at h
      exact absurd h (by simp)
    | vsource id name volts nPlus nMinus independent =>
      cases independent with
      | true =>
        simp only [listIndependentSources, if_pos] at h
        exact absurd h (by simp)
      | false =>
        simp only [listIndependentSources] at h
        simp only [Bool.false_eq_true, if_false] at h
        exact congrArg (List.cons _) (ih h)

theorem clone_of_single_source (s : SuperpositionSource) :
    ∀ l : List GraphElement, listIndependentSources l = [s] →
      cloneElementsForActiveSource l s = l := by
  intro l
  induction l with
  | nil => intro h; exact absurd h (by simp [listIndependentSources])
  | cons e rest ih =>
    intro h
    cases e with
    | resistor id name ohms gen n1 n2 =>
      simp only [listIndependentSources] at h
      exact congrArg (List.cons _) (ih h)
    | isource id name amps nFrom nTo =>
      simp only [listIndependentSources] at h
      have hid : s.id = id := by
        have := (List.cons.injEq _ _ _ _).mp h
        rw [← this.1]
      have hrest : listIndependentSources rest = [] := ((List.cons.injEq _ _ _ _).mp h).2
      have hcl := clone_of_no_sources s rest hrest
      have : cloneElementsForActiveSource
          (GraphElement.isource id name amps nFrom nTo :: rest) s =
          (if id = s.id then GraphElement.isource id name amps nFrom nTo
           else GraphElement.isource id name 0 nFrom nTo) :: cloneElementsForActiveSource rest s := rfl
      rw [this, if_pos hid.symm, hcl]
    | vsource id name volts nPlus nMinus independent =>
      cases independent with
      | true =>
        simp only [listIndependentSources, if_pos] at h
        have hid : s.id = id := by
          have := (List.cons.injEq _ _ _ _).mp h
          rw [← this.1]
        have hrest : listIndependentSources rest = [] := ((List.cons.injEq _ _ _ _).mp h).2
        have hcl := clone_of_no_sources s rest hrest
        have : cloneElementsForActiveSource
            (GraphElement.vsource id name volts nPlus nMinus true :: rest) s =
            (if true = false then GraphElement.vsource id name volts nPlus nMinus true
             else if id = s.id then GraphElement.vsource id name volts nPlus nMinus true
             else GraphElement.vsource id name 0 nPlus nMinus true) ::
              cloneElementsForActiveSource rest s := rfl
        rw [this, hcl]
        simp only [Bool.true_eq_false, if_false, if_pos hid.symm]
      | false =>
        simp only [listIndependentSources] at h
        simp only [Bool.false_eq_true, if_false] at h
        exact congrArg (List.cons _) (ih h)

theorem solveMna_ok_shape (elements : List GraphElement) (n g : Nat) (r : MnaOk)
    (hok : solveMna elements n g = .ok r) :
    ∃ A b x, mnaMatrix elements n g = .ok (A, b) ∧ solveLinearSystem A b = some x ∧
      r.nodeVoltages = mnaNodeVoltages g n x ∧
      r.voltageSourceCurrentsById =
        vsCurrents (n - 1) x (vsIndexLoop 0 [] (elements.filter GraphElement.isVsource)) := by
  by_cases h2 : n < 2
  · rw [solveMna, if_pos h2] at hok
    exact absurd hok (by simp)
  by_cases hgn : g ≥ n
  · rw [solveMna, if_neg h2, if_pos hgn] at hok
    exact absurd hok (by simp)
  by_cases hdim : (n - 1) + (elements.filter GraphElement.isVsource).length = 0
  · rw [solveMna, if_neg h2, if_neg hgn] at hok
    simp only [if_pos hdim] at hok
    exact absurd hok (by simp)
  rw [solveMna, if_neg h2, if_neg hgn] at hok
  simp only [if_neg hdim] at hok
  cases hM : mnaMatrix elements n g with
  | error e =>
    simp only [hM] at hok
    exact Except.noConfusion hok
  | ok Ab =>
    cases hsl : solveLinearSystem Ab.1 Ab.2 with
    | none =>
      simp only [hM, hsl] at hok
      exact Except.noConfusion hok
    | some x =>
      simp only [hM, hsl] at hok
      injection hok with hok
      subst hok
      exact ⟨Ab.1, Ab.2, x, by simpa using hM, hsl, rfl, rfl⟩

theorem addNodeVoltages_replicate (n : Nat) (v : Vec) (hv : v.length = n) :
    addNodeVoltages (List.replicate n 0) v = v := by
  apply List.ext_getElem
  · simp [addNodeVoltages, hv]
  · intro i h1 h2
    simp only [addNodeVoltages, List.length_map, List.length_range,
      List.length_replicate] at h1
    simp only [addNodeVoltages, List.getElem_map, List.getElem_range,
      List.length_replicate]
    rw [List.getD_eq_getElem _ _ (by simpa using h1 : i < (List.replicate n (0:ℚ)).length),
      List.getElem_replicate, List.getD_eq_getElem _ _ (by omega : i < v.length)]
    ring

theorem jsAddEntries_get (id : String) :
    ∀ (es : List (String × ℚ)) (t : JsMap String ℚ),
      (es.map Prod.fst).Nodup →
      JsMap.get (jsAddEntries t es) id =
        match JsMap.get es id with
        | some v => some (JsMap.getD t id 0 + v)
        | none => JsMap.get t id := by
  intro es
  induction es with
  | nil => intro t _; rfl
  | cons p rest ih =>
    obtain ⟨k, v⟩ := p
    intro t hnd
    simp only [List.map_cons, List.nodup_cons] at hnd
    rw [jsAddEntries]
    rw [ih _ hnd.2]
    by_cases hik : k = id
    · subst hik
      have hrest : JsMap.get rest k = none := by
        apply JsMap.get_eq_none_of_not_hasKey
        cases hh : JsMap.hasKey rest k with
        | false => rfl
        | true =>
          exact absurd ((JsMap.hasKey_iff_mem rest k).mp hh) hnd.1
      rw [hrest]
      have : JsMap.get ((k, v) :: rest) k = some v := by
        simp [JsMap.get]
      rw [this, JsMap.get_set]
      simp
    · have h1 : JsMap.get ((k, v) :: rest) id = JsMap.get rest id := by
        simp [JsMap.get, hik]
      rw [h1]
      have h2 : JsMap.get (JsMap.set t k (JsMap.getD t k 0 + v)) id = JsMap.get t id := by
        rw [JsMap.get_set, if_neg hik]
      have h3 : JsMap.getD (JsMap.set t k (JsMap.getD t k 0 + v)) id 0 = JsMap.getD t id 0 := by
        rw [JsMap.getD, h2, JsMap.getD]
      cases JsMap.get rest id with
      | none => exact h2
      | some w => rw [h3]

theorem nodupKeys_foldl_set {ι : Type} (key : ι → String) (val : JsMap String ℚ → ι → ℚ) :
    ∀ (l : List ι) (m : JsMap String ℚ), (JsMap.keys m).Nodup →
      (JsMap.keys (l.foldl (fun t a => JsMap.set t (key a) (val t a)) m)).Nodup := by
  intro l
  induction l with
  | nil => intro m hm; exact hm
  | cons a rest ih =>
    intro m hm
    exact ih _ (JsMap.nodupKeys_set m (key a) (val m a) hm)

theorem vsCurrents_nodupKeys (nUnknown : Nat) (x : Vec) (vIndexById : JsMap String Nat) :
    (JsMap.keys (vsCurrents nUnknown x vIndexById)).Nodup := by
  rw [vsCurrents]
  exact nodupKeys_foldl_set Prod.fst (fun _ p => vget x (nUnknown + p.2)) vIndexById []
    (by simp [JsMap.keys])

theorem resistorCaseLoop_nodupKeys (vv : Vec) :
    ∀ (l : List GraphElement) (rc rv : JsMap String ℚ),
      (JsMap.keys rc).Nodup → (JsMap.keys rv).Nodup →
      (JsMap.keys (resistorCaseLoop vv rc rv l).1).Nodup ∧
      (JsMap.keys (resistorCaseLoop vv rc rv l).2).Nodup := by
  intro l
  induction l with
  | nil => intro rc rv h1 h2; exact ⟨h1, h2⟩
  | cons e rest ih =>
    intro rc rv h1 h2
    cases e with
    | resistor id name ohms gen n1 n2 =>
      exact ih _ _ (JsMap.nodupKeys_set rc id _ h1) (JsMap.nodupKeys_set rv id _ h2)
    | isource id name amps nFrom nTo => exact ih _ _ h1 h2
    | vsource id name volts nPlus nMinus independent => exact ih _ _ h1 h2

theorem resistorCaseLoop_get_none (vv : Vec) (id : String) :
    ∀ (l : List GraphElement) (rc rv : JsMap String ℚ),
      (JsMap.get (resistorCaseLoop vv rc rv l).1 id = none ↔
        JsMap.get rc id = none ∧
          id ∉ (l.filter GraphElement.isResistor).map GraphElement.gid) ∧
      (JsMap.get (resistorCaseLoop vv rc rv l).2 id = none ↔
        JsMap.get rv id = none ∧
          id ∉ (l.filter GraphElement.isResistor).map GraphElement.gid) := by
  intro l
  induction l with
  | nil =>
    intro rc rv
    constructor
    · simp [resistorCaseLoop]
    · simp [resistorCaseLoop]
  | cons e rest ih =>
    intro rc rv
    cases e with
    | resistor rid name ohms gen n1 n2 =>
      have hfil : (GraphElement.resistor rid name ohms gen n1 n2 :: rest).filter
          GraphElement.isResistor =
          GraphElement.resistor rid name ohms gen n1 n2 ::
            rest.filter GraphElement.isResistor := by
        simp [List.filter, GraphElement.isResistor]
      rw [hfil]
      have hloop : resistorCaseLoop vv rc rv
          (GraphElement.resistor rid name ohms gen n1 n2 :: rest) =
          resistorCaseLoop vv (JsMap.set rc rid ((vget vv n1 - vget vv n2) / ohms))
            (JsMap.set rv rid (vget vv n1 - vget vv n2)) rest := rfl
      rw [hloop]
      obtain ⟨ih1, ih2⟩ := ih (JsMap.set rc rid ((vget vv n1 - vget vv n2) / ohms))
        (JsMap.set rv rid (vget vv n1 - vget vv n2))
      constructor
      · rw [ih1, JsMap.get_set]
        by_cases hr : rid = id
        · subst hr
          simp [GraphElement.gid]
        · simp only [if_neg hr, List.map_cons, List.mem_cons, GraphElement.gid]
          constructor
          · rintro ⟨hn, hm⟩
            exact ⟨hn, by
              rintro (hh | hh)
              · exact hr hh.symm
              · exact hm hh⟩
          · rintro ⟨hn, hm⟩
            exact ⟨hn, fun hh => hm (Or.inr hh)⟩
      · rw [ih2, JsMap.get_set]
        by_cases hr : rid = id
        · subst hr
          simp [GraphElement.gid]
        · simp only [if_neg hr, List.map_cons, List.mem_cons, GraphElement.gid]
          constructor
          · rintro ⟨hn, hm⟩
            exact ⟨hn, by
              rintro (hh | hh)
              · exact hr hh.symm
              · exact hm hh⟩
          · rintro ⟨hn, hm⟩
            exact ⟨hn, fun hh => hm (Or.inr hh)⟩
    | isource iid name amps nFrom nTo =>
      have hfil : (GraphElement.isource iid name amps nFrom nTo :: rest).filter
          GraphElement.isResistor = rest.filter GraphElement.isResistor := by
        simp [List.filter, GraphElement.isResistor]
      rw [hfil]
      exact ih rc rv
    | vsource viid name volts nPlus nMinus independent =>
      have hfil : (GraphElement.vsource viid name volts nPlus nMinus independent :: rest).filter
          GraphElement.isResistor = rest.filter GraphElement.isResistor := by
        simp [List.filter, GraphElement.isResistor]
      rw [hfil]
      exact ih rc rv

theorem jsSetOfList_mem_gen (x : String) :
    ∀ (l acc : List String),
      (x ∈ l.foldl (fun s y => if y ∈ s then s else s ++ [y]) acc ↔ x ∈ acc ∨ x ∈ l) := by
  intro l
  induction l with
  | nil => intro acc; simp
  | cons y rest ih =>
    intro acc
    rw [List.foldl_cons, ih]
    by_cases hy : y ∈ acc
    · rw [if_pos hy]
      constructor
      · rintro (h | h)
        · exact Or.inl h
        · exact Or.inr (List.mem_cons_of_mem y h)
      · rintro (h | h)
        · exact Or.inl h
        · rcases List.mem_cons.mp h with rfl | h
          · exact Or.inl hy
          · exact Or.inr h
    · rw [if_neg hy]
      simp only [List.mem_append, List.mem_singleton, List.mem_cons]
      tauto

theorem jsSetOfList_mem (x : String) (l : List String) :
    x ∈ jsSetOfList l ↔ x ∈ l := by
  rw [jsSetOfList, jsSetOfList_mem_gen]
  simp

theorem initTotals_get_gen (id : String) :
    ∀ (ids : List String) (m : JsMap String ℚ),
      JsMap.get (ids.foldl (fun t k => JsMap.set t k 0) m) id =
        if id ∈ ids then some 0 else JsMap.get m id := by
  intro ids
  induction ids with
  | nil => intro m; simp
  | cons k rest ih =>
    intro m
    rw [List.foldl_cons, ih]
    by_cases hr : id ∈ rest
    · rw [if_pos hr, if_pos (List.mem_cons_of_mem k hr)]
    · rw [if_neg hr, JsMap.get_set]
      by_cases hk : id = k
      · subst hk
        rw [if_pos rfl, if_pos (List.mem_cons_self id rest)]
      · rw [if_neg (fun hh => hk hh.symm),
          if_neg (by rw [List.mem_cons]; rintro (hh | hh); exact hk hh; exact hr hh)]

theorem initTotals_get (id : String) (ids : List String) :
    JsMap.get (initTotals ids) id = if id ∈ ids then some 0 else none := by
  rw [initTotals, initTotals_get_gen]
  rfl

theorem initTotals_getD (id : String) (ids : List String) :
    JsMap.getD (initTotals ids) id 0 = 0 := by
  rw [JsMap.getD, initTotals_get]
  by_cases h : id ∈ ids
  · rw [if_pos h]
    rfl
  · rw [if_neg h]
    rfl

theorem jsAddEntries_empty_get (m : JsMap String ℚ) (hm : (JsMap.keys m).Nodup)
    (id : String) : JsMap.get (jsAddEntries [] m) id = JsMap.get m id := by
  rw [jsAddEntries_get id m [] (by simpa [JsMap.keys] using hm)]
  cases h : JsMap.get m id with
  | none => rfl
  | some v =>
    show some (JsMap.getD ([] : JsMap String ℚ) id 0 + v) = some v
    rw [show JsMap.getD ([] : JsMap String ℚ) id 0 = 0 from rfl, zero_add]

theorem jsAddEntries_init_get (ids : List String) (m : JsMap String ℚ)
    (hm : (JsMap.keys m).Nodup)
    (hkeys : ∀ id, JsMap.get m id = none → id ∉ ids)
    (id : String) :
    JsMap.get (jsAddEntries (initTotals ids) m) id = JsMap.get m id := by
  rw [jsAddEntries_get id m (initTotals ids) (by simpa [JsMap.keys] using hm)]
  cases h : JsMap.get m id with
  | none =>
    rw [initTotals_get, if_neg (hkeys id h)]
  | some v =>
    show some (JsMap.getD (initTotals ids) id 0 + v) = some v
    rw [initTotals_getD, zero_add]

/-- C1: for a circuit whose built element list contains exactly one
independent source, superposition succeeds exactly when the single MNA solve
of the same element list succeeds, and every total (node voltages
node-by-node, voltage-source currents and resistor currents/voltages
id-by-id) equals the corresponding quantity of that single solve — exactly,
in the rational model, hence in particular within the 1e-9 relative
tolerance of the floating-point claim. -/
theorem c1_single_source_superposition (circuit : Circuit) (opts : Option ℚ)
    (s : SuperpositionSource)
    (hs : listIndependentSources (buildCircuitGraph circuit opts).elements = [s]) :
    ((∃ r, solveCircuitBySuperposition circuit opts = .ok r) ↔
      ∃ m, solveMna (buildCircuitGraph circuit opts).elements
        (buildCircuitGraph circuit opts).nodeCount
        (buildCircuitGraph circuit opts).minusNode = .ok m) ∧
    ∀ r m, solveCircuitBySuperposition circuit opts = .ok r →
      solveMna (buildCircuitGraph circuit opts).elements
        (buildCircuitGraph circuit opts).nodeCount
        (buildCircuitGraph circuit opts).minusNode = .ok m →
      r.sources = [s] ∧
      r.totalNodeVoltages = m.nodeVoltages ∧
      (∀ id, JsMap.get r.totalVoltageSourceCurrentsById id =
        JsMap.get m.voltageSourceCurrentsById id) ∧
      (∀ id, JsMap.get r.totalResistorCurrentsById id =
        JsMap.get (resistorCaseLoop m.nodeVoltages [] []
          (buildCircuitGraph circuit opts).elements).1 id) ∧
      (∀ id, JsMap.get r.totalResistorVoltagesById id =
        JsMap.get (resistorCaseLoop m.nodeVoltages [] []
          (buildCircuitGraph circuit opts).elements).2 id) := by
  have hclone := clone_of_single_source s _ hs
  have hunfold : solveCircuitBySuperposition circuit opts =
      match superLoop (buildCircuitGraph circuit opts).elements
          (buildCircuitGraph circuit opts).nodeCount
          (buildCircuitGraph circuit opts).minusNode
          ⟨[], List.replicate (buildCircuitGraph circuit opts).nodeCount 0, [],
            initTotals (jsSetOfList (((buildCircuitGraph circuit opts).elements.filter
              GraphElement.isResistor).map GraphElement.gid)),
            initTotals (jsSetOfList (((buildCircuitGraph circuit opts).elements.filter
              GraphElement.isResistor).map GraphElement.gid))⟩ [s] with
        | .error e => .error e
        | .ok acc => .ok ⟨[s], acc.cases, acc.totalNodeVoltages,
            acc.totalVoltageSourceCurrentsById, acc.totalResistorCurrentsById,
            acc.totalResistorVoltagesById⟩ := by
    simp only [solveCircuitBySuperposition, hs]
    rw [if_neg (by simp)]
  cases hm : solveMna (buildCircuitGraph circuit opts).elements
      (buildCircuitGraph circuit opts).nodeCount
      (buildCircuitGraph circuit opts).minusNode with
  | error err =>
    have hloop : superLoop (buildCircuitGraph circuit opts).elements
        (buildCircuitGraph circuit opts).nodeCount
        (buildCircuitGraph circuit opts).minusNode
        ⟨[], List.replicate (buildCircuitGraph circuit opts).nodeCount 0, [],
          initTotals (jsSetOfList (((buildCircuitGraph circuit opts).elements.filter
            GraphElement.isResistor).map GraphElement.gid)),
          initTotals (jsSetOfList (((buildCircuitGraph circuit opts).elements.filter
            GraphElement.isResistor).map GraphElement.gid))⟩ [s] =
        .error ("While solving with only source " ++ (s.name.getD s.id) ++
          " active: " ++ err) := by
      rw [superLoop, hclone, hm]
    rw [hunfold, hloop]
    constructor
    · constructor
      · rintro ⟨r, hr⟩
        exact absurd hr (by simp)
      · rintro ⟨mm, hmm⟩
        exact absurd hmm (by simp)
    · intro r mm hr _
      exact absurd hr (by simp)
  | ok solved =>
    obtain ⟨A, b, x, hA, hx, hnv, hvc⟩ := solveMna_ok_shape _ _ _ _ hm
    have hloop : superLoop (buildCircuitGraph circuit opts).elements
        (buildCircuitGraph circuit opts).nodeCount
        (buildCircuitGraph circuit opts).minusNode
        ⟨[], List.replicate (buildCircuitGraph circuit opts).nodeCount 0, [],
          initTotals (jsSetOfList (((buildCircuitGraph circuit opts).elements.filter
            GraphElement.isResistor).map GraphElement.gid)),
          initTotals (jsSetOfList (((buildCircuitGraph circuit opts).elements.filter
            GraphElement.isResistor).map GraphElement.gid))⟩ [s] =
        .ok ⟨[⟨s, solved.nodeVoltages, solved.voltageSourceCurrentsById,
            (resistorCaseLoop solved.nodeVoltages [] []
              (buildCircuitGraph circuit opts).elements).1,
            (resistorCaseLoop solved.nodeVoltages [] []
              (buildCircuitGraph circuit opts).elements).2⟩],
          addNodeVoltages (List.replicate (buildCircuitGraph circuit opts).nodeCount 0)
            solved.nodeVoltages,
          jsAddEntries [] solved.voltageSourceCurrentsById,
          jsAddEntries (initTotals (jsSetOfList (((buildCircuitGraph circuit opts).elements.filter
            GraphElement.isResistor).map GraphElement.gid)))
            (resistorCaseLoop solved.nodeVoltages [] []
              (buildCircuitGraph circuit opts).elements).1,
          jsAddEntries (initTotals (jsSetOfList (((buildCircuitGraph circuit opts).elements.filter
            GraphElement.isResistor).map GraphElement.gid)))
            (resistorCaseLoop solved.nodeVoltages [] []
              (buildCircuitGraph circuit opts).elements).2⟩ := by
      simp only [superLoop, hclone, hm]
      simp
    rw [hunfold, hloop]
    refine ⟨⟨fun _ => ⟨solved, rfl⟩, fun _ => ⟨_, rfl⟩⟩, ?_⟩
    intro r mm hr hmm
    injection hmm with hmm
    subst hmm
    injection hr with hr
    subst hr
    have hlen : solved.nodeVoltages.length = (buildCircuitGraph circuit opts).nodeCount := by
      rw [hnv]
      simp [mnaNodeVoltages]
    have hvcnodup : (JsMap.keys solved.voltageSourceCurrentsById).Nodup := by
      rw [hvc]
      exact vsCurrents_nodupKeys _ _ _
    have hrcn := resistorCaseLoop_nodupKeys solved.nodeVoltages
      (buildCircuitGraph circuit opts).elements [] [] (by simp [JsMap.keys]) (by simp [JsMap.keys])
    refine ⟨rfl, ?_, ?_, ?_, ?_⟩
    · exact addNodeVoltages_replicate _ _ hlen
    · intro id
      exact jsAddEntries_empty_get _ hvcnodup id
    · intro id
      apply jsAddEntries_init_get _ _ hrcn.1
      intro id2 hnone
      obtain ⟨hiff, -⟩ := resistorCaseLoop_get_none solved.nodeVoltages id2
        (buildCircuitGraph circuit opts).elements ([] : JsMap String ℚ) ([] : JsMap String ℚ)
      intro hmem
      exact (hiff.mp hnone).2 ((jsSetOfList_mem id2 _).mp hmem)
    · intro id
      apply jsAddEntries_init_get _ _ hrcn.2
      intro id2 hnone
      obtain ⟨-, hiff⟩ := resistorCaseLoop_get_none solved.nodeVoltages id2
        (buildCircuitGraph circuit opts).elements ([] : JsMap String ℚ) ([] : JsMap String ℚ)
      intro hmem
      exact (hiff.mp hnone).2 ((jsSetOfList_mem id2 _).mp hmem)

/-- Witness for C1: a one-source circuit (5V source and 1Ω resistor). -/
theorem c1_witness :
    listIndependentSources (buildCircuitGraph
      (Circuit.mk "c" RootRoute.straight
        (some [Node.vsource "v1" none 5, Node.resistor "r1" none 1 false])
        none none none) none).elements =
      [⟨"v1", SrcKind.vsource, none, 5, "V"⟩] ∧
    ((∃ r, solveCircuitBySuperposition
        (Circuit.mk "c" RootRoute.straight
          (some [Node.vsource "v1" none 5, Node.resistor "r1" none 1 false])
          none none none) none = .ok r) ↔
      ∃ m, solveMna (buildCircuitGraph
          (Circuit.mk "c" RootRoute.straight
            (some [Node.vsource "v1" none 5, Node.resistor "r1" none 1 false])
            none none none) none).elements
        (buildCircuitGraph
          (Circuit.mk "c" RootRoute.straight
            (some [Node.vsource "v1" none 5, Node.resistor "r1" none 1 false])
            none none none) none).nodeCount
        (buildCircuitGraph
          (Circuit.mk "c" RootRoute.straight
            (some [Node.vsource "v1" none 5, Node.resistor "r1" none 1 false])
            none none none) none).minusNode = .ok m) := by
  have hs : listIndependentSources (buildCircuitGraph
      (Circuit.mk "c" RootRoute.straight
        (some [Node.vsource "v1" none 5, Node.resistor "r1" none 1 false])
        none none none) none).elements =
      [⟨"v1", SrcKind.vsource, none, 5, "V"⟩] := rfl
  exact ⟨hs, (c1_single_source_superposition _ none _ hs).1⟩

/-- C10: `solveCircuit` rejects every numeric negative `externalSupplyVolts`
with the error "External supply voltage must be a finite, non-negative
number." before any solving is attempted (only the label-assignment guards
run first), and conversely a successful solve implies the supplied voltage
was non-negative — a restriction the spec does not state for the optional
external supply.  Non-finite doubles have no rational counterpart, so only
the sign half of the guard is representable. -/
theorem c10_negative_external_supply (circuit : Circuit) (v : ℚ) (includeGen : Bool)
    (hneg : v < 0) :
    ((∃ ri, assignResistorIndices circuit includeGen = .ok ri) →
     (∃ ai, assignAmmeterIndices circuit = .ok ai) →
      solveCircuit circuit (some v) includeGen =
        .error "External supply voltage must be a finite, non-negative number.") ∧
    (∀ w r, solveCircuit circuit (some w) includeGen = .ok r → 0 ≤ w) := by
  constructor
  · rintro ⟨ri, hri⟩ ⟨ai, hai⟩
    simp only [solveCircuit, hri, hai]
    rw [if_pos (Or.inr hneg)]
  · intro w r hok
    cases hri : assignResistorIndices circuit includeGen with
    | error e =>
      simp only [solveCircuit, hri] at hok
      exact Except.noConfusion hok
    | ok ri =>
      cases hai : assignAmmeterIndices circuit with
      | error e =>
        simp only [solveCircuit, hri, hai] at hok
        exact Except.noConfusion hok
      | ok ai =>
        by_contra hw
        have hlt : w < 0 := lt_of_not_ge hw
        simp only [solveCircuit, hri, hai] at hok
        rw [if_pos (Or.inr hlt)] at hok
        exact Except.noConfusion hok

/-- Witness for C10: a well-labeled circuit with supply −1V. -/
theorem c10_witness :
    ((-1 : ℚ) < 0) ∧
    solveCircuit (Circuit.mk "c" RootRoute.straight
        (some [Node.vsource "v1" none 5, Node.resistor "r1" none 1 false])
        none none none)
      (some (-1)) false =
      .error "External supply voltage must be a finite, non-negative number." := by
  have h := c10_negative_external_supply
    (Circuit.mk "c" RootRoute.straight
      (some [Node.vsource "v1" none 5, Node.resistor "r1" none 1 false])
      none none none) (-1) false (by norm_num)
  exact ⟨by norm_num, h.1 ⟨_, rfl⟩ ⟨_, rfl⟩⟩

/-- C3 counterexample: both terminal references present but equal.  The
claimed fallback order would hand the terminals to the first voltage
source (vertices 0 and 1 here); the code instead rejects with
"Invalid circuit: terminals cannot be the same node.", also at the public
entry point. -/
theorem c3_counterexample :
    resolveTerminals
      ⟨"nc", some "n0", some "n0", [⟨"n0", none, 0, 0⟩, ⟨"n1", none, 0, 0⟩],
        [NodeCircuitEdge.vsource "v1" none 5 "n0" "n1"]⟩ =
      .error "Invalid circuit: terminals cannot be the same node." ∧
    specResolveTerminals
      ⟨"nc", some "n0", some "n0", [⟨"n0", none, 0, 0⟩, ⟨"n1", none, 0, 0⟩],
        [NodeCircuitEdge.vsource "v1" none 5 "n0" "n1"]⟩ = .ok (0, 1) ∧
    nodeCircuitToSeriesParallelCircuit
      ⟨"nc", some "n0", some "n0", [⟨"n0", none, 0, 0⟩, ⟨"n1", none, 0, 0⟩],
        [NodeCircuitEdge.vsource "v1" none 5 "n0" "n1"]⟩ 0 =
      .error "Invalid circuit: terminals cannot be the same node." := by
  refine ⟨rfl, rfl, rfl⟩

/-- C3 (amended): terminal resolution uses the explicit `+`/`−` references
whenever BOTH are present (even when equal, in which case it errors rather
than falling back); only when at least one is absent does it fall back to
the endpoints of the first voltage-source edge (`a` as `+`, `b` as `−`,
with a missing-node error if they do not resolve), and with no voltage
source to vertices 0 and 1, requiring at least two vertices; equal resolved
terminals are always an error. -/
theorem c3_terminal_fallback (nc : NodeCircuit) :
    (∀ p m, lookupNodeRef (buildIndexMap nc.nodes) nc.plusNodeId = some p →
      lookupNodeRef (buildIndexMap nc.nodes) nc.minusNodeId = some m →
      resolveTerminals nc =
        (if p = m then .error "Invalid circuit: terminals cannot be the same node."
         else .ok (p, m))) ∧
    ((lookupNodeRef (buildIndexMap nc.nodes) nc.plusNodeId = none ∨
      lookupNodeRef (buildIndexMap nc.nodes) nc.minusNodeId = none) →
      (∀ fv, nc.edges.find? NodeCircuitEdge.isVsourceEdge = some fv →
        ∀ a b, JsMap.get (buildIndexMap nc.nodes) fv.endA = some a →
          JsMap.get (buildIndexMap nc.nodes) fv.endB = some b →
          resolveTerminals nc =
            (if a = b then .error "Invalid circuit: terminals cannot be the same node."
             else .ok (a, b))) ∧
      (∀ fv, nc.edges.find? NodeCircuitEdge.isVsourceEdge = some fv →
        (JsMap.get (buildIndexMap nc.nodes) fv.endA = none ∨
         JsMap.get (buildIndexMap nc.nodes) fv.endB = none) →
        resolveTerminals nc = .error "Invalid circuit: an edge references a missing node.") ∧
      (nc.edges.find? NodeCircuitEdge.isVsourceEdge = none →
        (2 ≤ nc.nodes.length → resolveTerminals nc = .ok (0, 1)) ∧
        (nc.nodes.length < 2 → resolveTerminals nc =
          .error "Invalid circuit: add nodes/components (need at least 2 nodes)."))) := by
  constructor
  · intro p m hp hm
    simp only [resolveTerminals, hp, hm]
  · intro hnone
    have hwild : ∀ (rest : Except String (Nat × Nat)),
        (match lookupNodeRef (buildIndexMap nc.nodes) nc.plusNodeId,
               lookupNodeRef (buildIndexMap nc.nodes) nc.minusNodeId with
         | some p, some m => Except.ok (p, m)
         | _, _ => rest) = rest := by
      intro rest
      rcases hnone with h | h
      · rw [h]
      · rw [h]
        cases lookupNodeRef (buildIndexMap nc.nodes) nc.plusNodeId <;> rfl
    refine ⟨?_, ?_, ?_⟩
    · intro fv hfv a b ha hb
      simp only [resolveTerminals, hwild, hfv, ha, hb]
    · intro fv hfv hab
      rcases hab with h | h
      · simp only [resolveTerminals, hwild, hfv, h]
      · simp only [resolveTerminals, hwild, hfv, h]
        cases JsMap.get (buildIndexMap nc.nodes) fv.endA <;> rfl
    · intro hfv
      constructor
      · intro hlen
        simp only [resolveTerminals, hwild, hfv, if_pos hlen]
        rfl
      · intro hlen
        simp only [resolveTerminals, hwild, hfv, if_neg (by omega : ¬ 2 ≤ nc.nodes.length)]

/-- Witness for C3: two named nodes with explicit distinct terminals. -/
theorem c3_witness :
    lookupNodeRef (buildIndexMap [⟨"n0", none, 0, 0⟩, ⟨"n1", none, 0, 0⟩]) (some "n0") = some 0 ∧
    lookupNodeRef (buildIndexMap [⟨"n0", none, 0, 0⟩, ⟨"n1", none, 0, 0⟩]) (some "n1") = some 1 ∧
    resolveTerminals
      ⟨"nc", some "n0", some "n1", [⟨"n0", none, 0, 0⟩, ⟨"n1", none, 0, 0⟩],
        [NodeCircuitEdge.resistor "r1" none 5 "n0" "n1"]⟩ = .ok (0, 1) := by
  refine ⟨rfl, rfl, ?_⟩
  have h := (c3_terminal_fallback
    ⟨"nc", some "n0", some "n1", [⟨"n0", none, 0, 0⟩, ⟨"n1", none, 0, 0⟩],
      [NodeCircuitEdge.resistor "r1" none 5 "n0" "n1"]⟩).1 0 1 rfl rfl
  rw [h]
  rfl

theorem degree_le_length (edges : List EdgeRecord) (n : Nat) :
    degree edges n ≤ edges.length := by
  rw [degree]
  exact List.length_filter_le _ _

theorem seriesScan_small (edges : List EdgeRecord) (p m : Nat)
    (h : edges.length ≤ 1) : ∀ l, seriesScan edges p m l = none := by
  intro l
  induction l with
  | nil => rfl
  | cons n rest ih =>
    rw [seriesScan]
    by_cases ht : n = p ∨ n = m
    · rw [if_pos ht]
      exact ih
    · rw [if_neg ht]
      have hd : degree edges n ≠ 2 := by
        have := degree_le_length edges n
        omega
      rw [if_pos hd]
      exact ih

theorem spStep_singleton (p m nc : Nat) (e : EdgeRecord) (g : Nat) :
    spStep p m nc ([e], g) = none := by
  rw [spStep]
  have hpar : parallelGroups [e] = [] := rfl
  rw [hpar]
  rw [seriesScan_small [e] p m (by simp)]

theorem spStep_nil (p m nc : Nat) (g : Nat) : spStep p m nc ([], g) = none := by
  rw [spStep]
  have hpar : parallelGroups [] = [] := rfl
  rw [hpar]
  rw [seriesScan_small [] p m (by simp)]

theorem spIter_none_of_step_none (p m nc : Nat) (st : List EdgeRecord × Nat)
    (h : spStep p m nc st = none) (k : Nat) (hk : 0 < k) :
    spIter p m nc k st = none := by
  cases k with
  | zero => omega
  | succ j =>
    rw [spIter, h]

/-- C2 (amended): the rewrite loop succeeds exactly when iterated rewrites
reach, within the fuel, a state with one remaining edge whose unordered
endpoints equal the terminal pair, and then returns that edge's expression
reoriented `+ → −` packaged by `oneEdgeResult`; a reached one-edge state
with other endpoints reports "Circuit does not connect + and - terminals."
(not the not-reducible error the spec claims), a reached multi-edge state
with no applicable rewrite reports "Circuit is not reducible by
series/parallel reductions.", and exhausting the guard reports "Reduction
limit reached.". -/
theorem c2_rewrite_loop_terminal (p m nc : Nat) :
    ∀ (fuel : Nat) (st : List EdgeRecord × Nat),
      (∀ c g, spLoop p m nc fuel st = .ok (c, g) ↔
        ∃ k, k < fuel ∧ ∃ e gen2, spIter p m nc k st = some ([e], gen2) ∧
          orderPair e.efrom e.eto = orderPair p m ∧
          oneEdgeResult p m e gen2 = .ok (c, g)) ∧
      (spLoop p m nc fuel st = .error "Circuit does not connect + and - terminals." ↔
        ∃ k, k < fuel ∧ ∃ e gen2, spIter p m nc k st = some ([e], gen2) ∧
          orderPair e.efrom e.eto ≠ orderPair p m) ∧
      (spLoop p m nc fuel st = .error "Circuit is not reducible by series/parallel reductions." ↔
        ∃ k, k < fuel ∧ ∃ es gen2, spIter p m nc k st = some (es, gen2) ∧
          (∀ e, es ≠ [e]) ∧ spStep p m nc (es, gen2) = none) ∧
      (spLoop p m nc fuel st = .error "Reduction limit reached." ↔
        (spIter p m nc fuel st).isSome = true) := by
  intro fuel
  induction fuel with
  | zero =>
    intro st
    obtain ⟨edges, gen⟩ := st
    refine ⟨?_, ?_, ?_, ?_⟩
    · intro c g
      constructor
      · intro h
        exact absurd h (by simp [spLoop])
      · rintro ⟨k, hk, -⟩
        omega
    · constructor
      · intro h
        rw [show spLoop p m nc 0 (edges, gen) = .error "Reduction limit reached." from rfl] at h
        injection h with h
        exact absurd h (by decide)
      · rintro ⟨k, hk, -⟩
        omega
    · constructor
      · intro h
        rw [show spLoop p m nc 0 (edges, gen) = .error "Reduction limit reached." from rfl] at h
        injection h with h
        exact absurd h (by decide)
      · rintro ⟨k, hk, -⟩
        omega
    · constructor
      · intro _
        rfl
      · intro _
        rfl
  | succ fuel ih =>
    intro st
    obtain ⟨edges, gen⟩ := st
    cases edges with
    | nil =>
      have hstep := spStep_nil p m nc gen
      have hloop : spLoop p m nc (fuel + 1) ([], gen) =
          .error "Circuit is not reducible by series/parallel reductions." := by
        simp only [spLoop, hstep]
      have hkpos : ∀ k, 0 < k → spIter p m nc k ([], gen) = none :=
        fun k hk => spIter_none_of_step_none p m nc ([], gen) hstep k hk
      refine ⟨?_, ?_, ?_, ?_⟩
      · intro c g
        rw [hloop]
        constructor
        · intro h
          exact absurd h (by simp)
        · rintro ⟨k, hk, e, g2, hiter, -, -⟩
          exfalso
          cases k with
          | zero =>
            rw [spIter] at hiter
            injection hiter with hiter
            injection hiter with h1 h2
            exact List.noConfusion h1
          | succ j =>
            rw [hkpos (j + 1) (by omega)] at hiter
            exact Option.noConfusion hiter
      · rw [hloop]
        constructor
        · intro h
          injection h with h
          exact absurd h (by decide)
        · rintro ⟨k, hk, e, g2, hiter, -⟩
          exfalso
          cases k with
          | zero =>
            rw [spIter] at hiter
            injection hiter with hiter
            injection hiter with h1 h2
            exact List.noConfusion h1
          | succ j =>
            rw [hkpos (j + 1) (by omega)] at hiter
            exact Option.noConfusion hiter
      · rw [hloop]
        constructor
        · intro _
          exact ⟨0, by omega, [], gen, rfl, fun e h => List.noConfusion h, hstep⟩
        · intro _
          rfl
      · rw [hloop]
        constructor
        · intro h
          injection h with h
          exact absurd h (by decide)
        · intro h
          rw [hkpos (fuel + 1) (by omega)] at h
          exact absurd h (by simp)
    | cons e1 tail =>
      cases tail with
      | nil =>
        have hstep := spStep_singleton p m nc e1 gen
        have hloop : spLoop p m nc (fuel + 1) ([e1], gen) = oneEdgeResult p m e1 gen := rfl
        have hkpos : ∀ k, 0 < k → spIter p m nc k ([e1], gen) = none :=
          fun k hk => spIter_none_of_step_none p m nc ([e1], gen) hstep k hk
        refine ⟨?_, ?_, ?_, ?_⟩
        · intro c g
          rw [hloop]
          constructor
          · intro h
            by_cases hpair : orderPair e1.efrom e1.eto = orderPair p m
            · exact ⟨0, by omega, e1, gen, rfl, hpair, h⟩
            · rw [oneEdgeResult, if_pos hpair] at h
              exact absurd h (by simp)
          · rintro ⟨k, hk, e, g2, hiter, hp2, hone⟩
            cases k with
            | zero =>
              rw [spIter] at hiter
              injection hiter with hiter
              injection hiter with h1 h2
              injection h1 with he _
              rw [← he, ← h2] at hone
              exact hone
            | succ j =>
              rw [hkpos (j + 1) (by omega)] at hiter
              exact Option.noConfusion hiter
        · rw [hloop]
          constructor
          · intro h
            by_cases hpair : orderPair e1.efrom e1.eto = orderPair p m
            · rw [oneEdgeResult, if_neg (by simp [hpair])] at h
              exact absurd h (by simp)
            · exact ⟨0, by omega, e1, gen, rfl, hpair⟩
          · rintro ⟨k, hk, e, g2, hiter, hp2⟩
            cases k with
            | zero =>
              rw [spIter] at hiter
              injection hiter with hiter
              injection hiter with h1 h2
              injection h1 with he _
              rw [← he] at hp2
              rw [oneEdgeResult, if_pos hp2]
            | succ j =>
              rw [hkpos (j + 1) (by omega)] at hiter
              exact Option.noConfusion hiter
        · rw [hloop]
          constructor
          · intro h
            exfalso
            by_cases hpair : orderPair e1.efrom e1.eto = orderPair p m
            · rw [oneEdgeResult, if_neg (by simp [hpair])] at h
              exact absurd h (by simp)
            · rw [oneEdgeResult, if_pos hpair] at h
              injection h with h
              exact absurd h (by decide)
          · rintro ⟨k, hk, es, g2, hiter, hnes, -⟩
            exfalso
            cases k with
            | zero =>
              rw [spIter] at hiter
              injection hiter with hiter
              injection hiter with h1 h2
              exact hnes e1 h1.symm
            | succ j =>
              rw [hkpos (j + 1) (by omega)] at hiter
              exact Option.noConfusion hiter
        · rw [hloop]
          constructor
          · intro h
            exfalso
            by_cases hpair : orderPair e1.efrom e1.eto = orderPair p m
            · rw [oneEdgeResult, if_neg (by simp [hpair])] at h
              exact absurd h (by simp)
            · rw [oneEdgeResult, if_pos hpair] at h
              injection h with h
              exact absurd h (by decide)
          · intro h
            rw [hkpos (fuel + 1) (by omega)] at h
            exact absurd h (by simp)
      | cons e2 rest =>
        have hform : spLoop p m nc (fuel + 1) (e1 :: e2 :: rest, gen) =
            (match spStep p m nc (e1 :: e2 :: rest, gen) with
             | some st2 => spLoop p m nc fuel st2
             | none => .error "Circuit is not reducible by series/parallel reductions.") := rfl
        have hsing : ∀ e : EdgeRecord, e1 :: e2 :: rest ≠ [e] := by
          intro e h
          injection h with _ h2
          exact List.noConfusion h2
        cases hstep : spStep p m nc (e1 :: e2 :: rest, gen) with
        | none =>
          have hloop : spLoop p m nc (fuel + 1) (e1 :: e2 :: rest, gen) =
              .error "Circuit is not reducible by series/parallel reductions." := by
            rw [hform, hstep]
          have hkpos : ∀ k, 0 < k → spIter p m nc k (e1 :: e2 :: rest, gen) = none :=
            fun k hk => spIter_none_of_step_none p m nc _ hstep k hk
          refine ⟨?_, ?_, ?_, ?_⟩
          · intro c g
            rw [hloop]
            constructor
            · intro h
              exact absurd h (by simp)
            · rintro ⟨k, hk, e, g2, hiter, -, -⟩
              exfalso
              cases k with
              | zero =>
                rw [spIter] at hiter
                injection hiter with hiter
                injection hiter with h1 h2
                exact hsing e h1
              | succ j =>
                rw [hkpos (j + 1) (by omega)] at hiter
                exact Option.noConfusion hiter
          · rw [hloop]
            constructor
            · intro h
              injection h with h
              exact absurd h (by decide)
            · rintro ⟨k, hk, e, g2, hiter, -⟩
              exfalso
              cases k with
              | zero =>
                rw [spIter] at hiter
                injection hiter with hiter
                injection hiter with h1 h2
                exact hsing e h1
              | succ j =>
                rw [hkpos (j + 1) (by omega)] at hiter
                exact Option.noConfusion hiter
          · rw [hloop]
            constructor
            · intro _
              exact ⟨0, by omega, e1 :: e2 :: rest, gen, rfl, hsing, hstep⟩
            · intro _
              rfl
          · rw [hloop]
            constructor
            · intro h
              injection h with h
              exact absurd h (by decide)
            · intro h
              rw [hkpos (fuel + 1) (by omega)] at h
              exact absurd h (by simp)
        | some st2 =>
          have hloop : spLoop p m nc (fuel + 1) (e1 :: e2 :: rest, gen) =
              spLoop p m nc fuel st2 := by
            rw [hform, hstep]
          obtain ⟨ihok, ihcon, ihnot, ihlim⟩ := ih st2
          have hiter1 : ∀ k, spIter p m nc (k + 1) (e1 :: e2 :: rest, gen) =
              spIter p m nc k st2 := by
            intro k
            rw [spIter, hstep]
          refine ⟨?_, ?_, ?_, ?_⟩
          · intro c g
            rw [hloop]
            constructor
            · intro h
              obtain ⟨k, hk, e, g2, hiter, hp2, hone⟩ := (ihok c g).mp h
              exact ⟨k + 1, by omega, e, g2, by rw [hiter1]; exact hiter, hp2, hone⟩
            · rintro ⟨k, hk, e, g2, hiter, hp2, hone⟩
              cases k with
              | zero =>
                rw [spIter] at hiter
                injection hiter with hiter
                injection hiter with h1 h2
                exact absurd h1 (hsing e)
              | succ j =>
                rw [hiter1] at hiter
                exact (ihok c g).mpr ⟨j, by omega, e, g2, hiter, hp2, hone⟩
          · rw [hloop]
            constructor
            · intro h
              obtain ⟨k, hk, e, g2, hiter, hp2⟩ := ihcon.mp h
              exact ⟨k + 1, by omega, e, g2, by rw [hiter1]; exact hiter, hp2⟩
            · rintro ⟨k, hk, e, g2, hiter, hp2⟩
              cases k with
              | zero =>
                rw [spIter] at hiter
                injection hiter with hiter
                injection hiter with h1 h2
                exact absurd h1 (hsing e)
              | succ j =>
                rw [hiter1] at hiter
                exact ihcon.mpr ⟨j, by omega, e, g2, hiter, hp2⟩
          · rw [hloop]
            constructor
            · intro h
              obtain ⟨k, hk, es, g2, hiter, hnes, hsn⟩ := ihnot.mp h
              exact ⟨k + 1, by omega, es, g2, by rw [hiter1]; exact hiter, hnes, hsn⟩
            · rintro ⟨k, hk, es, g2, hiter, hnes, hsn⟩
              cases k with
              | zero =>
                rw [spIter] at hiter
                injection hiter with hiter
                injection hiter with h1 h2
                rw [← h1, ← h2] at hsn
                rw [hstep] at hsn
                exact Option.noConfusion hsn
              | succ j =>
                rw [hiter1] at hiter
                exact ihnot.mpr ⟨j, by omega, es, g2, hiter, hnes, hsn⟩
          · rw [hloop, show spIter p m nc (fuel + 1) (e1 :: e2 :: rest, gen) =
              spIter p m nc fuel st2 from hiter1 fuel]
            exact ihlim

/-- C2 counterexample: a single edge missing the `−` terminal is a terminal
state of the loop, and the reported error is the missing-terminal message,
not the not-reducible message the spec assigns to every non-success
terminal state. -/
theorem c2_counterexample :
    nodeCircuitToSeriesParallelCircuit
      ⟨"nc", some "n0", some "n1",
        [⟨"n0", none, 0, 0⟩, ⟨"n1", none, 0, 0⟩, ⟨"n2", none, 0, 0⟩],
        [NodeCircuitEdge.resistor "r1" none 5 "n0" "n2"]⟩ 0 =
      .error "Circuit does not connect + and - terminals." ∧
    "Circuit does not connect + and - terminals." ≠
      "Circuit is not reducible by series/parallel reductions." := by
  exact ⟨rfl, by decide⟩

/-- Witness for C2: one matching edge reduces immediately to a circuit. -/
theorem c2_witness :
    spLoop 0 1 2 10000 ([⟨"e1", 0, 1, Expr.resistor "r1" none 5⟩], 0) =
      .ok (⟨"circuit_0", .straight, some [Node.resistor "r1" none 5 false],
        none, none, none⟩, 1) := by
  apply ((c2_rewrite_loop_terminal 0 1 2 10000
    ([⟨"e1", 0, 1, Expr.resistor "r1" none 5⟩], 0)).1 _ _).mpr
  refine ⟨0, by omega, ⟨"e1", 0, 1, Expr.resistor "r1" none 5⟩, 0, rfl, rfl, ?_⟩
  rw [oneEdgeResult, if_neg (by decide)]
  simp only [canonicalOrient]
  rw [if_pos (by decide)]
  rw [show exprToTreeNode 0 (Expr.resistor "r1" none 5) =
    (Node.resistor "r1" none 5 false, 0) from by rw [exprToTreeNode]]
  rfl

theorem crlGo_levels :
    ∀ (fuel : Nat) (current : Circuit) (i : Nat) (levels : List ReductionLevel) (gen : Nat),
      (crlGo fuel current i levels gen).2 = levels ++ crlChain fuel current i gen := by
  intro fuel
  induction fuel with
  | zero =>
    intro current i levels gen
    simp [crlGo, crlChain]
  | succ fuel ih =>
    intro current i levels gen
    rw [crlGo, crlChain]
    cases hred : reduceOneLevel current i gen with
    | error e => simp
    | ok r =>
      obtain ⟨c2, reds, la, lal, gen2⟩ := r
      by_cases hr : reds.length = 0
      · simp [hr]
      · simp only [if_neg hr]
        rw [ih]
        simp

/-- C7: `computeReductionLevels` always returns a level list whose level 0
is the untouched input circuit with index 0, an empty reduction list and
empty latex, and in every outcome — a reduction error, the fixed point, or
the "Reduction limit reached." error at the level ceiling — the returned
levels are exactly level 0 followed by the successfully computed levels
(`crlChain`) up to the stopping point. -/
theorem c7_levels_partial (circuit : Circuit) (maxLevels gen : Nat) :
    (computeReductionLevels circuit maxLevels gen).2 =
      ⟨0, circuit, [], "", ""⟩ :: crlChain maxLevels circuit 1 gen ∧
    (computeReductionLevels circuit maxLevels gen).2.head? =
      some ⟨0, circuit, [], "", ""⟩ := by
  have h := crlGo_levels maxLevels circuit 1 [⟨0, circuit, [], "", ""⟩] gen
  rw [computeReductionLevels]
  constructor
  · rw [h]
    rfl
  · rw [h]
    rfl
